import Mathlib

/-!
Verification of the Kdenlive (MLT) XML adapter
(`contrib/opentimelineio_contrib/adapters/kdenlive.py`).

The adapter's numeric values are Python floats; they are shallowly embedded
as exact fractions.  `Q` is an unnormalised fraction (numerator, denominator):
all operations of the adapter (addition, multiplication, division, rounding,
truncation) are gcd-free on this representation, so every concrete run of the
embedded code can be evaluated by the kernel.  Numeric equality of two `Q`
(what Python's `==` on floats observes) is `Q.eqb`, cross multiplication.
`toRat` maps `Q` to `ℚ` and is used in proofs only.
-/

structure Q where
  n : Int
  d : Int
deriving DecidableEq

/-- The rational value of a fraction (proof-side view of `Q`). -/
def toRat (q : Q) : ℚ := (q.n : ℚ) / (q.d : ℚ)

/-- Numeric equality of fractions: what Python float equality observes. -/
def Q.eqb (a b : Q) : Bool := a.n * b.d == b.n * a.d

def Q.ofInt (z : Int) : Q := ⟨z, 1⟩

def Q.add (a b : Q) : Q := ⟨a.n * b.d + b.n * a.d, a.d * b.d⟩

def Q.sub (a b : Q) : Q := ⟨a.n * b.d - b.n * a.d, a.d * b.d⟩

def Q.mul (a b : Q) : Q := ⟨a.n * b.n, a.d * b.d⟩

/-- Division, keeping the denominator nonnegative.  The embedded code only
divides after the Python code would have survived (division by numeric zero
is modelled as an explicit error at each use site). -/
def Q.div (a b : Q) : Q :=
  if b.n < 0 then ⟨-(a.n * b.d), -(a.d * b.n)⟩ else ⟨a.n * b.d, a.d * b.n⟩

/-- Python `int()` on a float: truncation toward zero. -/
def Q.pyInt (q : Q) : Int := q.n.tdiv q.d

/-- Python `round()` to an integer: round half to even. -/
def Q.halfEven (q : Q) : Int :=
  let f := q.n.fdiv q.d
  let r := q.n - f * q.d
  if 2 * r < q.d then f
  else if q.d < 2 * r then f + 1
  else if f % 2 = 0 then f else f + 1

/-- Python `round(x, 3)`. -/
def Q.round3 (q : Q) : Q := ⟨Q.halfEven ⟨q.n * 1000, q.d⟩, 1000⟩

/-- Python `round(x, 2)`. -/
def Q.round2 (q : Q) : Q := ⟨Q.halfEven ⟨q.n * 100, q.d⟩, 100⟩

/-- A fraction in canonical integer form (denominator literally 1). -/
def Q.isIntForm (q : Q) : Bool := q.d == 1

/- ### Decimal digit strings (Python `str` on integers, `float` parsing) -/

/-- Digit-list value, most significant first, with accumulator. -/
def valD : List Char → Nat → Nat
  | [], a => a
  | c :: t, a => valD t (a * 10 + (c.toNat - 48))

/-- Decimal digits of `n` (fuel-driven so the kernel can evaluate it). -/
def natStrAux : Nat → Nat → List Char
  | 0, _ => []
  | fuel + 1, n =>
    if n < 10 then [Nat.digitChar n]
    else natStrAux fuel (n / 10) ++ [Nat.digitChar (n % 10)]

/-- Decimal representation of a natural number, as Python `str` produces. -/
def natStr (n : Nat) : List Char := natStrAux (n + 1) n

/-- Python `str(int(..))`: decimal representation of an integer. -/
def intStr (z : Int) : String :=
  ⟨if z < 0 then '-' :: natStr (-z).toNat else natStr z.toNat⟩

/-- Split a character list on a separator (the pieces, in order; at least
one piece, possibly empty, as Python `str.split` with an argument). -/
def splitChar (c : Char) : List Char → List (List Char)
  | [] => [[]]
  | x :: xs =>
    match splitChar c xs with
    | [] => [[]]
    | g :: gs => if x = c then [] :: g :: gs else (x :: g) :: gs

/-- Strip leading and trailing whitespace (Python `float` does this). -/
def trimWs (cs : List Char) : List Char :=
  ((cs.dropWhile Char.isWhitespace).reverse.dropWhile Char.isWhitespace).reverse

/-- Python `float(text)` on the decimal fragment of its grammar: optional
sign, digits with at most one point, surrounding whitespace allowed.
`none` models the `ValueError` that `float` raises. -/
def parseFloatMag (t : List Char) : Option Q :=
  match splitChar '.' t with
  | [ip] =>
    if ip ≠ [] ∧ ip.all Char.isDigit then some ⟨valD ip 0, 1⟩ else none
  | [ip, fp] =>
    if (ip ++ fp) ≠ [] ∧ ip.all Char.isDigit ∧ fp.all Char.isDigit then
      some ⟨(valD ip 0 : Int) * (10 : Int) ^ fp.length + valD fp 0, (10 : Int) ^ fp.length⟩
    else none
  | _ => none

def parseFloatSigned (t : List Char) : Option Q :=
  if t.head? = some '-' then (parseFloatMag t.tail).map (fun q => ⟨-q.n, q.d⟩)
  else if t.head? = some '+' then parseFloatMag t.tail
  else parseFloatMag t

def parseFloat (cs : List Char) : Option Q :=
  parseFloatSigned (trimWs cs)

/-- `mapM` over `Option`, written out for proof transparency. -/
def mapMO (f : α → Option β) : List α → Option (List β)
  | [] => some []
  | a :: l =>
    match f a, mapMO f l with
    | some b, some bs => some (b :: bs)
    | _, _ => none

/- ### The timecode codec (`time` in kdenlive.py) -/

structure RationalTime where
  value : Q
  rate : Q
deriving DecidableEq

structure TimeRange where
  start_time : RationalTime
  duration : RationalTime
deriving DecidableEq

/-- Modelled from the spec: `RationalTime` arithmetic of the external
timeline library must be rate-consistent; at equal rates it adds the values,
otherwise the right operand is rescaled to the left rate. -/
def RationalTime.add (a b : RationalTime) : RationalTime :=
  if a.rate.eqb b.rate then ⟨a.value.add b.value, a.rate⟩
  else ⟨a.value.add ((b.value.mul a.rate).div b.rate), a.rate⟩

/-- Modelled from the spec: subtraction, rate-consistent as `RationalTime.add`. -/
def RationalTime.sub (a b : RationalTime) : RationalTime :=
  if a.rate.eqb b.rate then ⟨a.value.sub b.value, a.rate⟩
  else ⟨a.value.sub ((b.value.mul a.rate).div b.rate), a.rate⟩

/-- Modelled from the spec: equality of the external library's
`RationalTime` compares the time points numerically (value at rate). -/
def RationalTime.eqb (a b : RationalTime) : Bool :=
  (a.value.div a.rate).eqb (b.value.div b.rate)

/-- The comma-to-point substitution `clock.replace(",", ".")`. -/
def commaDot (c : Char) : Char := if c = ',' then '.' else c

/-- The accumulating loop of `time`: fields least significant first,
current multiplier, accumulator. -/
def timeFold : List Q → Q → Q → Q
  | [], _, f => f
  | x :: xs, m, f => timeFold xs (m.mul ⟨60, 1⟩) (f.add (x.mul m))

/-- `time(clock, fps)` of kdenlive.py.  `none` models the exception Python
raises when a field is not numeric. -/
def time (clock : String) (fps : Q) : Option RationalTime :=
  match mapMO parseFloat (splitChar ':' (clock.data.map commaDot)) with
  | none => none
  | some hms =>
    some ⟨Q.round3 (timeFold hms.reverse
      (if hms.length > 1 then fps else ⟨1, 1⟩) ⟨0, 1⟩), fps⟩

/- ### The keyframe codec (`keyframes` in kdenlive.py) -/

/-- A character the regex class `[^|~=;]` rejects. -/
def isKfSpecial (c : Char) : Bool := c = '|' || c = '~' || c = '=' || c = ';'

/-- One attempted match of `([^|~=;]*)[|~]?=([^;]*)` at the head of the
input: the two groups and the remaining input, or `none`. -/
def kfMatchAt (cs : List Char) : Option ((List Char × List Char) × List Char) :=
  match cs.dropWhile (fun c => !isKfSpecial c) with
  | '=' :: r2 =>
    some ((cs.takeWhile (fun c => !isKfSpecial c), r2.takeWhile (· ≠ ';')),
      r2.dropWhile (· ≠ ';'))
  | c :: '=' :: r2 =>
    if c = '|' ∨ c = '~' then
      some ((cs.takeWhile (fun c => !isKfSpecial c), r2.takeWhile (· ≠ ';')),
        r2.dropWhile (· ≠ ';'))
    else none
  | _ => none

/-- The scan loop of `re.findall`: try a match at each position, consume it
or advance one character.  Fuel-driven (a match always consumes at least
the `=`), so the kernel can evaluate it. -/
def kfScan : Nat → List Char → List (List Char × List Char)
  | 0, _ => []
  | _ + 1, [] => []
  | fuel + 1, c :: cs =>
    match kfMatchAt (c :: cs) with
    | some (g, rest) => g :: kfScan fuel rest
    | none => kfScan fuel cs

/-- `re.findall("([^|~=;]*)[|~]?=([^;]*)", kfstring)`. -/
def findallKV (cs : List Char) : List (List Char × List Char) :=
  kfScan cs.length cs

/-- Python `dict` insertion: overwrite an existing key (keys compared as
the library compares `RationalTime`), else append. -/
def dictInsert (k : RationalTime) (v : String) :
    List (RationalTime × String) → List (RationalTime × String)
  | [] => [(k, v)]
  | (a, b) :: t => if a.eqb k then (a, v) :: t else (a, b) :: dictInsert k v t

def pyDict (l : List (RationalTime × String)) : List (RationalTime × String) :=
  l.foldl (fun acc p => dictInsert p.1 p.2 acc) []

/-- `keyframes(kfstring, rate)` of kdenlive.py: the matched pairs, each time
parsed by `time`, collected into a dict.  `none` models the exception raised
when a matched time field is not numeric. -/
def keyframes (kfstring : String) (rate : Q) : Option (List (RationalTime × String)) :=
  match mapMO (fun g => (time (String.mk g.1) rate).map fun t => (t, String.mk g.2))
      (findallKV kfstring.data) with
  | none => none
  | some l => some (pyDict l)

/- ### The timeline data model (public shape of the external library) -/

inductive TrackKind where
  | video
  | audio
deriving DecidableEq

/-- Media references: External / Generator (SolidColor et al.) / Missing. -/
inductive MediaRef where
  | external (target_url : String) (available_range : TimeRange)
  | generator (generator_kind : String) (parameters : List (String × String))
      (available_range : TimeRange)
  | missing
deriving DecidableEq

def MediaRef.is_missing_reference : MediaRef → Bool
  | .missing => true
  | _ => false

inductive EffectMeta where
  | dur (d : RationalTime)
  | kfs (m : List (RationalTime × String))
deriving DecidableEq

structure Effect where
  effect_name : String
  meta : EffectMeta
deriving DecidableEq

structure Clip where
  name : String
  source_range : TimeRange
  media_reference : MediaRef
  effects : List Effect
deriving DecidableEq

structure Gap where
  duration : RationalTime
deriving DecidableEq

structure Transition where
  transition_type : String
  in_offset : RationalTime
  out_offset : RationalTime
deriving DecidableEq

inductive Item where
  | gap (g : Gap)
  | clip (c : Clip)
  | transition (t : Transition)
deriving DecidableEq

structure Track where
  name : String
  kind : TrackKind
  items : List Item
deriving DecidableEq

structure Timeline where
  name : String
  tracks : List Track
deriving DecidableEq

def Track.clips (tr : Track) : List Clip :=
  tr.items.filterMap fun i => match i with | .clip c => some c | _ => none

/-- `timeline.each_clip()`: every clip, track by track, in order. -/
def eachClip (t : Timeline) : List Clip := (t.tracks.map Track.clips).flatten

def Item.durRate : Item → Option Q
  | .gap g => some g.duration.rate
  | .clip c => some c.source_range.duration.rate
  | .transition _ => none

/-- Modelled from the spec: `timeline.duration().rate` of the external
timeline library.  The spec has every item time at the single project frame
rate, so the duration's rate is that common rate; it is taken from the first
gap or clip, with the library's default rate 1 for an empty timeline. -/
def timelineRate (t : Timeline) : Q :=
  ((t.tracks.map (fun tr => tr.items.filterMap Item.durRate)).flatten.head?).getD ⟨1, 1⟩

/- ### The XML element model (what `xml.etree.ElementTree` hands over) -/

inductive PyErr where
  | attributeError
  | keyError
  | valueError
  | typeError
  | zeroDivisionError
  | indexError
deriving DecidableEq

inductive Elem where
  | mk (tag : String) (attrs : List (String × String)) (text : Option String)
      (children : List Elem)

def Elem.tag : Elem → String
  | .mk t _ _ _ => t

def Elem.attrs : Elem → List (String × String)
  | .mk _ a _ _ => a

def Elem.text : Elem → Option String
  | .mk _ _ x _ => x

def Elem.children : Elem → List Elem
  | .mk _ _ _ cs => cs

/-- First-match association lookup (attribute dictionaries, parameter
dictionaries, the media library). -/
def alook (k : String) : List (String × α) → Option α
  | [] => none
  | (a, b) :: t => if a = k then some b else alook k t

/-- `element.get(attr)`. -/
def Elem.get (e : Elem) (k : String) : Option String := alook k e.attrs

/-- `element.find(tag)`: first direct child with the tag. -/
def findIn (t : String) : List Elem → Option Elem
  | [] => none
  | c :: cs => if c.tag = t then some c else findIn t cs

def Elem.find (e : Elem) (t : String) : Option Elem := findIn t e.children

/-- `element.findall(tag)`: all direct children with the tag, in order. -/
def Elem.findall (e : Elem) (t : String) : List Elem :=
  e.children.filter fun c => c.tag = t

/-- `element.find("tag[@attr='v']")`: first direct child with the tag
carrying the attribute value. -/
def findAttrIn (t a v : String) : List Elem → Option Elem
  | [] => none
  | c :: cs => if c.tag = t ∧ c.get a = some v then some c else findAttrIn t a v cs

def Elem.findWithAttr (e : Elem) (t a v : String) : Option Elem :=
  findAttrIn t a v e.children

/-- `mlt_property(element, name)` of kdenlive.py:
`element.findtext("property[@name='..']")` — the text of the first matching
property child (the empty string when it has no text), `none` when absent. -/
def mlt_property (e : Elem) (name : String) : Option String :=
  (findAttrIn "property" "name" name e.children).map fun p => p.text.getD ""

/-- Python truthiness of `element.get(..)` / `findtext(..)` results. -/
def pyBool : Option String → Bool
  | none => false
  | some s => s ≠ ""

/-- Python `A or B` on two optional strings. -/
def pyOr (a b : Option String) : Option String :=
  match a with
  | some s => if s = "" then b else some s
  | none => b

mutual
/-- All elements with an `id` attribute, in document order:
the table `ET.XMLID` builds. -/
def elemIds : Elem → List (String × Elem)
  | .mk t a x cs =>
    (match alook "id" a with
     | some i => [(i, Elem.mk t a x cs)]
     | none => []) ++ elemIdsL cs

def elemIdsL : List Elem → List (String × Elem)
  | [] => []
  | e :: es => elemIds e ++ elemIdsL es
end

/-- The `byid` dictionary of `ET.XMLID` (on duplicate ids the last element
wins, as repeated `dict` assignment does). -/
def byid (root : Elem) (k : String) : Option Elem := alook k (elemIds root).reverse

mutual
/-- `element.iter()`: the element itself and all descendants, preorder. -/
def iterAll : Elem → List Elem
  | .mk t a x cs => Elem.mk t a x cs :: iterAllL cs

def iterAllL : List Elem → List Elem
  | [] => []
  | e :: es => iterAll e ++ iterAllL es
end

/- ### The project reader (`read_from_string` in kdenlive.py).
The XML text-to-tree step of `xml.etree.ElementTree` is the external
library's; the reader is embedded from the parsed tree (`ET.XMLID`'s
pair of root element and id table) onward. -/

/-- Exception propagation: run the next step only when the previous one
did not raise. -/
def exBind (x : Except PyErr α) (f : α → Except PyErr β) : Except PyErr β :=
  match x with
  | .error e => .error e
  | .ok a => f a

/-- A value Python goes on to use, or the exception the use raises on
`None`. -/
def orErr (o : Option α) (e : PyErr) : Except PyErr α :=
  match o with
  | some a => .ok a
  | none => .error e

def trackKindOf (subtractor : Elem) : TrackKind :=
  if pyBool (mlt_property subtractor "kdenlive:audio_track") then .audio else .video

/-- `time(element.get(attr), rate)` with the Python failure modes:
a missing attribute is an `AttributeError` (`None.replace`), an unparsable
field a `ValueError`. -/
def timeAttr (e : Elem) (a : String) (rate : Q) : Except PyErr RationalTime :=
  exBind (orErr (e.get a) .attributeError) fun s =>
  orErr (time s rate) .valueError

/-- The media-reference classification of an entry (lines 94-105): the
producer service selects External / SolidColor-Generator / Missing. -/
def classifyRef (producer : Elem) (ar : TimeRange) : MediaRef :=
  if mlt_property producer "mlt_service" = some "avformat"
      ∨ mlt_property producer "mlt_service" = some "avformat-novalidate"
      ∨ mlt_property producer "mlt_service" = some "qimage" then
    .external ((pyOr (mlt_property producer "kdenlive:originalurl")
      (mlt_property producer "resource")).getD "") ar
  else if mlt_property producer "mlt_service" = some "color" then
    .generator "SolidColor" [("color", (mlt_property producer "resource").getD "")] ar
  else .missing

/-- The effect-mapping table applied to one filter element (lines 111-136):
zero or one effect, or the Python failure. -/
def effectOf (rate : Q) (f : Elem) : Except PyErr (Option Effect) :=
  match mlt_property f "kdenlive_id" with
  | some "fadein" =>
    exBind (timeAttr f "out" rate) fun o =>
    exBind (timeAttr f "in" rate) fun i =>
    .ok (some ⟨"audio_fade_in", .dur (o.sub i)⟩)
  | some "fadeout" =>
    exBind (timeAttr f "out" rate) fun o =>
    exBind (timeAttr f "in" rate) fun i =>
    .ok (some ⟨"audio_fade_out", .dur (o.sub i)⟩)
  | some "fade_from_black" =>
    exBind (timeAttr f "out" rate) fun o =>
    .ok (some ⟨"video_fade_in", .dur o⟩)
  | some "fade_to_black" =>
    exBind (timeAttr f "out" rate) fun o =>
    exBind (timeAttr f "in" rate) fun i =>
    .ok (some ⟨"video_fade_out", .dur (o.sub i)⟩)
  | some "volume" =>
    exBind (orErr (mlt_property f "level") .typeError) fun lv =>
    exBind (orErr (keyframes lv rate) .valueError) fun m =>
    .ok (some ⟨"volume", .kfs m⟩)
  | some "brightness" =>
    exBind (orErr (mlt_property f "level") .typeError) fun lv =>
    exBind (orErr (keyframes lv rate) .valueError) fun m =>
    .ok (some ⟨"brightness", .kfs m⟩)
  | _ => .ok none

def readEffects (rate : Q) : List Elem → Except PyErr (List Effect)
  | [] => .ok []
  | f :: rest =>
    exBind (effectOf rate f) fun oe =>
    exBind (readEffects rate rest) fun es =>
    .ok (match oe with | some eff => eff :: es | none => es)

def readItems (byidF : String → Option Elem) (rate : Q) :
    List Elem → Except PyErr (List Item)
  | [] => .ok []
  | item :: rest =>
    if item.tag = "blank" then
      exBind (orErr (item.get "length") .attributeError) fun s =>
      exBind (orErr (time s rate) .valueError) fun t =>
      exBind (readItems byidF rate rest) fun its =>
      .ok (.gap ⟨t⟩ :: its)
    else if item.tag = "entry" then
      exBind (orErr (item.get "producer") .keyError) fun pid =>
      exBind (orErr (byidF pid) .keyError) fun producer =>
      exBind (timeAttr producer "in" rate) fun pin =>
      exBind (timeAttr producer "out" rate) fun pout =>
      exBind (timeAttr item "in" rate) fun sin =>
      exBind (timeAttr item "out" rate) fun sout =>
      exBind (readEffects rate (item.findall "filter")) fun effs =>
      exBind (readItems byidF rate rest) fun its =>
      .ok (.clip ⟨(mlt_property producer "kdenlive:clipname").getD "",
        ⟨sin, sout.sub sin⟩, classifyRef producer ⟨pin, pout.sub pin⟩, effs⟩ :: its)
    else
      readItems byidF rate rest

def readSubtracks (byidF : String → Option Elem) (rate : Q) :
    List Elem → Except PyErr (List Item)
  | [] => .ok []
  | st :: rest =>
    exBind (orErr (st.get "producer") .keyError) fun pid =>
    exBind (orErr (byidF pid) .keyError) fun playlist =>
    exBind (readItems byidF rate (iterAll playlist)) fun items1 =>
    exBind (readSubtracks byidF rate rest) fun items2 =>
    .ok (items1 ++ items2)

def readTracks (byidF : String → Option Elem) (rate : Q) :
    List Elem → Except PyErr (List Track)
  | [] => .ok []
  | mtk :: rest =>
    if mtk.get "producer" = some "black_track" then readTracks byidF rate rest
    else
      exBind (orErr (mtk.get "producer") .keyError) fun pid =>
      exBind (orErr (byidF pid) .keyError) fun subtractor =>
      exBind (readSubtracks byidF rate (subtractor.findall "track")) fun items =>
      exBind (readTracks byidF rate rest) fun ts =>
      .ok (⟨(mlt_property subtractor "kdenlive:track_name").getD "",
        trackKindOf subtractor, items⟩ :: ts)

/-- Python `int(text)`: optional sign, decimal digits, surrounding
whitespace allowed; `none` models the `ValueError`. -/
def parseIntMag (t : List Char) : Option Int :=
  if t ≠ [] ∧ t.all Char.isDigit then some (valD t 0) else none

def parseIntSigned (t : List Char) : Option Int :=
  if t.head? = some '-' then (parseIntMag t.tail).map Int.neg
  else if t.head? = some '+' then parseIntMag t.tail
  else parseIntMag t

def parseIntPy (s : String) : Option Int :=
  parseIntSigned (trimWs s.data)

/-- Python list indexing semantics: a negative index counts from the end. -/
def pyIndex (b : Int) (len : Nat) : Int :=
  if b - 1 < 0 then b - 1 + len else b - 1

/-- Append a transition to the track at a (possibly negative, Python-style)
index of the track list. -/
def readTransitions (rate : Q) : List Elem → List Track → Except PyErr (List Track)
  | [], ts => .ok ts
  | tr :: rest, ts =>
    if mlt_property tr "kdenlive_id" = some "wipe" then
      exBind (orErr (mlt_property tr "b_track") .typeError) fun bs =>
      exBind (orErr (parseIntPy bs) .valueError) fun b =>
      exBind (timeAttr tr "in" rate) fun tin =>
      exBind (timeAttr tr "out" rate) fun tout =>
      if 0 ≤ pyIndex b ts.length ∧ pyIndex b ts.length < (ts.length : Int) then
        exBind (orErr (ts.get? (pyIndex b ts.length).toNat) .indexError) fun tk =>
        readTransitions rate rest
          (ts.set (pyIndex b ts.length).toNat
            ⟨tk.name, tk.kind, tk.items ++ [.transition ⟨"SMPTE_Dissolve", tin, tout⟩]⟩)
      else .error .indexError
    else readTransitions rate rest ts

/-- `read_from_string` of kdenlive.py, from the parsed element tree onward
(`ET.XMLID`'s id table is `byid`).  Python exceptions surface as `.error`. -/
def read_from_string (mlt : Elem) : Except PyErr Timeline :=
  exBind (orErr (mlt.find "profile") .attributeError) fun profile =>
  exBind (orErr (profile.get "frame_rate_num") .typeError) fun ns =>
  exBind (orErr (parseFloat ns.data) .valueError) fun num =>
  exBind (orErr (parseFloat ((profile.get "frame_rate_den").getD "1").data)
    .valueError) fun den =>
  if den.eqb ⟨0, 1⟩ then .error .zeroDivisionError
  else
    exBind (orErr (mlt.findWithAttr "tractor" "global_feed" "1")
      .attributeError) fun maintractor =>
    exBind (readTracks (byid mlt) (num.div den) (maintractor.findall "track")) fun ts =>
    exBind (readTransitions (num.div den) (maintractor.findall "transition") ts) fun ts2 =>
    .ok ⟨(mlt.get "name").getD "Kdenlive imported timeline", ts2⟩

/- ### The project writer (`write_to_string` in kdenlive.py).
The tree-to-XML-text serialisation of `xml.etree.ElementTree` is the
external library's; the writer is embedded up to the finished element tree. -/

/-- `add_property(element, name, value)`: the property sub-element it adds. -/
def property_elem (name value : String) : Elem :=
  .mk "property" [("name", name)] (some value) []

/-- The synthesized producer / tractor / playlist id strings
(`f"producer{..}"`, `f"tractor{..}"`, `f"playlist{..}_{1,2}"`). -/
def producerId (k : Nat) : String := ⟨"producer".data ++ natStr k⟩

def tractorId (k : Nat) : String := ⟨"tractor".data ++ natStr k⟩

def playlistId (k layer : Nat) : String :=
  ⟨"playlist".data ++ natStr k ++ '_' :: natStr layer⟩

/-- The lowercased `os.path.splitext(url)[1]`: the extension (with its dot)
of the last path component, empty when the component has no dot after a
non-dot character. -/
def extOf (url : String) : List Char :=
  let bn := ((splitChar '/' url.data).getLast?).getD []
  let parts := splitChar '.' bn
  if parts.length ≥ 2 ∧ parts.dropLast.any (· ≠ []) then
    ('.' :: (parts.getLast?).getD []).map Char.toLower
  else []

def serviceFor (url : String) : String :=
  if extOf url ∈ [".png".data, ".jpg".data, ".jpeg".data] then "qimage" else "avformat"

/-- The `(rate_num, rate_den)` table of `write_to_string` (lines 167-171):
the three canonical NTSC rates matched by rounding to 2 decimals, otherwise
`(int(rate), 1)`. -/
def rateNumDen (rate : Q) : Int × Int :=
  if (rate.round2).eqb ⟨2398, 100⟩ then (24000, 1001)
  else if (rate.round2).eqb ⟨2997, 100⟩ then (30000, 1001)
  else if (rate.round2).eqb ⟨5994, 100⟩ then (60000, 1001)
  else (rate.pyInt, 1)

/-- A decimal rendering for the profile `description` attribute
(`f"HD 1080p {rate} fps"`).  Python's float repr is not modelled exactly;
the attribute is constant metadata that nothing reads back. -/
def floatS (q : Q) : String :=
  if q.d == 1 then intStr q.n ++ ".0" else intStr q.n ++ "/" ++ intStr q.d

def profileElem (rate : Q) : Elem :=
  .mk "profile"
    [("description", "HD 1080p " ++ floatS rate ++ " fps"),
     ("frame_rate_num", intStr (rateNumDen rate).1),
     ("frame_rate_den", intStr (rateNumDen rate).2),
     ("width", "1920"), ("height", "1080"),
     ("display_aspect_num", "16"), ("display_aspect_den", "9"),
     ("sample_aspect_num", "1"), ("sample_aspect_den", "1"),
     ("colorspace", "709"), ("progressive", "1")] none []

/-- The producer element built for a new media-library entry. -/
def mkProducer (idx : Nat) (svc res : String) (ar : TimeRange) (nm : String) : Elem :=
  .mk "producer"
    [("id", producerId idx),
     ("in", intStr ar.start_time.value.pyInt),
     ("out", intStr ((ar.start_time.add ar.duration).value.pyInt))] none
    ([property_elem "mlt_service" svc, property_elem "resource" res] ++
      (if nm ≠ "" then [property_elem "kdenlive:clipname" nm] else []))

/-- The service / resource / range classification of the media-library loop
(lines 192-201); `.error` models the `KeyError` on a SolidColor generator
without a `color` parameter. -/
def clipSvcRes (c : Clip) : Except PyErr (Option (String × String × TimeRange)) :=
  match c.media_reference with
  | .external u ar => .ok (some (serviceFor u, u, ar))
  | .generator k ps ar =>
    if k = "SolidColor" then
      exBind (orErr (alook "color" ps) .keyError) fun v => .ok (some ("color", v, ar))
    else .ok none
  | .missing => .ok none

/-- The media-library loop: the association `resource -> producer element`
(in insertion order) and the final value of Python's leaked loop variable
`resource`. -/
def mediaLib : List Clip → List (String × Elem) → Option String →
    Except PyErr (List (String × Elem) × Option String)
  | [], acc, res => .ok (acc, res)
  | c :: rest, acc, _ =>
    exBind (clipSvcRes c) fun sr =>
      match sr with
      | none => mediaLib rest acc none
      | some (s, r, ar) =>
        if s ≠ "" ∧ r ≠ "" ∧ (alook r acc).isNone then
          mediaLib rest (acc ++ [(r, mkProducer acc.length s r ar c.name)]) (some r)
        else mediaLib rest acc (some r)

def binEntry (i : Nat) : Elem := .mk "entry" [("producer", producerId i)] none []

def mainBin (count : Nat) : Elem :=
  .mk "playlist" [("id", "main_bin")] none
    ([property_elem "kdenlive:docproperties.decimalPoint" ".",
      property_elem "kdenlive:docproperties.version" "0.98",
      property_elem "xml_retain" "1"] ++
      (List.range count).map binEntry ++
      [.mk "entry" [("producer", "unsupported")] none []])

def unsupportedProducer : Elem :=
  .mk "producer" [("id", "unsupported")] none
    [property_elem "mlt_service" "qtext", property_elem "family" "Courier",
     property_elem "fgcolour" "#ff808080", property_elem "bgcolour" "#00000000",
     property_elem "text" "Unsupported clip type",
     property_elem "kdenlive:clipname" "Unsupported clip type"]

def blackProducer : Elem :=
  .mk "producer" [("id", "black_track")] none
    [property_elem "resource" "black", property_elem "mlt_service" "color"]

/-- The per-item `resource` assignment of the track loop (lines 262-272).
A branch that assigns nothing leaves the Python variable at its previous
value (`res`); the `KeyError` is a SolidColor generator without a `color`
parameter. -/
def itemResource (res : Option String) (m : MediaRef) : Except PyErr (Option String) :=
  match m with
  | .missing => .ok (some "unhandled_type")
  | .external u _ => .ok (some u)
  | .generator k ps _ =>
    if k = "SolidColor" then
      exBind (orErr (alook "color" ps) .keyError) fun v => .ok (some v)
    else .ok res

/-- The entry `producer` attribute (lines 273-277): the deduplicated library
producer's id for a non-missing reference — a `KeyError` when the resource is
not a library key — and the fixed `unsupported` id for a missing reference. -/
def entryProducerId (lib : List (String × Elem)) (m : MediaRef)
    (res1 : Option String) : Except PyErr String :=
  if m.is_missing_reference then .ok "unsupported"
  else
    exBind (orErr res1 .keyError) fun r =>
    exBind (orErr (alook r lib) .keyError) fun p =>
    .ok ((alook "id" p.attrs).getD "")

/-- The item loop of one track: the children of the first playlist, and the
final state of the `resource` variable. -/
def writeItems (lib : List (String × Elem)) :
    List Item → Option String → Except PyErr (List Elem × Option String)
  | [], res => .ok ([], res)
  | .gap g :: rest, res =>
    exBind (writeItems lib rest res) fun out =>
    .ok (.mk "blank" [("length", intStr g.duration.value.pyInt)] none [] :: out.1, out.2)
  | .clip c :: rest, res =>
    exBind (itemResource res c.media_reference) fun res1 =>
    exBind (entryProducerId lib c.media_reference res1) fun pid =>
    exBind (writeItems lib rest res1) fun out =>
    .ok (.mk "entry"
      [("producer", pid),
       ("in", intStr c.source_range.start_time.value.pyInt),
       ("out", intStr ((c.source_range.duration.add
         c.source_range.start_time).value.pyInt))] none [] :: out.1, out.2)
  | .transition _ :: rest, res => writeItems lib rest res

def hideVal (k : TrackKind) : String := if k = TrackKind.video then "audio" else "video"

/-- The `kdenlive:audio_track` property list of an audio track (lines 253-256). -/
def audioPropsOf (k : TrackKind) : List Elem :=
  if k = TrackKind.audio then [property_elem "kdenlive:audio_track" "1"] else []

/-- The subtractor element of one track (lines 238-248, 253-254). -/
def subtractorOf (tr : Track) (k : Nat) : Elem :=
  .mk "tractor" [("id", tractorId k)] none
    ([property_elem "kdenlive:track_name" tr.name,
      .mk "track" [("producer", playlistId k 1), ("hide", hideVal tr.kind)] none [],
      .mk "track" [("producer", playlistId k 2), ("hide", hideVal tr.kind)] none []]
      ++ audioPropsOf tr.kind)

def pl1Of (tr : Track) (k : Nat) (items1 : List Elem) : Elem :=
  .mk "playlist" [("id", playlistId k 1)] none (audioPropsOf tr.kind ++ items1)

def pl2Of (tr : Track) (k : Nat) : Elem :=
  .mk "playlist" [("id", playlistId k 2)] none (audioPropsOf tr.kind)

/-- One track of the writer loop (lines 233-285): the two playlists, the
subtractor, and the threaded `resource` state. -/
def writeOneTrack (lib : List (String × Elem)) (tr : Track) (k : Nat)
    (res : Option String) : Except PyErr (Elem × Elem × Elem × Option String) :=
  exBind (writeItems lib tr.items res) fun out =>
  .ok (pl1Of tr k out.1, pl2Of tr k, subtractorOf tr k, out.2)

/-- The main tractor's reference to one subtractor. -/
def trackRefElem (k : Nat) : Elem := .mk "track" [("producer", tractorId k)] none []

/-- The track loop: the per-track children of the root (playlist 1,
playlist 2, subtractor, per track) and the main tractor's track references. -/
def writeTracks (lib : List (String × Elem)) :
    List Track → Nat → Option String → Except PyErr (List Elem × List Elem)
  | [], _, _ => .ok ([], [])
  | tr :: rest, k, res =>
    exBind (writeOneTrack lib tr k res) fun o =>
    exBind (writeTracks lib rest (k + 1) o.2.2.2) fun rec =>
    .ok (o.1 :: o.2.1 :: o.2.2.1 :: rec.1, trackRefElem k :: rec.2)

def maintractorOf (refs : List Elem) : Elem :=
  .mk "tractor" [("global_feed", "1")] none
    (.mk "track" [("producer", "black_track")] none [] :: refs)

/-- The finished root element of `write_to_string` on a `Timeline` (its
serialisation to XML text is the external library's step). -/
def mltElemOf (t : Timeline) (lib : List (String × Elem))
    (chunks refs : List Elem) : Elem :=
  .mk "mlt"
    [("version", "6.16.0"), ("title", t.name),
     ("LC_NUMERIC", "en_US.UTF-8"), ("producer", "main_bin")] none
    (profileElem (timelineRate t) :: lib.map Prod.snd ++
      [unsupportedProducer, mainBin lib.length, blackProducer] ++
      chunks ++ [maintractorOf refs])

def writeTimeline (t : Timeline) : Except PyErr Elem :=
  exBind (mediaLib (eachClip t) [] none) fun lr =>
  exBind (writeTracks lr.1 t.tracks 1 lr.2) fun cr =>
  .ok (mltElemOf t lr.1 cr.1 cr.2)

/-- The argument of `write_to_string`: a `Timeline`, or a serializable
collection of timelines. -/
inductive OtioInput where
  | timeline (t : Timeline)
  | collection (ts : List Timeline)

/-- `write_to_string` of kdenlive.py.  A collection longer than one is
unwrapped to its first element (line 158-160).  Modelled from the spec for
the non-unwrapped path: a collection is not a `Timeline`, so computing the
project duration on it fails (`AttributeError`) before any tree is built. -/
def write_to_string : OtioInput → Except PyErr Elem
  | .timeline t => writeTimeline t
  | .collection ts =>
    if 1 < ts.length then
      match ts with
      | t :: _ => writeTimeline t
      | [] => .error .indexError
    else .error .attributeError

/- ### Spec-side definitions and statement apparatus -/

/-- Powers of 60 (unit transitions of the clock notation). -/
def qpow60 : Nat → Q
  | 0 => ⟨1, 1⟩
  | n + 1 => (qpow60 n).mul ⟨60, 1⟩

/-- The weighted sum of the spec (most significant field first): each field
times `rate * 60 ^ (number of unit transitions inward)`. -/
def wsum : List Q → Q → Q
  | [], _ => ⟨0, 1⟩
  | x :: rest, r => (x.mul (r.mul (qpow60 rest.length))).add (wsum rest r)

/-- The spec's value of a clock string: the weighted sum for delimited
fields, the bare number itself (multiplier 1) for a single field. -/
def specSum (xs : List Q) (r : Q) : Q :=
  if xs.length = 1 then xs.headD ⟨0, 1⟩ else wsum xs r

/-- Proof-side round-half-even on `ℚ`. -/
def ratHalfEven (x : ℚ) : Int :=
  if Int.fract x < 1/2 then ⌊x⌋
  else if 1/2 < Int.fract x then ⌊x⌋ + 1
  else if ⌊x⌋ % 2 = 0 then ⌊x⌋ else ⌊x⌋ + 1

/-- Numeric equality of two `RationalTime`s seen as (value, rate) pairs. -/
def rtPairEqB (a b : RationalTime) : Bool :=
  a.value.eqb b.value && a.rate.eqb b.rate

/-- Numeric equality of two `TimeRange`s. -/
def trEqB (a b : TimeRange) : Bool :=
  rtPairEqB a.start_time b.start_time && rtPairEqB a.duration b.duration

def listEqByB (f : α → α → Bool) : List α → List α → Bool
  | [], [] => true
  | a :: as, b :: bs => f a b && listEqByB f as bs
  | _, _ => false

inductive ShapeK where
  | gapS
  | clipS
  | transS
deriving DecidableEq

def itemShapes (items : List Item) : List ShapeK :=
  items.map fun i => match i with
    | .gap _ => ShapeK.gapS
    | .clip _ => ShapeK.clipS
    | .transition _ => ShapeK.transS

def clipRangesOf (items : List Item) : List TimeRange :=
  items.filterMap fun i => match i with
    | .clip c => some c.source_range
    | _ => none

/-- Tracks agree as the round-trip claim asks: same kind, same item shape
sequence, numerically equal per-clip source ranges. -/
def trackMatchB (a b : Track) : Bool :=
  a.kind == b.kind && itemShapes a.items == itemShapes b.items &&
    listEqByB trEqB (clipRangesOf a.items) (clipRangesOf b.items)

/-- Writing a timeline and reading the document back. -/
def roundTrip (t : Timeline) : Except PyErr Timeline :=
  match writeTimeline t with
  | .ok e => read_from_string e
  | .error e => .error e

/-- The round trip succeeds and reproduces the timeline in the sense of the
claim (track count, kinds, item shapes, per-clip source ranges). -/
def roundTripMatches (t : Timeline) : Bool :=
  match roundTrip t with
  | .ok t2 => listEqByB trackMatchB t.tracks t2.tracks
  | .error _ => false

/-- The items the round-trip claim quantifies over, with the integrality
its counterexample forces: gaps are free, clips carry a nonempty External
reference, no effects, and integer-form source-range times at rate `r`. -/
def itemWFB (r : Q) : Item → Bool
  | .gap _ => true
  | .clip c =>
    (match c.media_reference with
     | .external u _ => u ≠ ""
     | _ => false) &&
    c.effects == [] &&
    c.source_range.start_time.rate == r && c.source_range.start_time.value.d == 1 &&
    c.source_range.duration.rate == r && c.source_range.duration.value.d == 1
  | .transition _ => false

def C1WF (t : Timeline) (r : Q) : Bool :=
  r.d == 1 && timelineRate t == r && t.tracks.all fun tr => tr.items.all (itemWFB r)

/-- The dedup key the claim names: External `target_url` or SolidColor
`color` parameter. -/
def clipResKey (c : Clip) : Option String :=
  match c.media_reference with
  | .external u _ => some u
  | .generator k ps _ => if k = "SolidColor" then alook "color" ps else none
  | .missing => none

def resourceKeys (t : Timeline) : List String := (eachClip t).filterMap clipResKey

/-- The timelines the dedup claim holds for: every clip is a nonempty
External reference, a SolidColor generator with a nonempty color, or
Missing; no resource collides with the synthetic `black` producer's. -/
def C2WF (t : Timeline) : Bool :=
  (eachClip t).all fun c =>
    match c.media_reference with
    | .external u _ => u ≠ "" && u ≠ "black"
    | .generator k ps _ =>
      if k = "SolidColor" then
        match alook "color" ps with
        | some v => v ≠ "" && v ≠ "black"
        | none => false
      else false
    | .missing => true

/-- The producer children of the root carrying a given `resource` property. -/
def producersWithResource (e : Elem) (r : String) : List Elem :=
  e.children.filter fun c => c.tag == "producer" && mlt_property c "resource" == some r

/-- The `frame_rate_num` / `frame_rate_den` attributes of the profile. -/
def profileNums (e : Elem) : Option (String × String) :=
  match e.find "profile" with
  | none => none
  | some p =>
    match p.get "frame_rate_num", p.get "frame_rate_den" with
    | some a, some b => some (a, b)
    | _, _ => none

def writeNums (t : Timeline) : Option (String × String) :=
  match writeTimeline t with
  | .ok e => profileNums e
  | .error _ => none

/-- The `producer` attributes of the entries of playlist `k`, layer 1, of a
written document. -/
def playlistEntries (x : Except PyErr Elem) (k : Nat) : List (Option String) :=
  match x with
  | .error _ => []
  | .ok e =>
    match findAttrIn "playlist" "id" (playlistId k 1) e.children with
    | none => []
    | some pl => (pl.findall "entry").map fun en => en.get "producer"

/-- The subtractor the writer builds for one track (projection of
`writeOneTrack`). -/
def writtenSub (tr : Track) : Option Elem :=
  match writeOneTrack [] tr 1 none with
  | .ok (_, _, s, _) => some s
  | .error _ => none

/-- The `hide` attributes of a subtractor's two layer references. -/
def subtractorHides (e : Elem) : List (Option String) :=
  (e.findall "track").map fun t => t.get "hide"

def isErr (x : Except PyErr Timeline) : Bool :=
  match x with
  | .error _ => true
  | .ok _ => false

/- ### Concrete instances -/

def rti (v r : Int) : RationalTime := ⟨⟨v, 1⟩, ⟨r, 1⟩⟩

/-- Two tracks, the clips sharing one external URL; integral times, rate 25. -/
def tShared : Timeline :=
  ⟨"T", [⟨"V1", .video, [.clip ⟨"A", ⟨rti 0 25, rti 2 25⟩,
            .external "a.mp4" ⟨rti 0 25, rti 10 25⟩, []⟩, .gap ⟨rti 3 25⟩]⟩,
         ⟨"A1", .audio, [.clip ⟨"B", ⟨rti 1 25, rti 3 25⟩,
            .external "a.mp4" ⟨rti 0 25, rti 10 25⟩, []⟩]⟩]⟩

/-- One clip with a fractional source-range start (half a frame). -/
def tFrac : Timeline :=
  ⟨"T", [⟨"V1", .video, [.clip ⟨"F", ⟨⟨⟨1, 2⟩, ⟨25, 1⟩⟩, rti 2 25⟩,
    .external "a.mp4" ⟨rti 0 25, rti 10 25⟩, []⟩]⟩]⟩

/-- One clip with a generator reference that is not SolidColor. -/
def tNoise : Timeline :=
  ⟨"T", [⟨"V1", .video, [.clip ⟨"N", ⟨rti 0 25, rti 2 25⟩,
    .generator "Noise" [] ⟨rti 0 25, rti 10 25⟩, []⟩]⟩]⟩

/-- One clip with a Missing media reference. -/
def tMissing : Timeline :=
  ⟨"T", [⟨"V1", .video, [.clip ⟨"M", ⟨rti 0 25, rti 2 25⟩, .missing, []⟩]⟩]⟩

/-- One clip with an External reference whose URL is empty. -/
def tEmptyUrl : Timeline :=
  ⟨"T", [⟨"V1", .video, [.clip ⟨"E", ⟨rti 0 25, rti 2 25⟩,
    .external "" ⟨rti 0 25, rti 10 25⟩, []⟩]⟩]⟩

/-- An empty-tracked timeline at rate 25.7. -/
def t257 : Timeline := ⟨"T", [⟨"V1", .video, [.gap ⟨⟨⟨10, 1⟩, ⟨257, 10⟩⟩⟩]⟩]⟩

/-- A timeline at rate 29.97. -/
def t2997 : Timeline := ⟨"T", [⟨"V1", .video, [.gap ⟨⟨⟨10, 1⟩, ⟨2997, 100⟩⟩⟩]⟩]⟩

/-- A timeline at rate 25. -/
def t25 : Timeline := ⟨"T", [⟨"V1", .video, [.gap ⟨rti 10 25⟩]⟩]⟩

def docNoProfile : Elem := .mk "mlt" [] none []

def docNoTractor : Elem :=
  .mk "mlt" [] none [.mk "profile" [("frame_rate_num", "25")] none []]

def trkGhost : Elem := .mk "track" [("producer", "ghost")] none []

def mtBad : Elem := .mk "tractor" [("global_feed", "1")] none [trkGhost]

/-- A document whose global-feed tractor references an id that resolves to
nothing. -/
def docBadRef : Elem :=
  .mk "mlt" [] none [.mk "profile" [("frame_rate_num", "25")] none [], mtBad]

/-- Two subtractor-style elements: an audio-track property with text "0",
and one with empty text. -/
def subZero : Elem :=
  .mk "tractor" [("id", "s1")] none [property_elem "kdenlive:audio_track" "0"]

def subEmptyText : Elem :=
  .mk "tractor" [("id", "s2")] none [.mk "property" [("name", "kdenlive:audio_track")] (some "") []]

def subNoProp : Elem := .mk "tractor" [("id", "s3")] none []

/-- A document with three subtractor tracks: audio-track property "0",
audio-track property with empty text, and no audio-track property. -/
def docC9 : Elem :=
  .mk "mlt" [] none
    [.mk "profile" [("frame_rate_num", "25")] none [],
     subZero, subEmptyText, subNoProp,
     .mk "tractor" [("global_feed", "1")] none
       [.mk "track" [("producer", "s1")] none [],
        .mk "track" [("producer", "s2")] none [],
        .mk "track" [("producer", "s3")] none []]]

/-- Proof-side sum mirroring the accumulating multiplier of `timeFold`. -/
def foldSumR : List ℚ → ℚ → ℚ
  | [], _ => 0
  | x :: xs, m => x * m + foldSumR xs (m * 60)

/- ### Closed forms of the writer output (proof apparatus for C1/C2) -/

/-- The `blank` element the item loop emits for a gap. -/
def gapElem (g : Gap) : Elem :=
  .mk "blank" [("length", intStr g.duration.value.pyInt)] none []

/-- The producer id the item loop writes on an entry, resolved against the
media library (total restatement of `entryProducerId` on the cases where it
succeeds). -/
def entryPid (lib : List (String × Elem)) (c : Clip) : String :=
  if c.media_reference.is_missing_reference then "unsupported"
  else
    match clipResKey c with
    | some u =>
      match alook u lib with
      | some p => (alook "id" p.attrs).getD ""
      | none => ""
    | none => ""

/-- The `entry` element the item loop emits for a clip. -/
def entryElem (lib : List (String × Elem)) (c : Clip) : Elem :=
  .mk "entry"
    [("producer", entryPid lib c),
     ("in", intStr c.source_range.start_time.value.pyInt),
     ("out", intStr ((c.source_range.duration.add
       c.source_range.start_time).value.pyInt))] none []

/-- The elements one item contributes to the first playlist (a transition
contributes none). -/
def itemElemOf (lib : List (String × Elem)) : Item → List Elem
  | .gap g => [gapElem g]
  | .clip c => [entryElem lib c]
  | .transition _ => []

def itemElemsOf (lib : List (String × Elem)) (items : List Item) : List Elem :=
  (items.map (itemElemOf lib)).flatten

/-- The per-track root children of the track loop in closed form. -/
def chunksOf (lib : List (String × Elem)) : List Track → Nat → List Elem
  | [], _ => []
  | tr :: rest, k =>
    pl1Of tr k (itemElemsOf lib tr.items) :: pl2Of tr k :: subtractorOf tr k ::
      chunksOf lib rest (k + 1)

/-- The main tractor's track references in closed form. -/
def refsOf : List Track → Nat → List Elem
  | [], _ => []
  | _ :: rest, k => trackRefElem k :: refsOf rest (k + 1)

/-- The id table entries contributed by the media-library producers. -/
def libIdPairs : Nat → List (String × Elem) → List (String × Elem)
  | _, [] => []
  | j, (_, e) :: rest => (producerId j, e) :: libIdPairs (j + 1) rest

/-- The id table entries contributed by the per-track chunks. -/
def chunkIds (lib : List (String × Elem)) : List Track → Nat → List (String × Elem)
  | [], _ => []
  | tr :: rest, k =>
    (playlistId k 1, pl1Of tr k (itemElemsOf lib tr.items)) ::
      (playlistId k 2, pl2Of tr k) :: (tractorId k, subtractorOf tr k) ::
      chunkIds lib rest (k + 1)

/-- The invariant of the media library: the entry at position `i` after `j`
is the producer of index `j + i`, its resource is its key and is nonempty,
and its service is drawn from `S`. -/
def LibShape (S : List String) : Nat → List (String × Elem) → Prop
  | _, [] => True
  | j, (r, e) :: rest =>
    (∃ s ar nm, s ∈ S ∧ r ≠ "" ∧ e = mkProducer j s r ar nm) ∧ LibShape S (j + 1) rest

/-- A clip the media-library loop passes without raising, with its service
(if any) drawn from `S`. -/
def mlClipOK (S : List String) (c : Clip) : Prop :=
  match c.media_reference with
  | .external u _ => serviceFor u ∈ S
  | .generator k ps _ =>
    k = "SolidColor" → ((∃ v, alook "color" ps = some v) ∧ "color" ∈ S)
  | .missing => True

/-- A clip the track loop serialises without raising against library `lib`. -/
def clipWOK (lib : List (String × Elem)) (c : Clip) : Prop :=
  match c.media_reference with
  | .missing => True
  | .external u _ => ∃ p, alook u lib = some p
  | .generator k ps _ =>
    k = "SolidColor" ∧ ∃ v p, alook "color" ps = some v ∧ alook v lib = some p

/-- A clip whose entry the reader can resolve back through `byidF`: its
resource key finds a library producer of an `avformat`/`qimage` service,
whose id resolves to that same producer. -/
def ClipResolves (byidF : String → Option Elem) (lib : List (String × Elem))
    (c : Clip) : Prop :=
  ∃ u ar j s par nm, c.media_reference = .external u ar ∧
    alook u lib = some (mkProducer j s u par nm) ∧
    (s = "qimage" ∨ s = "avformat") ∧
    byidF (producerId j) = some (mkProducer j s u par nm)

/-- The domain of the round-trip claim as stated: every item a gap or an
External-reference clip without effects, no transitions. -/
def claimItemB : Item → Bool
  | .gap _ => true
  | .clip c =>
    (match c.media_reference with
     | .external _ _ => true
     | _ => false) && c.effects == []
  | .transition _ => false

def C1Domain (t : Timeline) : Bool :=
  t.tracks.all fun tr => tr.items.all claimItemB

/-- The producer-with-resource test of `producersWithResource`, named for
counting lemmas. -/
def isResProducer (r : String) (c : Elem) : Bool :=
  c.tag == "producer" && mlt_property c "resource" == some r

/- ### Numeric lemmas: `Q` against `ℚ` -/

theorem Q.eqb_refl (q : Q) : q.eqb q = true := by simp [Q.eqb]

@[simp]
theorem exBind_ok (a : α) (f : α → Except PyErr β) : exBind (.ok a) f = f a := rfl

@[simp]
theorem exBind_error (e : PyErr) (f : α → Except PyErr β) :
    exBind (.error e) f = .error e := rfl

@[simp]
theorem orErr_some (a : α) (e : PyErr) : orErr (some a) e = .ok a := rfl

@[simp]
theorem orErr_none (e : PyErr) : orErr (none : Option α) e = .error e := rfl

theorem exBind_eq_ok {x : Except PyErr α} {f : α → Except PyErr β} {b : β}
    (h : exBind x f = .ok b) : ∃ a, x = .ok a ∧ f a = .ok b := by
  cases x with
  | error e => exact absurd h (by simp)
  | ok a => exact ⟨a, rfl, h⟩

theorem orErr_eq_ok {o : Option α} {e : PyErr} {a : α}
    (h : orErr o e = .ok a) : o = some a := by
  cases o with
  | none => exact absurd h (by simp)
  | some b =>
    rw [orErr_some] at h
    cases h
    rfl

theorem Q.eqb_iff {a b : Q} (ha : 0 < a.d) (hb : 0 < b.d) :
    a.eqb b = true ↔ toRat a = toRat b := by
  unfold Q.eqb toRat
  rw [beq_iff_eq,
    div_eq_div_iff (by exact_mod_cast ha.ne') (by exact_mod_cast hb.ne')]
  exact_mod_cast Iff.rfl

theorem toRat_add {a b : Q} (ha : a.d ≠ 0) (hb : b.d ≠ 0) :
    toRat (a.add b) = toRat a + toRat b := by
  unfold toRat Q.add
  have ha : (a.d : ℚ) ≠ 0 := by exact_mod_cast ha
  have hb : (b.d : ℚ) ≠ 0 := by exact_mod_cast hb
  push_cast
  field_simp

theorem toRat_sub {a b : Q} (ha : a.d ≠ 0) (hb : b.d ≠ 0) :
    toRat (a.sub b) = toRat a - toRat b := by
  unfold toRat Q.sub
  have ha : (a.d : ℚ) ≠ 0 := by exact_mod_cast ha
  have hb : (b.d : ℚ) ≠ 0 := by exact_mod_cast hb
  push_cast
  field_simp
  ring

theorem toRat_mul (a b : Q) : toRat (a.mul b) = toRat a * toRat b := by
  unfold toRat Q.mul
  push_cast
  rw [div_mul_div_comm]

theorem toRat_mk_int (z : Int) : toRat ⟨z, 1⟩ = (z : ℚ) := by
  unfold toRat
  norm_num

theorem fdiv_eq_floor {n d : Int} (h : 0 < d) : n.fdiv d = ⌊(n : ℚ) / (d : ℚ)⌋ := by
  rw [Int.fdiv_eq_ediv _ h.le]
  lift d to ℕ using h.le with m
  exact_mod_cast (Rat.floor_intCast_div_natCast n m).symm

theorem halfEven_eq_rat {q : Q} (h : 0 < q.d) : q.halfEven = ratHalfEven (toRat q) := by
  have hd : (0 : ℚ) < (q.d : ℚ) := by exact_mod_cast h
  have hf : q.n.fdiv q.d = ⌊toRat q⌋ := fdiv_eq_floor h
  have hfr : Int.fract (toRat q) = ((q.n - q.n.fdiv q.d * q.d : Int) : ℚ) / (q.d : ℚ) := by
    rw [← Int.self_sub_floor, ← hf]
    unfold toRat
    push_cast
    field_simp
    ring
  have hlt : (2 * (q.n - q.n.fdiv q.d * q.d) < q.d) ↔ Int.fract (toRat q) < 1/2 := by
    rw [hfr, div_lt_div_iff hd two_pos,
      show ((q.n - q.n.fdiv q.d * q.d : Int) : ℚ) * 2 =
        ((2 * (q.n - q.n.fdiv q.d * q.d) : Int) : ℚ) from by push_cast; ring,
      show (1 : ℚ) * (q.d : ℚ) = ((q.d : Int) : ℚ) from by rw [one_mul]]
    exact Int.cast_lt.symm
  have hgt : (q.d < 2 * (q.n - q.n.fdiv q.d * q.d)) ↔ 1/2 < Int.fract (toRat q) := by
    rw [hfr, div_lt_div_iff two_pos hd,
      show ((q.n - q.n.fdiv q.d * q.d : Int) : ℚ) * 2 =
        ((2 * (q.n - q.n.fdiv q.d * q.d) : Int) : ℚ) from by push_cast; ring,
      show (1 : ℚ) * (q.d : ℚ) = ((q.d : Int) : ℚ) from by rw [one_mul]]
    exact Int.cast_lt.symm
  unfold Q.halfEven ratHalfEven
  simp only [← hf]
  by_cases h1 : 2 * (q.n - q.n.fdiv q.d * q.d) < q.d
  · rw [if_pos h1, if_pos (hlt.mp h1)]
  · by_cases h2 : q.d < 2 * (q.n - q.n.fdiv q.d * q.d)
    · rw [if_neg h1, if_pos h2, if_neg (fun hb => h1 (hlt.mpr hb)), if_pos (hgt.mp h2)]
    · simp only [if_neg h1, if_neg h2, if_neg (fun hb => h1 (hlt.mpr hb)),
        if_neg (fun hb => h2 (hgt.mpr hb))]

theorem halfEven_congr {a b : Q} (ha : 0 < a.d) (hb : 0 < b.d)
    (h : a.eqb b = true) : a.halfEven = b.halfEven := by
  rw [halfEven_eq_rat ha, halfEven_eq_rat hb, (Q.eqb_iff ha hb).mp h]

theorem round3_congr {a b : Q} (ha : 0 < a.d) (hb : 0 < b.d)
    (h : a.eqb b = true) : a.round3 = b.round3 := by
  unfold Q.round3
  have he : (Q.mk (a.n * 1000) a.d).eqb ⟨b.n * 1000, b.d⟩ = true := by
    simp only [Q.eqb, beq_iff_eq] at h ⊢
    have h : a.n * b.d = b.n * a.d := h
    show a.n * 1000 * b.d = b.n * 1000 * a.d
    calc a.n * 1000 * b.d = a.n * b.d * 1000 := by ring
    _ = b.n * a.d * 1000 := by rw [h]
    _ = b.n * 1000 * a.d := by ring
  rw [halfEven_congr (a := ⟨a.n * 1000, a.d⟩) (b := ⟨b.n * 1000, b.d⟩) ha hb he]

theorem halfEven_d1 (m : Int) : Q.halfEven ⟨m, 1⟩ = m := by
  simp [Q.halfEven, Int.fdiv_one]

theorem round3_d1 (z : Int) : Q.round3 ⟨z, 1⟩ = ⟨z * 1000, 1000⟩ := by
  unfold Q.round3
  rw [halfEven_d1]

theorem pyInt_d1 (z : Int) : Q.pyInt ⟨z, 1⟩ = z := Int.tdiv_one z

/- ### Decimal string lemmas -/

theorem digitChar_mem_digits {m : Nat} (h : m < 10) :
    Nat.digitChar m ∈ ['0', '1', '2', '3', '4', '5', '6', '7', '8', '9'] := by
  interval_cases m <;> decide

theorem digits_facts :
    ∀ c ∈ ['0', '1', '2', '3', '4', '5', '6', '7', '8', '9'],
      c.isDigit = true ∧ c.isWhitespace = false ∧ c ≠ ':' ∧ c ≠ '.' ∧ c ≠ ',' ∧
      c ≠ '-' ∧ c ≠ '+' ∧ c ≠ '_' ∧ isKfSpecial c = false := by decide

theorem digitChar_val {m : Nat} (h : m < 10) : (Nat.digitChar m).toNat - 48 = m := by
  interval_cases m <;> decide

theorem valD_append (a b : List Char) (acc : Nat) :
    valD (a ++ b) acc = valD b (valD a acc) := by
  induction a generalizing acc with
  | nil => rfl
  | cons c t ih => simp [valD, ih]

theorem natStrAux_spec : ∀ fuel n, n < fuel →
    (∀ c ∈ natStrAux fuel n, c ∈ ['0', '1', '2', '3', '4', '5', '6', '7', '8', '9']) ∧
    natStrAux fuel n ≠ [] ∧
    (∀ acc, valD (natStrAux fuel n) acc = acc * 10 ^ (natStrAux fuel n).length + n) := by
  intro fuel
  induction fuel with
  | zero => intro n h; omega
  | succ fuel ih =>
    intro n h
    by_cases h10 : n < 10
    · refine ⟨?_, ?_, ?_⟩
      · intro c hc
        simp only [natStrAux, if_pos h10, List.mem_singleton] at hc
        exact hc ▸ digitChar_mem_digits h10
      · simp [natStrAux, if_pos h10]
      · intro acc
        simp only [natStrAux, if_pos h10, valD, List.length_singleton, pow_one]
        rw [digitChar_val h10]
    · have hn0 : 0 < n := by omega
      have hdiv : n / 10 < fuel := by
        have h1 : n / 10 < n := Nat.div_lt_self hn0 (by omega)
        omega
      obtain ⟨ihm, ihne, ihv⟩ := ih (n / 10) hdiv
      refine ⟨?_, ?_, ?_⟩
      · intro c hc
        simp only [natStrAux, if_neg h10, List.mem_append, List.mem_singleton] at hc
        rcases hc with hc | hc
        · exact ihm c hc
        · exact hc ▸ digitChar_mem_digits (Nat.mod_lt _ (by omega))
      · simp only [natStrAux, if_neg h10]
        intro he
        exact ihne (List.append_eq_nil.mp he).1
      · intro acc
        simp only [natStrAux, if_neg h10]
        rw [valD_append, ihv acc, List.length_append, List.length_singleton]
        simp only [valD]
        rw [digitChar_val (Nat.mod_lt _ (by omega))]
        rw [pow_succ]
        have := Nat.div_add_mod n 10
        ring_nf
        omega

theorem natStr_mem_digits {n : Nat} :
    ∀ c ∈ natStr n, c ∈ ['0', '1', '2', '3', '4', '5', '6', '7', '8', '9'] :=
  (natStrAux_spec (n + 1) n (by omega)).1

theorem natStr_ne_nil (n : Nat) : natStr n ≠ [] :=
  (natStrAux_spec (n + 1) n (by omega)).2.1

theorem natStr_val (n : Nat) : valD (natStr n) 0 = n := by
  have := (natStrAux_spec (n + 1) n (by omega)).2.2 0
  simpa using this

theorem natStr_inj {a b : Nat} (h : natStr a = natStr b) : a = b := by
  have := natStr_val a
  rw [h, natStr_val] at this
  omega

theorem natStr_all_digits {n : Nat} : ∀ c ∈ natStr n, c.isDigit = true :=
  fun c hc => (digits_facts c (natStr_mem_digits c hc)).1

/-- Splitting a list that does not contain the separator. -/
theorem splitChar_of_not_mem {c : Char} {l : List Char} (h : ∀ x ∈ l, x ≠ c) :
    splitChar c l = [l] := by
  induction l with
  | nil => rfl
  | cons x xs ih =>
    have hx : x ≠ c := h x (by simp)
    have := ih (fun y hy => h y (by simp [hy]))
    simp only [splitChar, this, if_neg hx]

theorem dropWhile_of_all_neg {p : Char → Bool} {l : List Char}
    (h : ∀ x ∈ l, p x = false) : l.dropWhile p = l := by
  cases l with
  | nil => rfl
  | cons x xs => simp [List.dropWhile_cons, h x (by simp)]

theorem trimWs_of_digits {l : List Char} (h : ∀ x ∈ l, x.isWhitespace = false) :
    trimWs l = l := by
  unfold trimWs
  rw [dropWhile_of_all_neg h, dropWhile_of_all_neg (fun x hx => h x (by
    rw [List.mem_reverse] at hx
    exact hx)), List.reverse_reverse]

theorem head?_mem {l : List Char} {c : Char} (h : l.head? = some c) : c ∈ l := by
  cases l with
  | nil => cases h
  | cons a t =>
    rw [List.head?_cons, Option.some.injEq] at h
    subst h
    exact List.mem_cons_self _ _

theorem parseFloatMag_digits {l : List Char} (hne : l ≠ [])
    (hd : ∀ c ∈ l, c.isDigit = true) (hdot : ∀ c ∈ l, c ≠ '.') :
    parseFloatMag l = some ⟨valD l 0, 1⟩ := by
  unfold parseFloatMag
  rw [splitChar_of_not_mem hdot]
  show (if l ≠ [] ∧ l.all Char.isDigit = true then some (Q.mk (valD l 0) 1) else none) = _
  rw [if_pos ⟨hne, by rw [List.all_eq_true]; exact hd⟩]

theorem parseFloat_natStr (n : Nat) : parseFloat (natStr n) = some ⟨n, 1⟩ := by
  have hmem := natStr_mem_digits (n := n)
  have hws : ∀ x ∈ natStr n, x.isWhitespace = false :=
    fun c hc => (digits_facts c (hmem c hc)).2.1
  unfold parseFloat parseFloatSigned
  rw [trimWs_of_digits hws]
  rw [if_neg (fun hc => (digits_facts _ (hmem _ (head?_mem hc))).2.2.2.2.2.1 rfl)]
  rw [if_neg (fun hc => (digits_facts _ (hmem _ (head?_mem hc))).2.2.2.2.2.2.1 rfl)]
  rw [parseFloatMag_digits (natStr_ne_nil n) natStr_all_digits
    (fun c hc => (digits_facts c (hmem c hc)).2.2.2.1)]
  rw [natStr_val]

theorem parseFloat_intStr (z : Int) : parseFloat (intStr z).data = some ⟨z, 1⟩ := by
  unfold intStr
  by_cases hz : z < 0
  · rw [if_pos hz]
    show parseFloat ('-' :: natStr (-z).toNat) = _
    have hmem := natStr_mem_digits (n := (-z).toNat)
    have hws : ∀ x ∈ ('-' :: natStr (-z).toNat), x.isWhitespace = false := by
      intro c hc
      rcases List.mem_cons.mp hc with rfl | hc
      · decide
      · exact (digits_facts c (hmem c hc)).2.1
    unfold parseFloat parseFloatSigned
    rw [trimWs_of_digits hws]
    rw [if_pos (show ('-' :: natStr (-z).toNat).head? = some '-' from rfl)]
    show Option.map _ (parseFloatMag (natStr (-z).toNat)) = _
    rw [parseFloatMag_digits (natStr_ne_nil _) natStr_all_digits
      (fun c hc => (digits_facts c (hmem c hc)).2.2.2.1)]
    rw [natStr_val]
    show some (Q.mk (-((-z).toNat : Int)) 1) = _
    have hv : -((-z).toNat : Int) = z := by omega
    rw [hv]
  · rw [if_neg hz]
    show parseFloat (natStr z.toNat) = _
    rw [parseFloat_natStr]
    have hv : (z.toNat : Int) = z := by omega
    rw [hv]

theorem map_commaDot_id {l : List Char} (h : ∀ c ∈ l, c ≠ ',') :
    l.map commaDot = l := by
  induction l with
  | nil => rfl
  | cons x xs ih =>
    have hx : x ≠ ',' := h x (by simp)
    simp only [List.map_cons, commaDot, if_neg hx, ih (fun y hy => h y (by simp [hy]))]

theorem intStr_chars {z : Int} :
    ∀ c ∈ (intStr z).data, c ∈ ['-', '0', '1', '2', '3', '4', '5', '6', '7', '8', '9'] := by
  intro c hc
  unfold intStr at hc
  by_cases hz : z < 0
  · rw [if_pos hz] at hc
    show c ∈ ('-' :: _)
    rcases List.mem_cons.mp hc with rfl | hc
    · exact List.mem_cons_self _ _
    · exact List.mem_cons_of_mem _ (natStr_mem_digits c hc)
  · rw [if_neg hz] at hc
    exact List.mem_cons_of_mem _ (natStr_mem_digits c hc)

theorem intStr_chars_facts :
    ∀ c ∈ ['-', '0', '1', '2', '3', '4', '5', '6', '7', '8', '9'],
      c ≠ ':' ∧ c ≠ ',' ∧ c ≠ ';' ∧ isKfSpecial c = false := by decide

theorem time_intStr (z : Int) (r : Q) :
    time (intStr z) r = some ⟨⟨z * 1000, 1000⟩, r⟩ := by
  unfold time
  rw [map_commaDot_id
    (fun c hc => (intStr_chars_facts c (intStr_chars c hc)).2.1)]
  rw [splitChar_of_not_mem
    (fun c hc => (intStr_chars_facts c (intStr_chars c hc)).1)]
  rw [show mapMO parseFloat [(intStr z).data] = some [(⟨z, 1⟩ : Q)] from by
    unfold mapMO
    rw [parseFloat_intStr]
    rfl]
  show some (⟨Q.round3 (timeFold [Q.mk z 1] ⟨1, 1⟩ ⟨0, 1⟩), r⟩ : RationalTime) =
    some ⟨⟨z * 1000, 1000⟩, r⟩
  have hsimp : timeFold [Q.mk z 1] ⟨1, 1⟩ ⟨0, 1⟩ = ⟨z, 1⟩ := by
    show Q.add ⟨0, 1⟩ (Q.mul ⟨z, 1⟩ ⟨1, 1⟩) = ⟨z, 1⟩
    simp [Q.add, Q.mul]
  rw [hsimp, round3_d1]

/- ### The weighted-sum characterisation of `time` (claim C5) -/

theorem parseFloat_den_pos {cs : List Char} {q : Q} (h : parseFloat cs = some q) :
    0 < q.d := by
  unfold parseFloat parseFloatSigned at h
  have hmag : ∀ {l : List Char} {p : Q}, parseFloatMag l = some p → 0 < p.d := by
    intro l p hp
    unfold parseFloatMag at hp
    split at hp
    · split at hp
      · cases hp
        exact one_pos
      · cases hp
    · split at hp
      · cases hp
        positivity
      · cases hp
    · cases hp
  split at h
  · rcases Option.map_eq_some'.mp h with ⟨p, hp, hq⟩
    cases hq
    have hpd : 0 < p.d := hmag hp
    exact hpd
  · split at h
    · exact hmag h
    · exact hmag h

theorem mapMO_parseFloat_pos {ls : List (List Char)} {fields : List Q}
    (h : mapMO parseFloat ls = some fields) : ∀ x ∈ fields, 0 < x.d := by
  induction ls generalizing fields with
  | nil =>
    cases h
    intro x hx
    cases hx
  | cons a l ih =>
    unfold mapMO at h
    rcases ha : parseFloat a with _ | b <;> rw [ha] at h
    · cases h
    · rcases hl : mapMO parseFloat l with _ | bs <;> rw [hl] at h
      · cases h
      · cases h
        intro x hx
        rcases List.mem_cons.mp hx with rfl | hx
        · exact parseFloat_den_pos ha
        · exact ih hl x hx

theorem timeFold_d_pos {l : List Q} {m f : Q} (hl : ∀ x ∈ l, 0 < x.d)
    (hm : 0 < m.d) (hf : 0 < f.d) : 0 < (timeFold l m f).d := by
  induction l generalizing m f with
  | nil => exact hf
  | cons x xs ih =>
    exact ih (fun y hy => hl y (by simp [hy]))
      (by simpa [Q.mul] using Int.mul_pos hm one_pos)
      (by exact Int.mul_pos hf (Int.mul_pos (hl x (by simp)) hm))

theorem timeFold_toRat {l : List Q} {m f : Q} (hl : ∀ x ∈ l, 0 < x.d)
    (hm : 0 < m.d) (hf : 0 < f.d) :
    toRat (timeFold l m f) = toRat f + foldSumR (l.map toRat) (toRat m) := by
  induction l generalizing m f with
  | nil => simp [timeFold, foldSumR]
  | cons x xs ih =>
    have hx : 0 < x.d := hl x (by simp)
    have hxm : 0 < (x.mul m).d := Int.mul_pos hx hm
    have h60 : toRat (Q.mk 60 1) = 60 := by
      rw [toRat_mk_int]
      norm_num
    rw [show timeFold (x :: xs) m f = timeFold xs (m.mul ⟨60, 1⟩) (f.add (x.mul m)) from rfl]
    rw [ih (fun y hy => hl y (by simp [hy]))
      (by simpa [Q.mul] using Int.mul_pos hm one_pos)
      (by exact Int.mul_pos hf hxm)]
    rw [toRat_add hf.ne' hxm.ne', toRat_mul, toRat_mul, h60]
    simp only [List.map_cons, foldSumR]
    ring

theorem foldSumR_append (a b : List ℚ) (m : ℚ) :
    foldSumR (a ++ b) m = foldSumR a m + foldSumR b (m * 60 ^ a.length) := by
  induction a generalizing m with
  | nil => simp [foldSumR]
  | cons x xs ih =>
    show x * m + foldSumR (xs ++ b) (m * 60) = _
    rw [ih]
    simp only [foldSumR, List.length_cons, pow_succ]
    ring_nf

theorem qpow60_d_pos (n : Nat) : 0 < (qpow60 n).d := by
  induction n with
  | zero => exact one_pos
  | succ k ih => exact Int.mul_pos ih one_pos

theorem qpow60_toRat (n : Nat) : toRat (qpow60 n) = 60 ^ n := by
  induction n with
  | zero =>
    show toRat ⟨1, 1⟩ = 1
    rw [toRat_mk_int]
    norm_num
  | succ k ih =>
    show toRat ((qpow60 k).mul ⟨60, 1⟩) = _
    rw [toRat_mul, ih, toRat_mk_int]
    rw [pow_succ]
    norm_num

theorem wsum_d_pos {xs : List Q} {r : Q} (hxs : ∀ x ∈ xs, 0 < x.d) (hr : 0 < r.d) :
    0 < (wsum xs r).d := by
  induction xs with
  | nil => exact one_pos
  | cons x rest ih =>
    exact Int.mul_pos
      (Int.mul_pos (hxs x (by simp)) (Int.mul_pos hr (qpow60_d_pos rest.length)))
      (ih (fun y hy => hxs y (by simp [hy])))

theorem wsum_toRat {xs : List Q} {r : Q} (hxs : ∀ x ∈ xs, 0 < x.d) (hr : 0 < r.d) :
    toRat (wsum xs r) = foldSumR (xs.reverse.map toRat) (toRat r) := by
  induction xs with
  | nil =>
    show toRat ⟨0, 1⟩ = foldSumR [] (toRat r)
    rw [toRat_mk_int]
    norm_num [foldSumR]
  | cons x rest ih =>
    have hx : 0 < x.d := hxs x (by simp)
    have hrest : ∀ y ∈ rest, 0 < y.d := fun y hy => hxs y (by simp [hy])
    show toRat ((x.mul (r.mul (qpow60 rest.length))).add (wsum rest r)) = _
    rw [toRat_add
      (Int.mul_pos hx (Int.mul_pos hr (qpow60_d_pos rest.length))).ne'
      (wsum_d_pos hrest hr).ne']
    rw [toRat_mul, toRat_mul, qpow60_toRat, ih hrest]
    simp only [List.reverse_cons, List.map_append, List.map_cons, List.map_nil]
    rw [foldSumR_append]
    simp only [foldSumR, List.length_map, List.length_reverse]
    ring

theorem headD_d_pos {fields : List Q} (h : ∀ x ∈ fields, 0 < x.d) :
    0 < (fields.headD ⟨0, 1⟩).d := by
  cases fields with
  | nil => exact one_pos
  | cons x xs => exact h x (by simp)

theorem specSum_d_pos {fields : List Q} {r : Q} (hfs : ∀ x ∈ fields, 0 < x.d)
    (hr : 0 < r.d) : 0 < (specSum fields r).d := by
  unfold specSum
  split
  · exact headD_d_pos hfs
  · exact wsum_d_pos hfs hr

/-- Claim C5 (confirmed): for every clock string whose colon-separated
fields all parse as numbers, `time` returns, at the given rate, the
weighted sum of the fields — innermost field multiplied by the rate, each
outward field by 60 times the previous multiplier, a bare single field by
1 — rounded to 3 decimal places; in particular
`time("3:25:15.250", 25)` has value 307881.25 (= 307881250/1000) and
rate 25. -/
theorem C5_time_weighted_sum :
    (∀ (s : String) (r : Q) (fields : List Q), 0 < r.d →
        mapMO parseFloat (splitChar ':' (s.data.map commaDot)) = some fields →
        time s r = some ⟨Q.round3 (specSum fields r), r⟩) ∧
    time "3:25:15.250" ⟨25, 1⟩ = some ⟨⟨307881250, 1000⟩, ⟨25, 1⟩⟩ ∧
    Q.eqb ⟨307881250, 1000⟩ ⟨1231525, 4⟩ = true := by
  refine ⟨?_, by decide, by decide⟩
  intro s r fields hr hp
  unfold time
  rw [hp]
  show some (⟨Q.round3 (timeFold fields.reverse
      (if fields.length > 1 then r else ⟨1, 1⟩) ⟨0, 1⟩), r⟩ : RationalTime) =
    some ⟨Q.round3 (specSum fields r), r⟩
  have hfs : ∀ x ∈ fields, 0 < x.d := mapMO_parseFloat_pos hp
  have hfsrev : ∀ x ∈ fields.reverse, 0 < x.d :=
    fun x hx => hfs x (List.mem_reverse.mp hx)
  have hm0 : 0 < (if fields.length > 1 then r else (⟨1, 1⟩ : Q)).d := by
    split
    · exact hr
    · exact one_pos
  have htf : 0 < (timeFold fields.reverse
      (if fields.length > 1 then r else ⟨1, 1⟩) ⟨0, 1⟩).d :=
    timeFold_d_pos hfsrev hm0 one_pos
  have hss : 0 < (specSum fields r).d := specSum_d_pos hfs hr
  have key : toRat (timeFold fields.reverse
      (if fields.length > 1 then r else ⟨1, 1⟩) ⟨0, 1⟩) = toRat (specSum fields r) := by
    rw [timeFold_toRat hfsrev hm0 one_pos]
    rw [show toRat ⟨0, 1⟩ = 0 from by rw [toRat_mk_int]; norm_num]
    rw [zero_add]
    unfold specSum
    by_cases h1 : fields.length = 1
    · rw [if_pos h1]
      obtain ⟨x, rfl⟩ := List.length_eq_one.mp h1
      rw [if_neg (by norm_num)]
      simp only [List.reverse_cons, List.reverse_nil, List.nil_append,
        List.map_cons, List.map_nil, foldSumR, List.headD]
      rw [show toRat ⟨1, 1⟩ = 1 from by rw [toRat_mk_int]; norm_num]
      ring
    · rw [if_neg h1]
      by_cases h2 : fields.length > 1
      · rw [if_pos h2, wsum_toRat hfs hr]
      · obtain rfl := List.length_eq_zero.mp (by omega : fields.length = 0)
        simp only [List.reverse_nil, List.map_nil, foldSumR, wsum]
        rw [toRat_mk_int]
        norm_num
  rw [round3_congr htf hss ((Q.eqb_iff htf hss).mpr key)]

/-- Witness for C5 at the concrete clock string of the claim. -/
theorem C5_witness :
    time "3:25:15.250" ⟨25, 1⟩ =
      some ⟨Q.round3 (specSum [⟨3, 1⟩, ⟨25, 1⟩, ⟨15250, 1000⟩] ⟨25, 1⟩), ⟨25, 1⟩⟩ :=
  C5_time_weighted_sum.1 "3:25:15.250" ⟨25, 1⟩ [⟨3, 1⟩, ⟨25, 1⟩, ⟨15250, 1000⟩]
    (by decide) (by decide)

/- ### Keyframe scanner lemmas (claim C7) -/

theorem kfMatchAt_none_of_no_eq {cs : List Char} (h : ∀ c ∈ cs, c ≠ '=') :
    kfMatchAt cs = none := by
  have hsub : ∀ x ∈ cs.dropWhile (fun c => !isKfSpecial c), x ∈ cs :=
    fun x hx => (List.dropWhile_sublist _).mem hx
  unfold kfMatchAt
  split
  · next r2 heq =>
    exact absurd rfl (h '=' (hsub '=' (heq ▸ List.mem_cons_self _ _)))
  · next c r2 heq =>
    rw [if_neg]
    intro hc
    exact absurd rfl (h '=' (hsub '=' (heq ▸ List.mem_cons_of_mem _ (List.mem_cons_self _ _))))
  · rfl

theorem kfScan_nil_of_no_eq : ∀ (fuel : Nat) (cs : List Char),
    (∀ c ∈ cs, c ≠ '=') → kfScan fuel cs = [] := by
  intro fuel
  induction fuel with
  | zero => intro cs h; rfl
  | succ fuel ih =>
    intro cs h
    cases cs with
    | nil => rfl
    | cons c cs2 =>
      show (match kfMatchAt (c :: cs2) with
        | some (g, rest) => g :: kfScan fuel rest
        | none => kfScan fuel cs2) = []
      rw [kfMatchAt_none_of_no_eq h]
      exact ih cs2 (fun x hx => h x (List.mem_cons_of_mem _ hx))

/-- Counterexample to claim C7: the claim says an entry with an empty value
is a malformed entry that is "skipped individually" and "never appears in
the resulting mapping"; but `keyframes("5=", 25)` keeps the entry, mapped
to the empty string. -/
theorem C7_counterexample :
    keyframes "5=" ⟨25, 1⟩ = some [(⟨⟨5000, 1000⟩, ⟨25, 1⟩⟩, "")] := by decide

/-- Claim C7 as amended: entries lacking an `=` operator are skipped
individually and never abort the parse (for an input with no `=` at all the
result is the empty mapping); well-formed entries are parsed, tolerating
trailing separators and stray whitespace; an entry with an empty value is
kept, with the empty string as its value; but an entry whose time field is
empty or non-numeric makes the whole parse fail. -/
theorem C7_keyframes_tolerant :
    (∀ (s : String) (r : Q), (∀ c ∈ s.data, c ≠ '=') → keyframes s r = some []) ∧
    keyframes "0=0;25~=100;50|=50;" ⟨25, 1⟩ =
      some [(⟨⟨0, 1000⟩, ⟨25, 1⟩⟩, "0"), (⟨⟨25000, 1000⟩, ⟨25, 1⟩⟩, "100"),
            (⟨⟨50000, 1000⟩, ⟨25, 1⟩⟩, "50")] ∧
    keyframes " 5 =7" ⟨25, 1⟩ = some [(⟨⟨5000, 1000⟩, ⟨25, 1⟩⟩, "7")] ∧
    keyframes "=5" ⟨25, 1⟩ = none := by
  refine ⟨?_, by decide, by decide, by decide⟩
  intro s r h
  unfold keyframes findallKV
  rw [kfScan_nil_of_no_eq _ _ h]
  rfl

/-- Witness for C7 on an operator-free input with a trailing separator. -/
theorem C7_witness : keyframes "abc;" ⟨25, 1⟩ = some [] :=
  C7_keyframes_tolerant.1 "abc;" ⟨25, 1⟩ (by decide)

/- ### Claims C9, C10, C3 -/

/-- Claim C9 (confirmed): the reader makes a track Audio exactly when the
subtractor has a `kdenlive:audio_track` property with nonempty text — any
nonempty text, "0" included; an absent property or empty text gives Video.
The concrete document has tracks with text "0", empty text, and no
property. -/
theorem C9_audio_track_kind :
    (∀ e : Elem, trackKindOf e = TrackKind.audio ↔
      ∃ s, mlt_property e "kdenlive:audio_track" = some s ∧ s ≠ "") ∧
    (read_from_string docC9).map (fun t => t.tracks.map Track.kind) =
      .ok [TrackKind.audio, TrackKind.video, TrackKind.video] := by
  constructor
  · intro e
    unfold trackKindOf
    cases hm : mlt_property e "kdenlive:audio_track" with
    | none => simp [hm, pyBool]
    | some s =>
      by_cases hs : s = ""
      · subst hs
        simp [hm, pyBool]
      · simp [hm, pyBool, hs]
  · rfl

/-- Witness for C9 on a subtractor whose audio-track property text is "0". -/
theorem C9_witness :
    trackKindOf subZero = TrackKind.audio ↔
      ∃ s, mlt_property subZero "kdenlive:audio_track" = some s ∧ s ≠ "" :=
  C9_audio_track_kind.1 subZero

/-- Claim C10 (confirmed; the non-unwrapped path is modelled from the spec:
a collection is not a Timeline, so the timeline-only operations fail):
a collection is unwrapped to its first element only when it has more than
one entry; a singleton collection is not unwrapped and the call fails
instead of producing a document. -/
theorem C10_collection_unwrap :
    (∀ ts : List Timeline, 1 < ts.length →
      write_to_string (.collection ts) = write_to_string (.timeline (ts.headD ⟨"", []⟩))) ∧
    (∀ t : Timeline, write_to_string (.collection [t]) = .error .attributeError) := by
  constructor
  · intro ts h
    cases ts with
    | nil => simp at h
    | cons t rest =>
      show (if 1 < (t :: rest).length then writeTimeline t
        else Except.error PyErr.attributeError) = writeTimeline t
      rw [if_pos h]
  · intro t
    show (if 1 < [t].length then writeTimeline t
      else Except.error PyErr.attributeError) = Except.error PyErr.attributeError
    rw [if_neg (by norm_num)]

/-- Witness for C10: a two-element collection is unwrapped to its first
element; a singleton collection fails. -/
theorem C10_witness :
    write_to_string (.collection [t25, tFrac]) =
      write_to_string (.timeline ([t25, tFrac].headD ⟨"", []⟩)) ∧
    write_to_string (.collection [t25]) = .error .attributeError :=
  ⟨C10_collection_unwrap.1 [t25, tFrac] (by norm_num), C10_collection_unwrap.2 t25⟩

/-- Claim C3 is a code bug: the writer's `unsupported` placeholder does
serve clips with a Missing reference (second conjunct), but a clip whose
resource cannot be found in the media library — here a generator whose
kind is not SolidColor — makes `write_to_string` raise `KeyError`
(`media_prod[resource]`, line 274) instead of emitting an entry that
references the placeholder: the write fails and produces no document,
contradicting "the write never fails due to such unsupported per-item
features". -/
theorem C3_unsupported_crash :
    writeTimeline tNoise = .error .keyError ∧
    playlistEntries (writeTimeline tMissing) 1 = [some "unsupported"] :=
  ⟨rfl, by decide⟩

/- ### Claim C6 -/

/-- Counterexample to claim C6: for project rate 25.7 (not one of the three
table rates) the writer emits `frame_rate_num` "25" — `int(rate)`,
truncation toward zero — while the claim's `round(r)` is 26 (here
`Q.halfEven`, Python's banker rounding, which agrees with `round` at 25.7). -/
theorem C6_counterexample :
    writeNums t257 = some ("25", "1") ∧ Q.halfEven ⟨257, 10⟩ = 26 :=
  ⟨rfl, by decide⟩

/-- Claim C6 as amended: the writer's profile carries exactly the pair
`rateNumDen(timelineRate t)`; that table maps the three canonical rates
(matched by rounding to 2 decimals) to (24000,1001), (30000,1001),
(60000,1001), and otherwise emits `(int(rate), 1)` — truncation toward
zero, not `round(rate)`; in particular 29.97 maps to (30000,1001) and 25
to (25,1). -/
theorem C6_rate_mapping :
    (∀ (t : Timeline) (e : Elem), writeTimeline t = .ok e →
      profileNums e = some (intStr (rateNumDen (timelineRate t)).1,
        intStr (rateNumDen (timelineRate t)).2)) ∧
    rateNumDen ⟨2398, 100⟩ = (24000, 1001) ∧
    rateNumDen ⟨2997, 100⟩ = (30000, 1001) ∧
    rateNumDen ⟨5994, 100⟩ = (60000, 1001) ∧
    rateNumDen ⟨25, 1⟩ = (25, 1) ∧
    writeNums t2997 = some ("30000", "1001") ∧
    writeNums t25 = some ("25", "1") ∧
    (∀ r : Q, ¬(Q.round2 r).eqb ⟨2398, 100⟩ = true →
      ¬(Q.round2 r).eqb ⟨2997, 100⟩ = true →
      ¬(Q.round2 r).eqb ⟨5994, 100⟩ = true →
      rateNumDen r = (r.pyInt, 1)) := by
  refine ⟨?_, by decide, by decide, by decide, by decide, rfl, rfl, ?_⟩
  · intro t e h
    unfold writeTimeline at h
    obtain ⟨lr, hml, h2⟩ := exBind_eq_ok h
    obtain ⟨cr, hwt, h3⟩ := exBind_eq_ok h2
    cases h3
    rfl
  · intro r h1 h2 h3
    unfold rateNumDen
    rw [if_neg h1, if_neg h2, if_neg h3]

/-- Witness for C6 at the non-table rate 20.5: the fall-through emits
truncation. -/
theorem C6_witness : rateNumDen ⟨41, 2⟩ = (Q.pyInt ⟨41, 2⟩, 1) :=
  C6_rate_mapping.2.2.2.2.2.2.2 ⟨41, 2⟩ (by decide) (by decide) (by decide)

/- ### Claim C8 -/

/-- Every element the item loop emits is a `blank` or an `entry`, with no
children and no id. -/
theorem writeItems_shape {lib : List (String × Elem)} :
    ∀ {items : List Item} {res : Option String} {es : List Elem} {res2 : Option String},
      writeItems lib items res = .ok (es, res2) →
      ∀ e ∈ es, (e.tag = "blank" ∨ e.tag = "entry") ∧ e.children = [] ∧
        alook "id" e.attrs = none := by
  intro items
  induction items with
  | nil =>
    intro res es res2 h e he
    cases h
    cases he
  | cons it rest ih =>
    intro res es res2 h e he
    cases it with
    | gap g =>
      unfold writeItems at h
      obtain ⟨out, hrec, h2⟩ := exBind_eq_ok h
      cases h2
      rcases List.mem_cons.mp he with rfl | he2
      · exact ⟨Or.inl rfl, rfl, rfl⟩
      · exact ih hrec e he2
    | clip c =>
      unfold writeItems at h
      obtain ⟨res1, hres, h2⟩ := exBind_eq_ok h
      obtain ⟨pid, hpid, h3⟩ := exBind_eq_ok h2
      obtain ⟨out, hrec, h4⟩ := exBind_eq_ok h3
      cases h4
      rcases List.mem_cons.mp he with rfl | he2
      · exact ⟨Or.inr rfl, rfl, rfl⟩
      · exact ih hrec e he2
    | transition tr => exact ih h e he

theorem findAttrIn_eq_none {t a v : String} {l : List Elem}
    (h : ∀ e ∈ l, ¬(e.tag = t ∧ e.get a = some v)) : findAttrIn t a v l = none := by
  induction l with
  | nil => rfl
  | cons e es ih =>
    unfold findAttrIn
    rw [if_neg (h e (by simp))]
    exact ih (fun x hx => h x (by simp [hx]))

/-- Counterexample to claim C8: the two layer references of a written Video
track both carry `hide="audio"` — the flags are equal, not opposite. -/
theorem C8_counterexample :
    (writtenSub ⟨"V", TrackKind.video, []⟩).map subtractorHides =
      some [some "audio", some "audio"] ∧
    ¬([some "audio", some "audio"] = [some "audio", some "video"] ∨
      [some "audio", some "audio"] = ([some "video", some "audio"] :
        List (Option String))) :=
  ⟨by decide, by decide⟩

/-- Claim C8 as amended: the subtractor's two layer references carry the
SAME hide flag — "audio" for a Video track, "video" for an Audio track —
and the `kdenlive:audio_track` property is set on the subtractor and on
both playlists exactly when the track's kind is Audio. -/
theorem C8_subtractor_layers :
    ∀ (lib : List (String × Elem)) (tr : Track) (k : Nat) (res : Option String)
      (pl1 pl2 sub : Elem) (res2 : Option String),
      writeOneTrack lib tr k res = .ok (pl1, pl2, sub, res2) →
      subtractorHides sub = [some (hideVal tr.kind), some (hideVal tr.kind)] ∧
      pyBool (mlt_property sub "kdenlive:audio_track") = (tr.kind == TrackKind.audio) ∧
      pyBool (mlt_property pl1 "kdenlive:audio_track") = (tr.kind == TrackKind.audio) ∧
      pyBool (mlt_property pl2 "kdenlive:audio_track") = (tr.kind == TrackKind.audio) := by
  intro lib tr k res pl1 pl2 sub res2 h
  unfold writeOneTrack at h
  obtain ⟨out, heq, h2⟩ := exBind_eq_ok h
  cases h2
  obtain ⟨nm, kind, items⟩ := tr
  obtain ⟨items1, res3⟩ := out
  have hitems := @writeItems_shape lib _ _ _ _ heq
  have hnoprop : findAttrIn "property" "name" "kdenlive:audio_track" items1 = none := by
    apply findAttrIn_eq_none
    intro e he hc
    rcases (hitems e he).1 with ht | ht
    · exact absurd (ht.symm.trans hc.1) (by decide)
    · exact absurd (ht.symm.trans hc.1) (by decide)
  cases kind with
  | video =>
    refine ⟨rfl, rfl, ?_, rfl⟩
    show pyBool ((findAttrIn "property" "name" "kdenlive:audio_track"
      ([] ++ items1)).map _) = _
    rw [List.nil_append, hnoprop]
    rfl
  | audio => exact ⟨rfl, rfl, rfl, rfl⟩

/-- Witness for C8 on a concrete audio track. -/
theorem C8_witness :
    subtractorHides (subtractorOf ⟨"A", TrackKind.audio, []⟩ 1) =
      [some (hideVal TrackKind.audio), some (hideVal TrackKind.audio)] ∧
    pyBool (mlt_property (subtractorOf ⟨"A", TrackKind.audio, []⟩ 1)
      "kdenlive:audio_track") = (TrackKind.audio == TrackKind.audio) ∧
    pyBool (mlt_property (pl1Of ⟨"A", TrackKind.audio, []⟩ 1 [])
      "kdenlive:audio_track") = (TrackKind.audio == TrackKind.audio) ∧
    pyBool (mlt_property (pl2Of ⟨"A", TrackKind.audio, []⟩ 1)
      "kdenlive:audio_track") = (TrackKind.audio == TrackKind.audio) :=
  C8_subtractor_layers [] ⟨"A", TrackKind.audio, []⟩ 1 none _ _ _ none rfl

/- ### Claim C4 -/

/-- If some non-black track reference of the list resolves to nothing, the
track loop fails. -/
theorem readTracks_err {byidF : String → Option Elem} {rate : Q} :
    ∀ {refs : List Elem},
      (∃ mtk ∈ refs, ∃ pid, mtk.get "producer" = some pid ∧ pid ≠ "black_track" ∧
        byidF pid = none) →
      ∃ e, readTracks byidF rate refs = .error e := by
  intro refs
  induction refs with
  | nil =>
    rintro ⟨mtk, hmem, _⟩
    cases hmem
  | cons mtk0 rest ih =>
    rintro ⟨mtk, hmem, pid, hget, hne, hbyid⟩
    rcases List.mem_cons.mp hmem with rfl | hmem2
    · have hcond : ¬(mtk.get "producer" = some "black_track") := by
        rw [hget]
        intro hc
        exact hne (Option.some_inj.mp hc)
      unfold readTracks
      rw [if_neg hcond, hget]
      simp only [orErr_some, exBind_ok]
      rw [hbyid]
      exact ⟨_, rfl⟩
    · by_cases hblack : mtk0.get "producer" = some "black_track"
      · unfold readTracks
        rw [if_pos hblack]
        exact ih ⟨mtk, hmem2, pid, hget, hne, hbyid⟩
      · unfold readTracks
        rw [if_neg hblack]
        cases hg : mtk0.get "producer" with
        | none => exact ⟨_, rfl⟩
        | some p =>
          simp only [orErr_some, exBind_ok]
          cases hb : byidF p with
          | none => exact ⟨_, rfl⟩
          | some sub =>
            simp only [orErr_some, exBind_ok]
            cases hs : readSubtracks byidF rate (sub.findall "track") with
            | error e => exact ⟨e, rfl⟩
            | ok its =>
              simp only [exBind_ok]
              obtain ⟨e2, he2⟩ := ih ⟨mtk, hmem2, pid, hget, hne, hbyid⟩
              rw [he2]
              exact ⟨e2, rfl⟩

/-- Claim C4 (confirmed, with the spec's `MalformedProjectError` modelled
as the reader's fatal error outcome): the read aborts with an error when
the profile is absent, when no tractor is flagged `global_feed`, and when a
track reference's id resolves to nothing. -/
theorem C4_malformed_aborts :
    (∀ doc : Elem, doc.find "profile" = none → isErr (read_from_string doc) = true) ∧
    (∀ doc : Elem, doc.findWithAttr "tractor" "global_feed" "1" = none →
      isErr (read_from_string doc) = true) ∧
    (∀ (doc mt mtk : Elem) (pid : String),
      doc.findWithAttr "tractor" "global_feed" "1" = some mt →
      mtk ∈ mt.findall "track" → mtk.get "producer" = some pid →
      pid ≠ "black_track" → byid doc pid = none →
      isErr (read_from_string doc) = true) := by
  refine ⟨?_, ?_, ?_⟩
  · intro doc h
    unfold read_from_string
    rw [h]
    rfl
  · intro doc h
    unfold read_from_string
    cases hp : doc.find "profile" with
    | none => rfl
    | some p =>
      simp only [orErr_some, exBind_ok]
      cases hn : p.get "frame_rate_num" with
      | none => rfl
      | some ns =>
        simp only [orErr_some, exBind_ok]
        cases hf : parseFloat ns.data with
        | none => rfl
        | some num =>
          simp only [orErr_some, exBind_ok]
          cases hd : parseFloat ((p.get "frame_rate_den").getD "1").data with
          | none => rfl
          | some den =>
            simp only [orErr_some, exBind_ok]
            by_cases hz : den.eqb ⟨0, 1⟩ = true
            · rw [if_pos hz]
              rfl
            · rw [if_neg hz, h]
              rfl
  · intro doc mt mtk pid hmt hmem hget hne hbyid
    unfold read_from_string
    cases hp : doc.find "profile" with
    | none => rfl
    | some p =>
      simp only [orErr_some, exBind_ok]
      cases hn : p.get "frame_rate_num" with
      | none => rfl
      | some ns =>
        simp only [orErr_some, exBind_ok]
        cases hf : parseFloat ns.data with
        | none => rfl
        | some num =>
          simp only [orErr_some, exBind_ok]
          cases hd : parseFloat ((p.get "frame_rate_den").getD "1").data with
          | none => rfl
          | some den =>
            simp only [orErr_some, exBind_ok]
            by_cases hz : den.eqb ⟨0, 1⟩ = true
            · rw [if_pos hz]
              rfl
            · rw [if_neg hz, hmt]
              simp only [orErr_some, exBind_ok]
              obtain ⟨e, he⟩ :=
                @readTracks_err (byid doc) (num.div den) _
                  ⟨mtk, hmem, pid, hget, hne, hbyid⟩
              rw [he]
              rfl

/-- Witness for C4 on three concrete malformed documents. -/
theorem C4_witness :
    isErr (read_from_string docNoProfile) = true ∧
    isErr (read_from_string docNoTractor) = true ∧
    isErr (read_from_string docBadRef) = true :=
  ⟨C4_malformed_aborts.1 docNoProfile rfl,
   C4_malformed_aborts.2.1 docNoTractor rfl,
   C4_malformed_aborts.2.2 docBadRef mtBad trkGhost "ghost" rfl
     (List.mem_singleton_self _) rfl (by decide) rfl⟩

/- ### Association-list lemmas -/

theorem alook_none_of {k : String} {l : List (String × α)}
    (h : ∀ p ∈ l, p.1 ≠ k) : alook k l = none := by
  induction l with
  | nil => rfl
  | cons p t ih =>
    obtain ⟨a, b⟩ := p
    simp only [alook, if_neg (h (a, b) (List.mem_cons_self _ _))]
    exact ih fun q hq => h q (List.mem_cons_of_mem _ hq)

theorem alook_mem {k : String} {v : α} {l : List (String × α)}
    (h : alook k l = some v) : (k, v) ∈ l := by
  induction l with
  | nil => cases h
  | cons p t ih =>
    obtain ⟨a, b⟩ := p
    by_cases ha : a = k
    · simp only [alook, if_pos ha] at h
      cases h
      subst ha
      exact List.mem_cons_self _ _
    · simp only [alook, if_neg ha] at h
      exact List.mem_cons_of_mem _ (ih h)

theorem alook_append_left {k : String} {v : α} {a b : List (String × α)}
    (h : alook k a = some v) : alook k (a ++ b) = some v := by
  induction a with
  | nil => cases h
  | cons p t ih =>
    obtain ⟨x, y⟩ := p
    by_cases hx : x = k
    · simp only [alook, if_pos hx] at h ⊢
      exact h
    · simp only [alook, if_neg hx] at h ⊢
      exact ih h

theorem alook_append_right {k : String} {a b : List (String × α)}
    (h : alook k a = none) : alook k (a ++ b) = alook k b := by
  induction a with
  | nil => rfl
  | cons p t ih =>
    obtain ⟨x, y⟩ := p
    by_cases hx : x = k
    · simp only [alook, if_pos hx] at h
      cases h
    · simp only [alook, if_neg hx] at h ⊢
      exact ih h

/-- A key that occurs (with a unique associated value) is what lookup on the
reversed list finds: the `dict`-building order of `ET.XMLID`. -/
theorem alook_reverse_unique {l : List (String × Elem)} {k : String} {v : Elem}
    (hmem : (k, v) ∈ l) (huniq : ∀ p ∈ l, p.1 = k → p.2 = v) :
    alook k l.reverse = some v := by
  induction l with
  | nil => cases hmem
  | cons p t ih =>
    rw [List.reverse_cons]
    by_cases ht : (k, v) ∈ t
    · exact alook_append_left (ih ht fun q hq hk => huniq q (List.mem_cons_of_mem _ hq) hk)
    · have hp : p = (k, v) := by
        rcases List.mem_cons.mp hmem with h | h
        · exact h.symm
        · exact absurd h ht
      have hnone : alook k t.reverse = none := by
        apply alook_none_of
        intro q hq
        intro hk
        have hv := huniq q (List.mem_cons_of_mem _ (List.mem_reverse.mp hq)) hk
        apply ht
        have : q = (k, v) := by
          obtain ⟨q1, q2⟩ := q
          cases hk
          cases hv
          rfl
        exact this ▸ List.mem_reverse.mp hq
      rw [alook_append_right hnone, hp]
      simp [alook]

/- ### Identifier-string lemmas -/

/-- Two appends differ when the underlying lists differ on a common prefix
length. -/
theorem appends_ne {p q a b : List Char} (n : Nat) (hp : n ≤ p.length)
    (hq : n ≤ q.length) (h : p.take n ≠ q.take n) : p ++ a ≠ q ++ b := by
  intro he
  apply h
  have h1 : (p ++ a).take n = p.take n := by
    rw [List.take_append_eq_append_take, show n - p.length = 0 from by omega]
    simp
  have h2 : (q ++ b).take n = q.take n := by
    rw [List.take_append_eq_append_take, show n - q.length = 0 from by omega]
    simp
  rw [← h1, ← h2, he]

theorem natStr_take_marker {ds r : List Char} {c : Char}
    (hds : ∀ x ∈ ds, x.isDigit = true) (hc : c.isDigit = false) :
    (ds ++ c :: r).takeWhile Char.isDigit = ds ∧
      (ds ++ c :: r).dropWhile Char.isDigit = c :: r := by
  induction ds with
  | nil => simp [List.takeWhile_cons, List.dropWhile_cons, hc]
  | cons d t ih =>
    have hd : d.isDigit = true := hds d (List.mem_cons_self _ _)
    obtain ⟨iht, ihd⟩ := ih fun x hx => hds x (List.mem_cons_of_mem _ hx)
    constructor
    · show List.takeWhile _ (d :: (t ++ c :: r)) = _
      rw [List.takeWhile_cons, if_pos hd, iht]
    · show List.dropWhile _ (d :: (t ++ c :: r)) = _
      rw [List.dropWhile_cons, if_pos hd, ihd]

/-- Cancelling a digit block in front of a non-digit marker. -/
theorem digits_marker_inj {ds1 ds2 r1 r2 : List Char} {c : Char}
    (h1 : ∀ x ∈ ds1, x.isDigit = true) (h2 : ∀ x ∈ ds2, x.isDigit = true)
    (hc : c.isDigit = false) (he : ds1 ++ c :: r1 = ds2 ++ c :: r2) :
    ds1 = ds2 ∧ r1 = r2 := by
  have t1 := natStr_take_marker (r := r1) h1 hc
  have t2 := natStr_take_marker (r := r2) h2 hc
  have hds : ds1 = ds2 := by rw [← t1.1, ← t2.1, he]
  refine ⟨hds, ?_⟩
  have hr : c :: r1 = c :: r2 := by rw [← t1.2, ← t2.2, he]
  exact (List.cons.injEq _ _ _ _).mp hr |>.2

theorem producerId_inj {i j : Nat} (h : producerId i = producerId j) : i = j := by
  unfold producerId at h
  have hl : "producer".data ++ natStr i = "producer".data ++ natStr j :=
    congrArg String.data h
  exact natStr_inj (List.append_cancel_left hl)

theorem tractorId_inj {i j : Nat} (h : tractorId i = tractorId j) : i = j := by
  unfold tractorId at h
  have hl : "tractor".data ++ natStr i = "tractor".data ++ natStr j :=
    congrArg String.data h
  exact natStr_inj (List.append_cancel_left hl)

theorem playlistId_inj {i j li lj : Nat} (h : playlistId i li = playlistId j lj) :
    i = j ∧ li = lj := by
  unfold playlistId at h
  have hl : "playlist".data ++ (natStr i ++ '_' :: natStr li) =
      "playlist".data ++ (natStr j ++ '_' :: natStr lj) := by
    have := congrArg String.data h
    simpa using this
  have hm := List.append_cancel_left hl
  obtain ⟨ha, hb⟩ := digits_marker_inj natStr_all_digits natStr_all_digits
    (by decide) hm
  exact ⟨natStr_inj ha, natStr_inj hb⟩

theorem producerId_ne_tractorId (i j : Nat) : producerId i ≠ tractorId j := by
  unfold producerId tractorId
  intro h
  exact appends_ne 1 (by decide) (by decide) (by decide) (congrArg String.data h)

theorem producerId_ne_playlistId (i j l : Nat) : producerId i ≠ playlistId j l := by
  unfold producerId playlistId
  intro h
  have hd := congrArg String.data h
  have hd2 : "producer".data ++ natStr i =
      "playlist".data ++ (natStr j ++ '_' :: natStr l) := by simpa using hd
  exact appends_ne 2 (by decide) (by decide) (by decide) hd2

theorem tractorId_ne_playlistId (i j l : Nat) : tractorId i ≠ playlistId j l := by
  unfold tractorId playlistId
  intro h
  have hd := congrArg String.data h
  have hd2 : "tractor".data ++ natStr i =
      "playlist".data ++ (natStr j ++ '_' :: natStr l) := by simpa using hd
  exact appends_ne 1 (by decide) (by decide) (by decide) hd2

theorem producerId_ne_unsupported (i : Nat) : producerId i ≠ "unsupported" := by
  unfold producerId
  intro h
  have hd : "producer".data ++ natStr i = "unsupported".data ++ [] := by
    have := congrArg String.data h
    simpa using this
  exact appends_ne 1 (by decide) (by decide) (by decide) hd

theorem producerId_ne_main_bin (i : Nat) : producerId i ≠ "main_bin" := by
  unfold producerId
  intro h
  have hd : "producer".data ++ natStr i = "main_bin".data ++ [] := by
    have := congrArg String.data h
    simpa using this
  exact appends_ne 1 (by decide) (by decide) (by decide) hd

theorem producerId_ne_black (i : Nat) : producerId i ≠ "black_track" := by
  unfold producerId
  intro h
  have hd : "producer".data ++ natStr i = "black_track".data ++ [] := by
    have := congrArg String.data h
    simpa using this
  exact appends_ne 1 (by decide) (by decide) (by decide) hd

theorem tractorId_ne_unsupported (i : Nat) : tractorId i ≠ "unsupported" := by
  unfold tractorId
  intro h
  have hd : "tractor".data ++ natStr i = "unsupported".data ++ [] := by
    have := congrArg String.data h
    simpa using this
  exact appends_ne 1 (by decide) (by decide) (by decide) hd

theorem tractorId_ne_main_bin (i : Nat) : tractorId i ≠ "main_bin" := by
  unfold tractorId
  intro h
  have hd : "tractor".data ++ natStr i = "main_bin".data ++ [] := by
    have := congrArg String.data h
    simpa using this
  exact appends_ne 1 (by decide) (by decide) (by decide) hd

theorem tractorId_ne_black (i : Nat) : tractorId i ≠ "black_track" := by
  unfold tractorId
  intro h
  have hd : "tractor".data ++ natStr i = "black_track".data ++ [] := by
    have := congrArg String.data h
    simpa using this
  exact appends_ne 1 (by decide) (by decide) (by decide) hd

theorem playlistId_ne_unsupported (i l : Nat) : playlistId i l ≠ "unsupported" := by
  unfold playlistId
  intro h
  have hd : "playlist".data ++ (natStr i ++ '_' :: natStr l) =
      "unsupported".data ++ [] := by
    have := congrArg String.data h
    simpa using this
  exact appends_ne 1 (by decide) (by decide) (by decide) hd

theorem playlistId_ne_main_bin (i l : Nat) : playlistId i l ≠ "main_bin" := by
  unfold playlistId
  intro h
  have hd : "playlist".data ++ (natStr i ++ '_' :: natStr l) =
      "main_bin".data ++ [] := by
    have := congrArg String.data h
    simpa using this
  exact appends_ne 2 (by decide) (by decide) (by decide) hd

theorem playlistId_ne_black (i l : Nat) : playlistId i l ≠ "black_track" := by
  unfold playlistId
  intro h
  have hd : "playlist".data ++ (natStr i ++ '_' :: natStr l) =
      "black_track".data ++ [] := by
    have := congrArg String.data h
    simpa using this
  exact appends_ne 1 (by decide) (by decide) (by decide) hd

/- ### The id table of the written document -/

theorem elemIds_mk (t : String) (a : List (String × String)) (x : Option String)
    (cs : List Elem) :
    elemIds (.mk t a x cs) =
      (match alook "id" a with
       | some i => [(i, Elem.mk t a x cs)]
       | none => []) ++ elemIdsL cs := by
  rfl

theorem elemIds_no_id {t : String} {a : List (String × String)} {x : Option String}
    {cs : List Elem} (h : alook "id" a = none) :
    elemIds (.mk t a x cs) = elemIdsL cs := by
  rw [elemIds_mk, h]
  rfl

theorem elemIds_with_id {t : String} {a : List (String × String)} {x : Option String}
    {cs : List Elem} {i : String} (h : alook "id" a = some i)
    (hcs : elemIdsL cs = []) :
    elemIds (.mk t a x cs) = [(i, .mk t a x cs)] := by
  rw [elemIds_mk, h, hcs]
  rfl

theorem elemIdsL_append (l1 l2 : List Elem) :
    elemIdsL (l1 ++ l2) = elemIdsL l1 ++ elemIdsL l2 := by
  induction l1 with
  | nil => rfl
  | cons e t ih =>
    show elemIds e ++ elemIdsL (t ++ l2) = (elemIds e ++ elemIdsL t) ++ elemIdsL l2
    rw [ih, List.append_assoc]

theorem elemIdsL_nil_of {l : List Elem} (h : ∀ e ∈ l, elemIds e = []) :
    elemIdsL l = [] := by
  induction l with
  | nil => rfl
  | cons e t ih =>
    show elemIds e ++ elemIdsL t = []
    rw [h e (List.mem_cons_self _ _), ih fun x hx => h x (List.mem_cons_of_mem _ hx)]
    rfl

theorem elemIds_property (n v : String) : elemIds (property_elem n v) = [] := rfl

theorem elemIds_gapElem (g : Gap) : elemIds (gapElem g) = [] := rfl

theorem elemIds_entryElem (lib : List (String × Elem)) (c : Clip) :
    elemIds (entryElem lib c) = [] := rfl

theorem elemIdsL_itemElems (lib : List (String × Elem)) (items : List Item) :
    elemIdsL (itemElemsOf lib items) = [] := by
  apply elemIdsL_nil_of
  intro e he
  unfold itemElemsOf at he
  rw [List.mem_flatten] at he
  obtain ⟨l, hl, hel⟩ := he
  rw [List.mem_map] at hl
  obtain ⟨i, _, hli⟩ := hl
  subst hli
  cases i with
  | gap g =>
    rcases List.mem_singleton.mp hel with rfl
    exact elemIds_gapElem g
  | clip c =>
    rcases List.mem_singleton.mp hel with rfl
    exact elemIds_entryElem lib c
  | transition _ => cases hel

theorem elemIds_profile (r : Q) : elemIds (profileElem r) = [] := rfl

theorem elemIds_mkProducer (j : Nat) (s r : String) (ar : TimeRange) (nm : String) :
    elemIds (mkProducer j s r ar nm) = [(producerId j, mkProducer j s r ar nm)] := by
  unfold mkProducer
  by_cases hnm : nm ≠ ""
  · rw [if_pos hnm]
    rfl
  · rw [if_neg hnm]
    rfl

theorem elemIds_unsup : elemIds unsupportedProducer =
    [("unsupported", unsupportedProducer)] := rfl

theorem elemIds_black : elemIds blackProducer =
    [("black_track", blackProducer)] := rfl

theorem elemIds_binEntry (i : Nat) : elemIds (binEntry i) = [] := rfl

theorem elemIds_mainBin (n : Nat) : elemIds (mainBin n) = [("main_bin", mainBin n)] := by
  unfold mainBin
  refine elemIds_with_id rfl ?_
  rw [elemIdsL_append, elemIdsL_append]
  rw [show elemIdsL [property_elem "kdenlive:docproperties.decimalPoint" ".",
      property_elem "kdenlive:docproperties.version" "0.98",
      property_elem "xml_retain" "1"] = [] from rfl]
  rw [show elemIdsL [Elem.mk "entry" [("producer", "unsupported")] none []] = [] from rfl]
  rw [elemIdsL_nil_of (l := (List.range n).map binEntry) (by
    intro e he
    rw [List.mem_map] at he
    obtain ⟨i, _, hi⟩ := he
    exact hi ▸ elemIds_binEntry i)]
  rfl

theorem elemIdsL_audioProps (k : TrackKind) : elemIdsL (audioPropsOf k) = [] := by
  unfold audioPropsOf
  by_cases hk : k = TrackKind.audio
  · rw [if_pos hk]
    rfl
  · rw [if_neg hk]
    rfl

theorem elemIds_pl1 (tr : Track) (k : Nat) (items1 : List Elem)
    (h : elemIdsL items1 = []) :
    elemIds (pl1Of tr k items1) = [(playlistId k 1, pl1Of tr k items1)] := by
  unfold pl1Of
  refine elemIds_with_id rfl ?_
  rw [elemIdsL_append, elemIdsL_audioProps, h]
  rfl

theorem elemIds_pl2 (tr : Track) (k : Nat) :
    elemIds (pl2Of tr k) = [(playlistId k 2, pl2Of tr k)] := by
  unfold pl2Of
  refine elemIds_with_id rfl (elemIdsL_audioProps tr.kind)

theorem elemIds_sub (tr : Track) (k : Nat) :
    elemIds (subtractorOf tr k) = [(tractorId k, subtractorOf tr k)] := by
  unfold subtractorOf
  refine elemIds_with_id rfl ?_
  rw [elemIdsL_append, elemIdsL_audioProps]
  rw [show elemIdsL [property_elem "kdenlive:track_name" tr.name,
      Elem.mk "track" [("producer", playlistId k 1), ("hide", hideVal tr.kind)] none [],
      Elem.mk "track" [("producer", playlistId k 2), ("hide", hideVal tr.kind)] none []] =
      [] from rfl]
  rfl

theorem elemIds_trackRef (k : Nat) : elemIds (trackRefElem k) = [] := rfl

theorem elemIdsL_refsOf (trs : List Track) : ∀ k : Nat, elemIdsL (refsOf trs k) = [] := by
  induction trs with
  | nil => intro k; rfl
  | cons tr rest ih =>
    intro k
    show elemIds (trackRefElem k) ++ elemIdsL (refsOf rest (k + 1)) = []
    rw [elemIds_trackRef, ih]
    rfl

theorem elemIds_maintractor (trs : List Track) (k : Nat) :
    elemIds (maintractorOf (refsOf trs k)) = [] := by
  unfold maintractorOf
  refine (elemIds_no_id (show alook "id" [("global_feed", "1")] = none from rfl)).trans ?_
  show elemIds (Elem.mk "track" [("producer", "black_track")] none []) ++
    elemIdsL (refsOf trs k) = []
  rw [elemIdsL_refsOf]
  rfl

theorem elemIdsL_libmap {S : List String} : ∀ {lib : List (String × Elem)} {j : Nat},
    LibShape S j lib → elemIdsL (lib.map Prod.snd) = libIdPairs j lib := by
  intro lib
  induction lib with
  | nil => intro j _; rfl
  | cons p rest ih =>
    intro j h
    obtain ⟨r, e⟩ := p
    obtain ⟨⟨sv, ar, nm, _, _, he⟩, hrest⟩ := h
    show elemIds e ++ elemIdsL (rest.map Prod.snd) = (producerId j, e) :: libIdPairs (j + 1) rest
    rw [he, elemIds_mkProducer, ih hrest, ← he]
    rfl

theorem elemIdsL_chunksOf (lib : List (String × Elem)) :
    ∀ (trs : List Track) (k : Nat),
      elemIdsL (chunksOf lib trs k) = chunkIds lib trs k := by
  intro trs
  induction trs with
  | nil => intro k; rfl
  | cons tr rest ih =>
    intro k
    show elemIds (pl1Of tr k (itemElemsOf lib tr.items)) ++
      (elemIds (pl2Of tr k) ++ (elemIds (subtractorOf tr k) ++
        elemIdsL (chunksOf lib rest (k + 1)))) = _
    rw [elemIds_pl1 tr k _ (elemIdsL_itemElems lib tr.items), elemIds_pl2,
      elemIds_sub, ih (k + 1)]
    rfl

/-- The full id table of the written root element. -/
theorem elemIds_M {S : List String} (t : Timeline) {lib : List (String × Elem)}
    (trs : List Track) (hlib : LibShape S 0 lib) :
    elemIds (mltElemOf t lib (chunksOf lib trs 1) (refsOf trs 1)) =
      libIdPairs 0 lib ++
        ([("unsupported", unsupportedProducer), ("main_bin", mainBin lib.length),
          ("black_track", blackProducer)] ++ chunkIds lib trs 1) := by
  unfold mltElemOf
  refine (elemIds_no_id (show alook "id" [("version", "6.16.0"), ("title", t.name),
    ("LC_NUMERIC", "en_US.UTF-8"), ("producer", "main_bin")] = none from rfl)).trans ?_
  rw [show profileElem (timelineRate t) :: lib.map Prod.snd ++
      [unsupportedProducer, mainBin lib.length, blackProducer] ++
      chunksOf lib trs 1 ++ [maintractorOf (refsOf trs 1)] =
    (profileElem (timelineRate t) :: lib.map Prod.snd) ++
      ([unsupportedProducer, mainBin lib.length, blackProducer] ++
        (chunksOf lib trs 1 ++ [maintractorOf (refsOf trs 1)])) from by
    simp [List.append_assoc]]
  rw [elemIdsL_append, elemIdsL_append, elemIdsL_append]
  show elemIds (profileElem (timelineRate t)) ++ elemIdsL (lib.map Prod.snd) ++ _ = _
  rw [elemIds_profile, elemIdsL_libmap hlib]
  show [] ++ libIdPairs 0 lib ++
    ((elemIds unsupportedProducer ++ (elemIds (mainBin lib.length) ++
      (elemIds blackProducer ++ []))) ++
      (elemIdsL (chunksOf lib trs 1) ++
        (elemIds (maintractorOf (refsOf trs 1)) ++ []))) = _
  rw [elemIds_unsup, elemIds_mainBin, elemIds_black, elemIdsL_chunksOf,
    elemIds_maintractor]
  simp

/- ### Resolving ids in the written document -/

theorem LibShape_get {S : List String} : ∀ {lib : List (String × Elem)} {j : Nat},
    LibShape S j lib → ∀ (i : Nat) (hi : i < lib.length),
      ∃ s ar nm, s ∈ S ∧ (lib.get ⟨i, hi⟩).1 ≠ "" ∧
        (lib.get ⟨i, hi⟩).2 = mkProducer (j + i) s (lib.get ⟨i, hi⟩).1 ar nm := by
  intro lib
  induction lib with
  | nil => intro j _ i hi; exact absurd hi (by simp)
  | cons p rest ih =>
    intro j h i hi
    obtain ⟨r, e⟩ := p
    obtain ⟨⟨sv, ar, nm, hs, hr, he⟩, hrest⟩ := h
    cases i with
    | zero => exact ⟨sv, ar, nm, hs, hr, by simpa using he⟩
    | succ i2 =>
      have hi2 : i2 < rest.length := by
        simp only [List.length_cons] at hi
        omega
      obtain ⟨s2, ar2, nm2, hs2, hr2, he2⟩ := ih hrest i2 hi2
      refine ⟨s2, ar2, nm2, hs2, ?_, ?_⟩
      · show (rest.get ⟨i2, hi2⟩).1 ≠ ""
        exact hr2
      · show (rest.get ⟨i2, hi2⟩).2 = mkProducer (j + (i2 + 1)) s2 _ ar2 nm2
        rw [show j + (i2 + 1) = j + 1 + i2 from by omega]
        exact he2

theorem mem_libIdPairs : ∀ {lib : List (String × Elem)} {j : Nat} {p : String × Elem},
    p ∈ libIdPairs j lib →
      ∃ i, ∃ hi : i < lib.length, p = (producerId (j + i), (lib.get ⟨i, hi⟩).2) := by
  intro lib
  induction lib with
  | nil => intro j p hp; cases hp
  | cons q rest ih =>
    intro j p hp
    obtain ⟨r, e⟩ := q
    rcases List.mem_cons.mp hp with rfl | hp
    · exact ⟨0, by simp, by simp⟩
    · obtain ⟨i, hi, he⟩ := ih hp
      refine ⟨i + 1, by simpa using Nat.succ_lt_succ hi, ?_⟩
      rw [show j + (i + 1) = j + 1 + i from by omega]
      exact he

theorem libIdPairs_mem : ∀ {lib : List (String × Elem)} {j : Nat} (i : Nat)
    (hi : i < lib.length),
    (producerId (j + i), (lib.get ⟨i, hi⟩).2) ∈ libIdPairs j lib := by
  intro lib
  induction lib with
  | nil => intro j i hi; exact absurd hi (by simp)
  | cons q rest ih =>
    intro j i hi
    obtain ⟨r, e⟩ := q
    cases i with
    | zero => simp [libIdPairs]
    | succ i2 =>
      have hi2 : i2 < rest.length := by
        simp only [List.length_cons] at hi
        omega
      have := ih (j := j + 1) i2 hi2
      rw [show j + 1 + i2 = j + (i2 + 1) from by omega] at this
      exact List.mem_cons_of_mem _ this

theorem mem_chunkIds {lib : List (String × Elem)} :
    ∀ {trs : List Track} {k : Nat} {p : String × Elem}, p ∈ chunkIds lib trs k →
      ∃ i, ∃ hi : i < trs.length,
        p = (playlistId (k + i) 1, pl1Of (trs.get ⟨i, hi⟩) (k + i)
              (itemElemsOf lib (trs.get ⟨i, hi⟩).items)) ∨
        p = (playlistId (k + i) 2, pl2Of (trs.get ⟨i, hi⟩) (k + i)) ∨
        p = (tractorId (k + i), subtractorOf (trs.get ⟨i, hi⟩) (k + i)) := by
  intro trs
  induction trs with
  | nil => intro k p hp; cases hp
  | cons tr rest ih =>
    intro k p hp
    rcases List.mem_cons.mp hp with rfl | hp
    · exact ⟨0, by simp, by simp⟩
    rcases List.mem_cons.mp hp with rfl | hp
    · exact ⟨0, by simp, by simp⟩
    rcases List.mem_cons.mp hp with rfl | hp
    · exact ⟨0, by simp, by simp⟩
    · obtain ⟨i, hi, he⟩ := ih hp
      refine ⟨i + 1, by simpa using Nat.succ_lt_succ hi, ?_⟩
      rw [show k + (i + 1) = k + 1 + i from by omega]
      exact he

theorem chunkIds_mem_pl1 {lib : List (String × Elem)} :
    ∀ {trs : List Track} {k : Nat} (i : Nat) (hi : i < trs.length),
    (playlistId (k + i) 1, pl1Of (trs.get ⟨i, hi⟩) (k + i)
      (itemElemsOf lib (trs.get ⟨i, hi⟩).items)) ∈ chunkIds lib trs k := by
  intro trs
  induction trs with
  | nil => intro k i hi; exact absurd hi (by simp)
  | cons tr rest ih =>
    intro k i hi
    cases i with
    | zero => simp [chunkIds]
    | succ i2 =>
      have hi2 : i2 < rest.length := by
        simp only [List.length_cons] at hi
        omega
      have := ih (k := k + 1) i2 hi2
      rw [show k + 1 + i2 = k + (i2 + 1) from by omega] at this
      exact List.mem_cons_of_mem _ (List.mem_cons_of_mem _ (List.mem_cons_of_mem _ this))

theorem chunkIds_mem_pl2 {lib : List (String × Elem)} :
    ∀ {trs : List Track} {k : Nat} (i : Nat) (hi : i < trs.length),
    (playlistId (k + i) 2, pl2Of (trs.get ⟨i, hi⟩) (k + i)) ∈ chunkIds lib trs k := by
  intro trs
  induction trs with
  | nil => intro k i hi; exact absurd hi (by simp)
  | cons tr rest ih =>
    intro k i hi
    cases i with
    | zero => simp [chunkIds]
    | succ i2 =>
      have hi2 : i2 < rest.length := by
        simp only [List.length_cons] at hi
        omega
      have := ih (k := k + 1) i2 hi2
      rw [show k + 1 + i2 = k + (i2 + 1) from by omega] at this
      exact List.mem_cons_of_mem _ (List.mem_cons_of_mem _ (List.mem_cons_of_mem _ this))

theorem chunkIds_mem_sub {lib : List (String × Elem)} :
    ∀ {trs : List Track} {k : Nat} (i : Nat) (hi : i < trs.length),
    (tractorId (k + i), subtractorOf (trs.get ⟨i, hi⟩) (k + i)) ∈ chunkIds lib trs k := by
  intro trs
  induction trs with
  | nil => intro k i hi; exact absurd hi (by simp)
  | cons tr rest ih =>
    intro k i hi
    cases i with
    | zero => simp [chunkIds]
    | succ i2 =>
      have hi2 : i2 < rest.length := by
        simp only [List.length_cons] at hi
        omega
      have := ih (k := k + 1) i2 hi2
      rw [show k + 1 + i2 = k + (i2 + 1) from by omega] at this
      exact List.mem_cons_of_mem _ (List.mem_cons_of_mem _ (List.mem_cons_of_mem _ this))

theorem byid_M_producer {S : List String} {t : Timeline} {lib : List (String × Elem)}
    {trs : List Track} (hlib : LibShape S 0 lib) (j : Nat) (hj : j < lib.length) :
    byid (mltElemOf t lib (chunksOf lib trs 1) (refsOf trs 1)) (producerId j) =
      some ((lib.get ⟨j, hj⟩).2) := by
  unfold byid
  rw [elemIds_M t trs hlib]
  apply alook_reverse_unique
  · apply List.mem_append.mpr
    left
    have := libIdPairs_mem (j := 0) j hj
    simpa using this
  · intro p hp hk
    rcases List.mem_append.mp hp with hp | hp
    · obtain ⟨i, hi, rfl⟩ := mem_libIdPairs hp
      have hij : 0 + i = j := producerId_inj hk
      have hi2 : i = j := by omega
      subst hi2
      rfl
    rcases List.mem_append.mp hp with hp | hp
    · simp only [List.mem_cons, List.not_mem_nil, or_false] at hp
      rcases hp with rfl | rfl | rfl
      · exact absurd hk.symm (producerId_ne_unsupported j)
      · exact absurd hk.symm (producerId_ne_main_bin j)
      · exact absurd hk.symm (producerId_ne_black j)
    · obtain ⟨i, hi, hc⟩ := mem_chunkIds hp
      rcases hc with rfl | rfl | rfl
      · exact absurd hk.symm (producerId_ne_playlistId j (1 + i) 1)
      · exact absurd hk.symm (producerId_ne_playlistId j (1 + i) 2)
      · exact absurd hk.symm (producerId_ne_tractorId j (1 + i))

theorem byid_M_sub {S : List String} {t : Timeline} {lib : List (String × Elem)}
    {trs : List Track} (hlib : LibShape S 0 lib) (i : Nat) (hi : i < trs.length) :
    byid (mltElemOf t lib (chunksOf lib trs 1) (refsOf trs 1)) (tractorId (1 + i)) =
      some (subtractorOf (trs.get ⟨i, hi⟩) (1 + i)) := by
  unfold byid
  rw [elemIds_M t trs hlib]
  apply alook_reverse_unique
  · apply List.mem_append.mpr
    right
    apply List.mem_append.mpr
    right
    exact chunkIds_mem_sub i hi
  · intro p hp hk
    rcases List.mem_append.mp hp with hp | hp
    · obtain ⟨i2, hi2, rfl⟩ := mem_libIdPairs hp
      exact absurd hk (producerId_ne_tractorId (0 + i2) (1 + i))
    rcases List.mem_append.mp hp with hp | hp
    · simp only [List.mem_cons, List.not_mem_nil, or_false] at hp
      rcases hp with rfl | rfl | rfl
      · exact absurd hk.symm (tractorId_ne_unsupported (1 + i))
      · exact absurd hk.symm (tractorId_ne_main_bin (1 + i))
      · exact absurd hk.symm (tractorId_ne_black (1 + i))
    · obtain ⟨i2, hi2, hc⟩ := mem_chunkIds hp
      rcases hc with rfl | rfl | rfl
      · exact absurd hk.symm (tractorId_ne_playlistId (1 + i) (1 + i2) 1)
      · exact absurd hk.symm (tractorId_ne_playlistId (1 + i) (1 + i2) 2)
      · have hij : 1 + i2 = 1 + i := tractorId_inj hk
        have : i2 = i := by omega
        subst this
        rfl

theorem byid_M_pl1 {S : List String} {t : Timeline} {lib : List (String × Elem)}
    {trs : List Track} (hlib : LibShape S 0 lib) (i : Nat) (hi : i < trs.length) :
    byid (mltElemOf t lib (chunksOf lib trs 1) (refsOf trs 1)) (playlistId (1 + i) 1) =
      some (pl1Of (trs.get ⟨i, hi⟩) (1 + i) (itemElemsOf lib (trs.get ⟨i, hi⟩).items)) := by
  unfold byid
  rw [elemIds_M t trs hlib]
  apply alook_reverse_unique
  · apply List.mem_append.mpr
    right
    apply List.mem_append.mpr
    right
    exact chunkIds_mem_pl1 i hi
  · intro p hp hk
    rcases List.mem_append.mp hp with hp | hp
    · obtain ⟨i2, hi2, rfl⟩ := mem_libIdPairs hp
      exact absurd hk (producerId_ne_playlistId (0 + i2) (1 + i) 1)
    rcases List.mem_append.mp hp with hp | hp
    · simp only [List.mem_cons, List.not_mem_nil, or_false] at hp
      rcases hp with rfl | rfl | rfl
      · exact absurd hk.symm (playlistId_ne_unsupported (1 + i) 1)
      · exact absurd hk.symm (playlistId_ne_main_bin (1 + i) 1)
      · exact absurd hk.symm (playlistId_ne_black (1 + i) 1)
    · obtain ⟨i2, hi2, hc⟩ := mem_chunkIds hp
      rcases hc with rfl | rfl | rfl
      · obtain ⟨hij, _⟩ := playlistId_inj hk
        have : i2 = i := by omega
        subst this
        rfl
      · obtain ⟨_, hl⟩ := playlistId_inj hk
        exact absurd hl (by decide)
      · exact absurd hk (tractorId_ne_playlistId (1 + i2) (1 + i) 1)

theorem byid_M_pl2 {S : List String} {t : Timeline} {lib : List (String × Elem)}
    {trs : List Track} (hlib : LibShape S 0 lib) (i : Nat) (hi : i < trs.length) :
    byid (mltElemOf t lib (chunksOf lib trs 1) (refsOf trs 1)) (playlistId (1 + i) 2) =
      some (pl2Of (trs.get ⟨i, hi⟩) (1 + i)) := by
  unfold byid
  rw [elemIds_M t trs hlib]
  apply alook_reverse_unique
  · apply List.mem_append.mpr
    right
    apply List.mem_append.mpr
    right
    exact chunkIds_mem_pl2 i hi
  · intro p hp hk
    rcases List.mem_append.mp hp with hp | hp
    · obtain ⟨i2, hi2, rfl⟩ := mem_libIdPairs hp
      exact absurd hk (producerId_ne_playlistId (0 + i2) (1 + i) 2)
    rcases List.mem_append.mp hp with hp | hp
    · simp only [List.mem_cons, List.not_mem_nil, or_false] at hp
      rcases hp with rfl | rfl | rfl
      · exact absurd hk.symm (playlistId_ne_unsupported (1 + i) 2)
      · exact absurd hk.symm (playlistId_ne_main_bin (1 + i) 2)
      · exact absurd hk.symm (playlistId_ne_black (1 + i) 2)
    · obtain ⟨i2, hi2, hc⟩ := mem_chunkIds hp
      rcases hc with rfl | rfl | rfl
      · obtain ⟨_, hl⟩ := playlistId_inj hk
        exact absurd hl (by decide)
      · obtain ⟨hij, _⟩ := playlistId_inj hk
        have : i2 = i := by omega
        subst this
        rfl
      · exact absurd hk (tractorId_ne_playlistId (1 + i2) (1 + i) 2)

/- ### The writer in closed form -/

theorem serviceFor_cases (u : String) :
    serviceFor u = "qimage" ∨ serviceFor u = "avformat" := by
  unfold serviceFor
  by_cases h : extOf u ∈ [".png".data, ".jpg".data, ".jpeg".data]
  · rw [if_pos h]
    left
    rfl
  · rw [if_neg h]
    right
    rfl

theorem itemElemsOf_cons (lib : List (String × Elem)) (i : Item) (items : List Item) :
    itemElemsOf lib (i :: items) = itemElemOf lib i ++ itemElemsOf lib items := by
  unfold itemElemsOf
  rw [List.map_cons, List.flatten_cons]

theorem LibShape_append {S : List String} :
    ∀ {a : List (String × Elem)} {j : Nat} {r : String} {e : Elem},
    LibShape S j a →
    (∃ s ar nm, s ∈ S ∧ r ≠ "" ∧ e = mkProducer (j + a.length) s r ar nm) →
    LibShape S j (a ++ [(r, e)]) := by
  intro a
  induction a with
  | nil =>
    intro j r e _ he
    refine ⟨?_, trivial⟩
    simpa using he
  | cons p rest ih =>
    intro j r e h he
    obtain ⟨hp, hrest⟩ := h
    refine ⟨hp, ?_⟩
    apply ih hrest
    obtain ⟨s, ar, nm, hs, hr, hee⟩ := he
    refine ⟨s, ar, nm, hs, hr, ?_⟩
    rw [show j + 1 + rest.length = j + (p :: rest).length from by simp; omega]
    exact hee

theorem mediaLib_cons_none {c : Clip} {rest : List Clip} {acc : List (String × Elem)}
    {res0 : Option String} (h : clipSvcRes c = .ok none) :
    mediaLib (c :: rest) acc res0 = mediaLib rest acc none := by
  show exBind (clipSvcRes c) _ = _
  rw [h, exBind_ok]

theorem mediaLib_cons_some {c : Clip} {rest : List Clip} {acc : List (String × Elem)}
    {res0 : Option String} {s r : String} {ar : TimeRange}
    (h : clipSvcRes c = .ok (some (s, r, ar))) :
    mediaLib (c :: rest) acc res0 =
      if s ≠ "" ∧ r ≠ "" ∧ (alook r acc).isNone then
        mediaLib rest (acc ++ [(r, mkProducer acc.length s r ar c.name)]) (some r)
      else mediaLib rest acc (some r) := by
  show exBind (clipSvcRes c) _ = _
  rw [h, exBind_ok]

theorem clipSvcRes_external {c : Clip} {u : String} {ar : TimeRange}
    (hm : c.media_reference = .external u ar) :
    clipSvcRes c = .ok (some (serviceFor u, u, ar)) := by
  unfold clipSvcRes
  rw [hm]

theorem clipSvcRes_solid {c : Clip} {ps : List (String × String)} {ar : TimeRange}
    {v : String} (hm : c.media_reference = .generator "SolidColor" ps ar)
    (hv : alook "color" ps = some v) :
    clipSvcRes c = .ok (some ("color", v, ar)) := by
  unfold clipSvcRes
  rw [hm]
  show (if "SolidColor" = "SolidColor" then
    exBind (orErr (alook "color" ps) PyErr.keyError)
      (fun v => Except.ok (some ("color", v, ar))) else Except.ok none) = _
  rw [if_pos rfl, hv, orErr_some, exBind_ok]

theorem clipSvcRes_gen_other {c : Clip} {kd : String} {ps : List (String × String)}
    {ar : TimeRange} (hm : c.media_reference = .generator kd ps ar)
    (hk : kd ≠ "SolidColor") : clipSvcRes c = .ok none := by
  unfold clipSvcRes
  rw [hm]
  show (if kd = "SolidColor" then _ else Except.ok none) = _
  rw [if_neg hk]

theorem clipSvcRes_missing {c : Clip} (hm : c.media_reference = .missing) :
    clipSvcRes c = .ok none := by
  unfold clipSvcRes
  rw [hm]

theorem clipResKey_external {c : Clip} {u : String} {ar : TimeRange}
    (hm : c.media_reference = .external u ar) : clipResKey c = some u := by
  unfold clipResKey
  rw [hm]

theorem clipResKey_missing {c : Clip} (hm : c.media_reference = .missing) :
    clipResKey c = none := by
  unfold clipResKey
  rw [hm]

theorem clipResKey_solid {c : Clip} {ps : List (String × String)} {ar : TimeRange}
    (hm : c.media_reference = .generator "SolidColor" ps ar) :
    clipResKey c = alook "color" ps := by
  unfold clipResKey
  rw [hm]
  show (if "SolidColor" = "SolidColor" then alook "color" ps else none) = _
  rw [if_pos rfl]

theorem clipResKey_gen_other {c : Clip} {kd : String} {ps : List (String × String)}
    {ar : TimeRange} (hm : c.media_reference = .generator kd ps ar)
    (hk : kd ≠ "SolidColor") : clipResKey c = none := by
  unfold clipResKey
  rw [hm]
  show (if kd = "SolidColor" then alook "color" ps else none) = _
  rw [if_neg hk]

theorem mediaLib_closed {S : List String} :
    ∀ {cs : List Clip} {acc : List (String × Elem)} {res0 : Option String},
    (∀ c ∈ cs, mlClipOK S c) → LibShape S 0 acc →
    ∃ lib res2, mediaLib cs acc res0 = .ok (lib, res2) ∧ LibShape S 0 lib ∧
      (∀ u v, alook u acc = some v → alook u lib = some v) ∧
      (∀ c ∈ cs, ∀ u, clipResKey c = some u → u ≠ "" → ∃ p, alook u lib = some p) := by
  intro cs
  induction cs with
  | nil =>
    intro acc res0 _ hacc
    exact ⟨acc, res0, rfl, hacc, fun u v h => h, fun c hc => absurd hc (by simp)⟩
  | cons c rest ih =>
    intro acc res0 h hacc
    have hc := h c (List.mem_cons_self _ _)
    have hrest : ∀ x ∈ rest, mlClipOK S x := fun x hx => h x (List.mem_cons_of_mem _ hx)
    cases hm : c.media_reference with
    | missing =>
      rw [mediaLib_cons_none (clipSvcRes_missing hm)]
      obtain ⟨lib, res2, heq, hshape, hmono, hcomp⟩ := ih hrest hacc
      refine ⟨lib, res2, heq, hshape, hmono, ?_⟩
      intro x hx u hu hne
      rcases List.mem_cons.mp hx with rfl | hx
      · rw [clipResKey_missing hm] at hu
        cases hu
      · exact hcomp x hx u hu hne
    | generator kd ps ar =>
      by_cases hk : kd = "SolidColor"
      · subst hk
        unfold mlClipOK at hc
        rw [hm] at hc
        obtain ⟨⟨v, hv⟩, hcol⟩ := hc rfl
        rw [mediaLib_cons_some (clipSvcRes_solid hm hv)]
        by_cases hvne : v ≠ ""
        · by_cases hmem : (alook v acc).isNone
          · rw [if_pos ⟨by decide, hvne, hmem⟩]
            have hacc2 : LibShape S 0 (acc ++ [(v, mkProducer acc.length "color" v ar c.name)]) :=
              LibShape_append hacc ⟨"color", ar, c.name, hcol, hvne, by
                rw [Nat.zero_add]⟩
            obtain ⟨lib, res2, heq, hshape, hmono, hcomp⟩ := ih hrest hacc2
            refine ⟨lib, res2, heq, hshape, ?_, ?_⟩
            · intro u w hw
              exact hmono u w (alook_append_left hw)
            · intro x hx u hu hne
              rcases List.mem_cons.mp hx with rfl | hx
              · rw [clipResKey_solid hm, hv] at hu
                cases hu
                refine ⟨mkProducer acc.length "color" v ar x.name, hmono v _ ?_⟩
                rw [alook_append_right (Option.isNone_iff_eq_none.mp hmem)]
                show (if v = v then _ else _) = _
                rw [if_pos rfl]
              · exact hcomp x hx u hu hne
          · rw [if_neg (fun hand => hmem hand.2.2)]
            obtain ⟨lib, res2, heq, hshape, hmono, hcomp⟩ := ih hrest hacc
            refine ⟨lib, res2, heq, hshape, hmono, ?_⟩
            intro x hx u hu hne
            rcases List.mem_cons.mp hx with rfl | hx
            · rw [clipResKey_solid hm, hv] at hu
              cases hu
              have hsome : (alook v acc).isSome = true := by
                cases hal : alook v acc
                · exact absurd (by rw [hal]; rfl) hmem
                · rfl
              obtain ⟨p, hp⟩ := Option.isSome_iff_exists.mp hsome
              exact ⟨p, hmono v p hp⟩
            · exact hcomp x hx u hu hne
        · rw [if_neg (fun hand => hvne hand.2.1)]
          obtain ⟨lib, res2, heq, hshape, hmono, hcomp⟩ := ih hrest hacc
          refine ⟨lib, res2, heq, hshape, hmono, ?_⟩
          intro x hx u hu hne
          rcases List.mem_cons.mp hx with rfl | hx
          · rw [clipResKey_solid hm, hv] at hu
            cases hu
            exact absurd (by simpa using hvne) hne
          · exact hcomp x hx u hu hne
      · rw [mediaLib_cons_none (clipSvcRes_gen_other hm hk)]
        obtain ⟨lib, res2, heq, hshape, hmono, hcomp⟩ := ih hrest hacc
        refine ⟨lib, res2, heq, hshape, hmono, ?_⟩
        intro x hx u hu hne
        rcases List.mem_cons.mp hx with rfl | hx
        · rw [clipResKey_gen_other hm hk] at hu
          cases hu
        · exact hcomp x hx u hu hne
    | external u ar =>
      unfold mlClipOK at hc
      rw [hm] at hc
      rw [mediaLib_cons_some (clipSvcRes_external hm)]
      have hsne : serviceFor u ≠ "" := by
        rcases serviceFor_cases u with hs | hs <;> rw [hs] <;> decide
      by_cases hune : u ≠ ""
      · by_cases hmem : (alook u acc).isNone
        · rw [if_pos ⟨hsne, hune, hmem⟩]
          have hacc2 : LibShape S 0
              (acc ++ [(u, mkProducer acc.length (serviceFor u) u ar c.name)]) :=
            LibShape_append hacc ⟨serviceFor u, ar, c.name, hc, hune, by
              rw [Nat.zero_add]⟩
          obtain ⟨lib, res2, heq, hshape, hmono, hcomp⟩ := ih hrest hacc2
          refine ⟨lib, res2, heq, hshape, ?_, ?_⟩
          · intro w v hv
            exact hmono w v (alook_append_left hv)
          · intro x hx w hw hne
            rcases List.mem_cons.mp hx with rfl | hx
            · rw [clipResKey_external hm] at hw
              cases hw
              refine ⟨mkProducer acc.length (serviceFor u) u ar x.name, hmono u _ ?_⟩
              rw [alook_append_right (Option.isNone_iff_eq_none.mp hmem)]
              show (if u = u then _ else _) = _
              rw [if_pos rfl]
            · exact hcomp x hx w hw hne
        · rw [if_neg (fun hand => hmem hand.2.2)]
          obtain ⟨lib, res2, heq, hshape, hmono, hcomp⟩ := ih hrest hacc
          refine ⟨lib, res2, heq, hshape, hmono, ?_⟩
          intro x hx w hw hne
          rcases List.mem_cons.mp hx with rfl | hx
          · rw [clipResKey_external hm] at hw
            cases hw
            have hsome : (alook u acc).isSome = true := by
              cases hal : alook u acc
              · exact absurd (by rw [hal]; rfl) hmem
              · rfl
            obtain ⟨p, hp⟩ := Option.isSome_iff_exists.mp hsome
            exact ⟨p, hmono u p hp⟩
          · exact hcomp x hx w hw hne
      · rw [if_neg (fun hand => hune hand.2.1)]
        obtain ⟨lib, res2, heq, hshape, hmono, hcomp⟩ := ih hrest hacc
        refine ⟨lib, res2, heq, hshape, hmono, ?_⟩
        intro x hx w hw hne
        rcases List.mem_cons.mp hx with rfl | hx
        · rw [clipResKey_external hm] at hw
          cases hw
          exact absurd (by simpa using hune) hne
        · exact hcomp x hx w hw hne

theorem itemResource_missing (res : Option String) :
    itemResource res .missing = .ok (some "unhandled_type") := rfl

theorem itemResource_external (res : Option String) (u : String) (ar : TimeRange) :
    itemResource res (.external u ar) = .ok (some u) := rfl

theorem itemResource_solid {ps : List (String × String)} {v : String}
    (res : Option String) (ar : TimeRange) (hv : alook "color" ps = some v) :
    itemResource res (.generator "SolidColor" ps ar) = .ok (some v) := by
  show (if "SolidColor" = "SolidColor" then
      exBind (orErr (alook "color" ps) PyErr.keyError) (fun w => Except.ok (some w))
    else Except.ok res) = Except.ok (some v)
  rw [if_pos rfl, hv, orErr_some, exBind_ok]

theorem entryProducerId_missing (lib : List (String × Elem)) (res1 : Option String) :
    entryProducerId lib .missing res1 = .ok "unsupported" := rfl

theorem entryProducerId_found {lib : List (String × Elem)} {m : MediaRef}
    {u : String} {p : Elem} (hmiss : m.is_missing_reference = false)
    (hp : alook u lib = some p) :
    entryProducerId lib m (some u) = .ok ((alook "id" p.attrs).getD "") := by
  unfold entryProducerId
  rw [if_neg (by rw [hmiss]; exact fun h => Bool.noConfusion h)]
  show exBind (orErr (some u) _) _ = _
  rw [orErr_some, exBind_ok, hp]
  rfl

theorem writeItems_clip_eq (lib : List (String × Elem)) (c : Clip)
    (rest : List Item) (res : Option String) :
    writeItems lib (.clip c :: rest) res =
      exBind (itemResource res c.media_reference) fun res1 =>
      exBind (entryProducerId lib c.media_reference res1) fun pid =>
      exBind (writeItems lib rest res1) fun out =>
      .ok (.mk "entry"
        [("producer", pid),
         ("in", intStr c.source_range.start_time.value.pyInt),
         ("out", intStr ((c.source_range.duration.add
           c.source_range.start_time).value.pyInt))] none [] :: out.1, out.2) := rfl

theorem entryPid_external {lib : List (String × Elem)} {c : Clip} {u : String}
    {ar : TimeRange} {p : Elem} (hm : c.media_reference = .external u ar)
    (hp : alook u lib = some p) :
    entryPid lib c = (alook "id" p.attrs).getD "" := by
  unfold entryPid
  rw [hm, clipResKey_external hm]
  rw [if_neg (show ¬((MediaRef.external u ar).is_missing_reference = true) from
    fun h => Bool.noConfusion h)]
  show (match alook u lib with
    | some p => (alook "id" p.attrs).getD ""
    | none => "") = _
  rw [hp]

theorem entryPid_solid {lib : List (String × Elem)} {c : Clip}
    {ps : List (String × String)} {ar : TimeRange} {v : String} {p : Elem}
    (hm : c.media_reference = .generator "SolidColor" ps ar)
    (hv : alook "color" ps = some v) (hp : alook v lib = some p) :
    entryPid lib c = (alook "id" p.attrs).getD "" := by
  unfold entryPid
  rw [hm, clipResKey_solid hm, hv]
  rw [if_neg (show ¬((MediaRef.generator "SolidColor" ps ar).is_missing_reference
      = true) from fun h => Bool.noConfusion h)]
  show (match alook v lib with
    | some p => (alook "id" p.attrs).getD ""
    | none => "") = _
  rw [hp]

theorem entryPid_missing {lib : List (String × Elem)} {c : Clip}
    (hm : c.media_reference = .missing) : entryPid lib c = "unsupported" := by
  unfold entryPid
  rw [hm]
  rfl

theorem writeItems_closed {lib : List (String × Elem)} :
    ∀ {items : List Item} {res : Option String},
    (∀ c, Item.clip c ∈ items → clipWOK lib c) →
    ∃ res2, writeItems lib items res = .ok (itemElemsOf lib items, res2) := by
  intro items
  induction items with
  | nil => intro res _; exact ⟨res, rfl⟩
  | cons i rest ih =>
    intro res h
    have hrest : ∀ c, Item.clip c ∈ rest → clipWOK lib c :=
      fun c hc => h c (List.mem_cons_of_mem _ hc)
    cases i with
    | gap g =>
      obtain ⟨res2, h2⟩ := ih hrest
      refine ⟨res2, ?_⟩
      show exBind (writeItems lib rest res) _ = _
      rw [h2, exBind_ok, itemElemsOf_cons]
      rfl
    | transition tr =>
      obtain ⟨res2, h2⟩ := ih hrest
      refine ⟨res2, ?_⟩
      show writeItems lib rest res = _
      rw [h2, itemElemsOf_cons]
      rfl
    | clip c =>
      have hcw := h c (List.mem_cons_self _ _)
      unfold clipWOK at hcw
      rw [writeItems_clip_eq]
      cases hm : c.media_reference with
      | missing =>
        rw [itemResource_missing, exBind_ok, entryProducerId_missing, exBind_ok]
        obtain ⟨res2, h2⟩ := ih hrest
        refine ⟨res2, ?_⟩
        rw [h2, exBind_ok, itemElemsOf_cons]
        show Except.ok _ = Except.ok ((entryElem lib c :: itemElemsOf lib rest), res2)
        unfold entryElem
        rw [entryPid_missing hm]
      | external u ar =>
        rw [hm] at hcw
        obtain ⟨p, hp⟩ := hcw
        rw [itemResource_external, exBind_ok, entryProducerId_found
          (show (MediaRef.external u ar).is_missing_reference = false from rfl) hp,
          exBind_ok]
        obtain ⟨res2, h2⟩ := ih hrest
        refine ⟨res2, ?_⟩
        rw [h2, exBind_ok, itemElemsOf_cons]
        show Except.ok _ = Except.ok ((entryElem lib c :: itemElemsOf lib rest), res2)
        unfold entryElem
        rw [entryPid_external hm hp]
      | generator kd ps ar =>
        rw [hm] at hcw
        obtain ⟨hk, v, p, hv, hp⟩ := hcw
        subst hk
        rw [itemResource_solid res ar hv, exBind_ok, entryProducerId_found
          (show (MediaRef.generator "SolidColor" ps ar).is_missing_reference = false
            from rfl) hp, exBind_ok]
        obtain ⟨res2, h2⟩ := ih hrest
        refine ⟨res2, ?_⟩
        rw [h2, exBind_ok, itemElemsOf_cons]
        show Except.ok _ = Except.ok ((entryElem lib c :: itemElemsOf lib rest), res2)
        unfold entryElem
        rw [entryPid_solid hm hv hp]

theorem writeTracks_closed {lib : List (String × Elem)} :
    ∀ {trs : List Track} {k : Nat} {res : Option String},
    (∀ tr ∈ trs, ∀ c, Item.clip c ∈ tr.items → clipWOK lib c) →
    writeTracks lib trs k res = .ok (chunksOf lib trs k, refsOf trs k) := by
  intro trs
  induction trs with
  | nil => intro k res _; rfl
  | cons tr rest ih =>
    intro k res h
    obtain ⟨res1, h1⟩ := writeItems_closed (h tr (List.mem_cons_self _ _))
    have h2 := @ih (k + 1) res1 (fun x hx => h x (List.mem_cons_of_mem _ hx))
    show exBind (writeOneTrack lib tr k res) _ = _
    unfold writeOneTrack
    rw [h1, exBind_ok, exBind_ok, h2, exBind_ok]
    rfl

theorem mem_eachClip {t : Timeline} {tr : Track} {c : Clip}
    (htr : tr ∈ t.tracks) (hc : Item.clip c ∈ tr.items) : c ∈ eachClip t := by
  unfold eachClip
  rw [List.mem_flatten]
  refine ⟨tr.clips, List.mem_map.mpr ⟨tr, htr, rfl⟩, ?_⟩
  unfold Track.clips
  rw [List.mem_filterMap]
  exact ⟨.clip c, hc, rfl⟩

theorem writeTimeline_closed {t : Timeline} {lib : List (String × Elem)}
    {resL : Option String}
    (hml : mediaLib (eachClip t) [] none = .ok (lib, resL))
    (h : ∀ tr ∈ t.tracks, ∀ c, Item.clip c ∈ tr.items → clipWOK lib c) :
    writeTimeline t =
      .ok (mltElemOf t lib (chunksOf lib t.tracks 1) (refsOf t.tracks 1)) := by
  unfold writeTimeline
  rw [hml, exBind_ok]
  rw [writeTracks_closed h, exBind_ok]

/- ### Reader-side evaluation helpers -/

theorem rt_add_same (a b r : Q) :
    RationalTime.add ⟨a, r⟩ ⟨b, r⟩ = ⟨a.add b, r⟩ := by
  unfold RationalTime.add
  rw [if_pos (Q.eqb_refl r)]

theorem rt_sub_same (a b r : Q) :
    RationalTime.sub ⟨a, r⟩ ⟨b, r⟩ = ⟨a.sub b, r⟩ := by
  unfold RationalTime.sub
  rw [if_pos (Q.eqb_refl r)]

theorem add_d1 (a b : Int) : Q.add ⟨a, 1⟩ ⟨b, 1⟩ = ⟨a + b, 1⟩ := by
  show (⟨a * 1 + b * 1, 1 * 1⟩ : Q) = ⟨a + b, 1⟩
  simp

theorem eqb_th (z : Int) : (Q.mk (z * 1000) 1000).eqb ⟨z, 1⟩ = true := by
  show (z * 1000 * 1 == z * (1000 : Int)) = true
  rw [beq_iff_eq]
  ring

theorem eqb_dur (a b : Int) :
    ((Q.mk (a * 1000) 1000).sub ⟨b * 1000, 1000⟩).eqb ⟨a - b, 1⟩ = true := by
  show ((a * 1000 * 1000 - b * 1000 * 1000) * 1 == (a - b) * (1000 * 1000)) = true
  rw [beq_iff_eq]
  ring

theorem Q.div_one (q : Q) : q.div ⟨1, 1⟩ = q := by
  obtain ⟨n, d⟩ := q
  show (if (1 : Int) < 0 then (⟨-(n * 1), -(d * 1)⟩ : Q) else ⟨n * 1, d * 1⟩) = ⟨n, d⟩
  rw [if_neg (show ¬((1 : Int) < 0) from by decide)]
  simp

theorem rateNumDen_int (z : Int) : rateNumDen ⟨z, 1⟩ = (z, 1) := by
  unfold rateNumDen
  have h2 : (Q.mk z 1).round2 = ⟨z * 100, 100⟩ := by
    unfold Q.round2
    rw [halfEven_d1]
  have c1 : (Q.mk (z * 100) 100).eqb ⟨2398, 100⟩ = false := by
    show (z * 100 * 100 == (2398 : Int) * 100) = false
    rw [beq_eq_false_iff_ne]
    omega
  have c2 : (Q.mk (z * 100) 100).eqb ⟨2997, 100⟩ = false := by
    show (z * 100 * 100 == (2997 : Int) * 100) = false
    rw [beq_eq_false_iff_ne]
    omega
  have c3 : (Q.mk (z * 100) 100).eqb ⟨5994, 100⟩ = false := by
    show (z * 100 * 100 == (5994 : Int) * 100) = false
    rw [beq_eq_false_iff_ne]
    omega
  rw [h2, c1, c2, c3, if_neg (fun h => Bool.noConfusion h),
    if_neg (fun h => Bool.noConfusion h), if_neg (fun h => Bool.noConfusion h),
    pyInt_d1]

theorem findAttrIn_cons_pos {t a v : String} {c : Elem} {cs : List Elem}
    (h : c.tag = t ∧ c.get a = some v) : findAttrIn t a v (c :: cs) = some c := by
  show (if c.tag = t ∧ c.get a = some v then some c else findAttrIn t a v cs) = some c
  rw [if_pos h]

theorem findAttrIn_cons_neg {t a v : String} {c : Elem} {cs : List Elem}
    (h : ¬(c.tag = t ∧ c.get a = some v)) :
    findAttrIn t a v (c :: cs) = findAttrIn t a v cs := by
  show (if c.tag = t ∧ c.get a = some v then some c else findAttrIn t a v cs) = _
  rw [if_neg h]

theorem findAttrIn_append_none {t a v : String} {l1 l2 : List Elem}
    (h : ∀ e ∈ l1, ¬(e.tag = t ∧ e.get a = some v)) :
    findAttrIn t a v (l1 ++ l2) = findAttrIn t a v l2 := by
  induction l1 with
  | nil => rfl
  | cons c cs ih =>
    show findAttrIn t a v (c :: (cs ++ l2)) = _
    rw [findAttrIn_cons_neg (h c (List.mem_cons_self _ _)),
      ih fun e he => h e (List.mem_cons_of_mem _ he)]

theorem mlt_property_mkProducer_service (j : Nat) (s r : String) (ar : TimeRange)
    (nm : String) : mlt_property (mkProducer j s r ar nm) "mlt_service" = some s := by
  unfold mlt_property
  rw [show (mkProducer j s r ar nm).children =
    property_elem "mlt_service" s :: ([property_elem "resource" r] ++
      (if nm ≠ "" then [property_elem "kdenlive:clipname" nm] else [])) from rfl]
  rw [findAttrIn_cons_pos (show (property_elem "mlt_service" s).tag = "property" ∧
    (property_elem "mlt_service" s).get "name" = some "mlt_service" from ⟨rfl, rfl⟩)]
  rfl

theorem mlt_property_mkProducer_none (j : Nat) (s r : String) (ar : TimeRange)
    (nm target : String) (h1 : target ≠ "mlt_service") (h2 : target ≠ "resource")
    (h3 : target ≠ "kdenlive:clipname") :
    mlt_property (mkProducer j s r ar nm) target = none := by
  unfold mlt_property
  rw [show (mkProducer j s r ar nm).children =
    [property_elem "mlt_service" s, property_elem "resource" r] ++
      (if nm ≠ "" then [property_elem "kdenlive:clipname" nm] else []) from rfl]
  rw [findAttrIn_append_none (by
    intro e he
    rcases List.mem_cons.mp he with rfl | he
    · intro hc
      have : some "mlt_service" = some target := hc.2
      exact h1 (Option.some_inj.mp this).symm
    rcases List.mem_singleton.mp he with rfl
    intro hc
    have : some "resource" = some target := hc.2
    exact h2 (Option.some_inj.mp this).symm)]
  by_cases hnm : nm ≠ ""
  · rw [if_pos hnm]
    rw [show findAttrIn "property" "name" target [property_elem "kdenlive:clipname" nm] =
      findAttrIn "property" "name" target [] from findAttrIn_cons_neg (by
        intro hc
        have : some "kdenlive:clipname" = some target := hc.2
        exact h3 (Option.some_inj.mp this).symm)]
    rfl
  · rw [if_neg hnm]
    rfl

theorem classifyRef_mkProducer {j : Nat} {s r : String} {ar : TimeRange} {nm : String}
    (ar2 : TimeRange) (hs : s = "qimage" ∨ s = "avformat") :
    classifyRef (mkProducer j s r ar nm) ar2 = .external r ar2 := by
  unfold classifyRef
  rw [mlt_property_mkProducer_service]
  rw [if_pos (by
    rcases hs with rfl | rfl
    · right; right; rfl
    · left; rfl)]
  rw [mlt_property_mkProducer_none j s r ar nm "kdenlive:originalurl"
    (by decide) (by decide) (by decide)]
  rfl

theorem timeAttr_mkProducer_in (j : Nat) (s r : String) (ar : TimeRange) (nm : String)
    (rate : Q) : timeAttr (mkProducer j s r ar nm) "in" rate =
      .ok ⟨⟨ar.start_time.value.pyInt * 1000, 1000⟩, rate⟩ := by
  unfold timeAttr
  rw [show (mkProducer j s r ar nm).get "in" =
    some (intStr ar.start_time.value.pyInt) from rfl, orErr_some, exBind_ok,
    time_intStr, orErr_some]

theorem timeAttr_mkProducer_out (j : Nat) (s r : String) (ar : TimeRange) (nm : String)
    (rate : Q) : timeAttr (mkProducer j s r ar nm) "out" rate =
      .ok ⟨⟨(ar.start_time.add ar.duration).value.pyInt * 1000, 1000⟩, rate⟩ := by
  unfold timeAttr
  rw [show (mkProducer j s r ar nm).get "out" =
    some (intStr (ar.start_time.add ar.duration).value.pyInt) from rfl, orErr_some,
    exBind_ok, time_intStr, orErr_some]

theorem readItems_skip {byidF : String → Option Elem} {rate : Q} {e : Elem}
    {rest : List Elem} (h1 : e.tag ≠ "blank") (h2 : e.tag ≠ "entry") :
    readItems byidF rate (e :: rest) = readItems byidF rate rest := by
  show (if e.tag = "blank" then _ else if e.tag = "entry" then _
    else readItems byidF rate rest) = _
  rw [if_neg h1, if_neg h2]

theorem readItems_skips {byidF : String → Option Elem} {rate : Q} {l : List Elem}
    (h : ∀ e ∈ l, e.tag ≠ "blank" ∧ e.tag ≠ "entry") :
    readItems byidF rate l = .ok [] := by
  induction l with
  | nil => rfl
  | cons e rest ih =>
    rw [readItems_skip (h e (List.mem_cons_self _ _)).1 (h e (List.mem_cons_self _ _)).2]
    exact ih fun x hx => h x (List.mem_cons_of_mem _ hx)

theorem iterAllL_childless {l : List Elem} (h : ∀ e ∈ l, e.children = []) :
    iterAllL l = l := by
  induction l with
  | nil => rfl
  | cons e rest ih =>
    show iterAll e ++ iterAllL rest = e :: rest
    obtain ⟨tg, a, x, cs⟩ := e
    have hcs : cs = [] := h _ (List.mem_cons_self _ _)
    subst hcs
    show (Elem.mk tg a x [] :: []) ++ iterAllL rest = _
    rw [ih fun y hy => h y (List.mem_cons_of_mem _ hy)]
    rfl

theorem audioProps_childless (k : TrackKind) : ∀ e ∈ audioPropsOf k, e.children = [] := by
  intro e he
  unfold audioPropsOf at he
  by_cases hk : k = TrackKind.audio
  · rw [if_pos hk] at he
    rcases List.mem_singleton.mp he with rfl
    rfl
  · rw [if_neg hk] at he
    cases he

theorem audioProps_tags (k : TrackKind) : ∀ e ∈ audioPropsOf k, e.tag = "property" := by
  intro e he
  unfold audioPropsOf at he
  by_cases hk : k = TrackKind.audio
  · rw [if_pos hk] at he
    rcases List.mem_singleton.mp he with rfl
    rfl
  · rw [if_neg hk] at he
    cases he

theorem itemElems_childless (lib : List (String × Elem)) (items : List Item) :
    ∀ e ∈ itemElemsOf lib items, e.children = [] := by
  intro e he
  unfold itemElemsOf at he
  rw [List.mem_flatten] at he
  obtain ⟨l, hl, hel⟩ := he
  rw [List.mem_map] at hl
  obtain ⟨i, _, hli⟩ := hl
  subst hli
  cases i with
  | gap g => rcases List.mem_singleton.mp hel with rfl; rfl
  | clip c => rcases List.mem_singleton.mp hel with rfl; rfl
  | transition _ => cases hel

theorem iterAll_pl1 (tr : Track) (k : Nat) (lib : List (String × Elem)) :
    iterAll (pl1Of tr k (itemElemsOf lib tr.items)) =
      pl1Of tr k (itemElemsOf lib tr.items) ::
        (audioPropsOf tr.kind ++ itemElemsOf lib tr.items) := by
  show pl1Of tr k (itemElemsOf lib tr.items) ::
    iterAllL (audioPropsOf tr.kind ++ itemElemsOf lib tr.items) = _
  rw [iterAllL_childless (by
    intro e he
    rcases List.mem_append.mp he with he | he
    · exact audioProps_childless tr.kind e he
    · exact itemElems_childless lib tr.items e he)]

theorem iterAll_pl2 (tr : Track) (k : Nat) :
    iterAll (pl2Of tr k) = pl2Of tr k :: audioPropsOf tr.kind := by
  show pl2Of tr k :: iterAllL (audioPropsOf tr.kind) = _
  rw [iterAllL_childless (audioProps_childless tr.kind)]

theorem findall_sub_track (tr : Track) (k : Nat) :
    (subtractorOf tr k).findall "track" =
      [.mk "track" [("producer", playlistId k 1), ("hide", hideVal tr.kind)] none [],
       .mk "track" [("producer", playlistId k 2), ("hide", hideVal tr.kind)] none []] := by
  obtain ⟨nm, kd, its⟩ := tr
  cases kd <;> rfl

theorem trackKindOf_sub (tr : Track) (k : Nat) :
    trackKindOf (subtractorOf tr k) = tr.kind := by
  obtain ⟨nm, kd, its⟩ := tr
  cases kd <;> rfl

/- ### The item-level round trip -/

theorem eqb_dur2 (a b : Int) :
    ((Q.mk ((a + b) * 1000) 1000).sub ⟨b * 1000, 1000⟩).eqb ⟨a, 1⟩ = true := by
  show (((a + b) * 1000 * 1000 - b * 1000 * 1000) * 1 == a * (1000 * 1000)) = true
  rw [beq_iff_eq]
  ring

theorem readItems_blank_cons (byidF : String → Option Elem) (rate : Q) (g : Gap)
    (rest : List Elem) :
    readItems byidF rate (gapElem g :: rest) =
      exBind (orErr (some (intStr g.duration.value.pyInt)) .attributeError) fun s =>
      exBind (orErr (time s rate) .valueError) fun t =>
      exBind (readItems byidF rate rest) fun its =>
      .ok (.gap ⟨t⟩ :: its) := rfl

theorem readItems_entry_cons (byidF : String → Option Elem) (rate : Q)
    (lib : List (String × Elem)) (c : Clip) (rest : List Elem) :
    readItems byidF rate (entryElem lib c :: rest) =
      exBind (orErr (some (entryPid lib c)) .keyError) fun pid =>
      exBind (orErr (byidF pid) .keyError) fun producer =>
      exBind (timeAttr producer "in" rate) fun pin =>
      exBind (timeAttr producer "out" rate) fun pout =>
      exBind (timeAttr (entryElem lib c) "in" rate) fun sin =>
      exBind (timeAttr (entryElem lib c) "out" rate) fun sout =>
      exBind (readEffects rate ((entryElem lib c).findall "filter")) fun effs =>
      exBind (readItems byidF rate rest) fun its =>
      .ok (.clip ⟨(mlt_property producer "kdenlive:clipname").getD "",
        ⟨sin, sout.sub sin⟩, classifyRef producer ⟨pin, pout.sub pin⟩, effs⟩ :: its) := rfl

theorem timeAttr_entry_in (lib : List (String × Elem)) (c : Clip) (rate : Q) :
    timeAttr (entryElem lib c) "in" rate =
      .ok ⟨⟨c.source_range.start_time.value.pyInt * 1000, 1000⟩, rate⟩ := by
  unfold timeAttr
  rw [show (entryElem lib c).get "in" =
    some (intStr c.source_range.start_time.value.pyInt) from rfl, orErr_some,
    exBind_ok, time_intStr, orErr_some]

theorem timeAttr_entry_out (lib : List (String × Elem)) (c : Clip) (rate : Q) :
    timeAttr (entryElem lib c) "out" rate =
      .ok ⟨⟨(c.source_range.duration.add c.source_range.start_time).value.pyInt * 1000,
        1000⟩, rate⟩ := by
  unfold timeAttr
  rw [show (entryElem lib c).get "out" =
    some (intStr (c.source_range.duration.add c.source_range.start_time).value.pyInt)
    from rfl, orErr_some, exBind_ok, time_intStr, orErr_some]

theorem clipRangesOf_cons_clip (c : Clip) (l : List Item) :
    clipRangesOf (.clip c :: l) = c.source_range :: clipRangesOf l := rfl

theorem listEqByB_cons (f : α → α → Bool) (a : α) (as : List α) (b : α) (bs : List α) :
    listEqByB f (a :: as) (b :: bs) = (f a b && listEqByB f as bs) := rfl

theorem itemWFB_clip_parts {r : Q} {c : Clip} (h : itemWFB r (.clip c) = true) :
    (match c.media_reference with
      | MediaRef.external u _ => u ≠ ""
      | _ => False) ∧
    c.source_range.start_time.rate = r ∧ c.source_range.start_time.value.d = 1 ∧
    c.source_range.duration.rate = r ∧ c.source_range.duration.value.d = 1 := by
  unfold itemWFB at h
  rw [Bool.and_eq_true, Bool.and_eq_true, Bool.and_eq_true, Bool.and_eq_true,
    Bool.and_eq_true] at h
  obtain ⟨⟨⟨⟨⟨h1, _⟩, h3⟩, h4⟩, h5⟩, h6⟩ := h
  refine ⟨?_, eq_of_beq h3, eq_of_beq h4, eq_of_beq h5, eq_of_beq h6⟩
  cases hm : c.media_reference with
  | external u ar =>
    rw [hm] at h1
    exact of_decide_eq_true h1
  | generator kd ps ar =>
    rw [hm] at h1
    cases h1
  | missing =>
    rw [hm] at h1
    cases h1

theorem readItems_correspond {byidF : String → Option Elem} {rr : Q}
    {lib : List (String × Elem)} :
    ∀ {items : List Item},
    (∀ i ∈ items, itemWFB rr i = true) →
    (∀ c, Item.clip c ∈ items → ClipResolves byidF lib c) →
    ∃ its2, readItems byidF rr (itemElemsOf lib items) = .ok its2 ∧
      itemShapes its2 = itemShapes items ∧
      listEqByB trEqB (clipRangesOf its2) (clipRangesOf items) = true := by
  intro items
  induction items with
  | nil => exact fun _ _ => ⟨[], rfl, rfl, rfl⟩
  | cons i rest ih =>
    intro hwf hcr
    obtain ⟨its2, hread, hshape, hranges⟩ :=
      ih (fun x hx => hwf x (List.mem_cons_of_mem _ hx))
        (fun c hc => hcr c (List.mem_cons_of_mem _ hc))
    cases i with
    | transition tr =>
      have := hwf _ (List.mem_cons_self _ _)
      exact absurd this (by intro hc; cases hc)
    | gap g =>
      rw [itemElemsOf_cons]
      refine ⟨.gap ⟨⟨⟨g.duration.value.pyInt * 1000, 1000⟩, rr⟩⟩ :: its2, ?_, ?_, ?_⟩
      · rw [show itemElemOf lib (.gap g) ++ itemElemsOf lib rest =
          gapElem g :: itemElemsOf lib rest from rfl]
        rw [readItems_blank_cons, orErr_some, exBind_ok, time_intStr, orErr_some,
          exBind_ok, hread, exBind_ok]
      · show ShapeK.gapS :: itemShapes its2 = ShapeK.gapS :: itemShapes rest
        rw [hshape]
      · show listEqByB trEqB (clipRangesOf its2) (clipRangesOf rest) = true
        exact hranges
    | clip c =>
      obtain ⟨hext, hsrt, hsvd, hdrt, hdvd⟩ :=
        itemWFB_clip_parts (hwf _ (List.mem_cons_self _ _))
      obtain ⟨u, ar, j, sv, par, nm, hm, halook, hs, hbyid⟩ :=
        hcr c (List.mem_cons_self _ _)
      obtain ⟨cnm, ⟨⟨⟨svn, svd⟩, srt⟩, ⟨⟨dvn, dvd⟩, drt⟩⟩, cm, cef⟩ := c
      subst hm
      have hsvd2 : svd = 1 := hsvd
      have hdvd2 : dvd = 1 := hdvd
      subst hsvd2
      subst hdvd2
      have hsrt2 : rr = srt := Eq.symm hsrt
      subst hsrt2
      have hdrt2 : rr = drt := Eq.symm hdrt
      subst hdrt2
      rw [itemElemsOf_cons]
      rw [show itemElemOf lib (.clip ⟨cnm, ⟨⟨⟨svn, 1⟩, rr⟩, ⟨⟨dvn, 1⟩, rr⟩⟩,
        .external u ar, cef⟩) ++ itemElemsOf lib rest =
        entryElem lib ⟨cnm, ⟨⟨⟨svn, 1⟩, rr⟩, ⟨⟨dvn, 1⟩, rr⟩⟩, .external u ar, cef⟩ ::
          itemElemsOf lib rest from rfl]
      rw [readItems_entry_cons, orErr_some, exBind_ok]
      rw [entryPid_external rfl halook]
      rw [show (alook "id" (mkProducer j sv u par nm).attrs).getD "" = producerId j
        from rfl]
      rw [hbyid, orErr_some, exBind_ok]
      rw [timeAttr_mkProducer_in, exBind_ok, timeAttr_mkProducer_out, exBind_ok]
      rw [timeAttr_entry_in, exBind_ok, timeAttr_entry_out, exBind_ok]
      rw [show readEffects rr ((entryElem lib ⟨cnm, ⟨⟨⟨svn, 1⟩, rr⟩, ⟨⟨dvn, 1⟩, rr⟩⟩,
        .external u ar, cef⟩).findall "filter") = .ok [] from rfl, exBind_ok]
      rw [hread, exBind_ok]
      refine ⟨_, rfl, ?_, ?_⟩
      · show ShapeK.clipS :: itemShapes its2 = ShapeK.clipS :: itemShapes rest
        rw [hshape]
      · rw [clipRangesOf_cons_clip, clipRangesOf_cons_clip, listEqByB_cons,
          Bool.and_eq_true]
        refine ⟨?_, hranges⟩
        dsimp only
        rw [rt_add_same, add_d1]
        dsimp only
        rw [pyInt_d1, pyInt_d1, rt_sub_same]
        show ((Q.eqb ⟨svn * 1000, 1000⟩ ⟨svn, 1⟩ && Q.eqb rr rr) &&
          (Q.eqb ((Q.mk ((dvn + svn) * 1000) 1000).sub ⟨svn * 1000, 1000⟩) ⟨dvn, 1⟩ &&
            Q.eqb rr rr)) = true
        rw [eqb_th, eqb_dur2, Q.eqb_refl]
        rfl

/- ### The track-level round trip -/

theorem Q.eqb_symm (a b : Q) : a.eqb b = b.eqb a := by
  unfold Q.eqb
  by_cases h : a.n * b.d = b.n * a.d
  · rw [h]
  · rw [beq_eq_false_iff_ne.mpr h, beq_eq_false_iff_ne.mpr (Ne.symm h)]

theorem rtPairEqB_symm (a b : RationalTime) : rtPairEqB a b = rtPairEqB b a := by
  unfold rtPairEqB
  rw [Q.eqb_symm a.value b.value, Q.eqb_symm a.rate b.rate]

theorem trEqB_symm (a b : TimeRange) : trEqB a b = trEqB b a := by
  unfold trEqB
  rw [rtPairEqB_symm a.start_time b.start_time, rtPairEqB_symm a.duration b.duration]

theorem listEqByB_symm {f : α → α → Bool} (hf : ∀ a b, f a b = f b a) :
    ∀ (as bs : List α), listEqByB f as bs = listEqByB f bs as := by
  intro as
  induction as with
  | nil =>
    intro bs
    cases bs with
    | nil => rfl
    | cons b bs => rfl
  | cons a as2 ih =>
    intro bs
    cases bs with
    | nil => rfl
    | cons b bs2 =>
      rw [listEqByB_cons, listEqByB_cons, hf a b, ih bs2]

theorem readSubtracks_cons (byidF : String → Option Elem) (rate : Q) (st : Elem)
    (rest : List Elem) :
    readSubtracks byidF rate (st :: rest) =
      exBind (orErr (st.get "producer") .keyError) fun pid =>
      exBind (orErr (byidF pid) .keyError) fun playlist =>
      exBind (readItems byidF rate (iterAll playlist)) fun items1 =>
      exBind (readSubtracks byidF rate rest) fun items2 =>
      .ok (items1 ++ items2) := rfl

theorem readItems_skip_append {byidF : String → Option Elem} {rate : Q}
    {l1 l2 : List Elem} (h : ∀ e ∈ l1, e.tag ≠ "blank" ∧ e.tag ≠ "entry") :
    readItems byidF rate (l1 ++ l2) = readItems byidF rate l2 := by
  induction l1 with
  | nil => rfl
  | cons e rest ih =>
    show readItems byidF rate (e :: (rest ++ l2)) = _
    rw [readItems_skip (h e (List.mem_cons_self _ _)).1 (h e (List.mem_cons_self _ _)).2,
      ih fun x hx => h x (List.mem_cons_of_mem _ hx)]

theorem readSubtracks_track {byidF : String → Option Elem} {rr : Q}
    {lib : List (String × Elem)} {tr : Track} {k : Nat}
    (hwf : ∀ i ∈ tr.items, itemWFB rr i = true)
    (hcr : ∀ c, Item.clip c ∈ tr.items → ClipResolves byidF lib c)
    (hpl1 : byidF (playlistId k 1) = some (pl1Of tr k (itemElemsOf lib tr.items)))
    (hpl2 : byidF (playlistId k 2) = some (pl2Of tr k)) :
    ∃ its2, readSubtracks byidF rr ((subtractorOf tr k).findall "track") = .ok its2 ∧
      itemShapes its2 = itemShapes tr.items ∧
      listEqByB trEqB (clipRangesOf its2) (clipRangesOf tr.items) = true := by
  rw [findall_sub_track]
  obtain ⟨its2, hread, hshape, hranges⟩ := readItems_correspond hwf hcr
  refine ⟨its2, ?_, hshape, hranges⟩
  rw [readSubtracks_cons]
  rw [show (Elem.mk "track" [("producer", playlistId k 1), ("hide", hideVal tr.kind)]
    none []).get "producer" = some (playlistId k 1) from rfl, orErr_some, exBind_ok,
    hpl1, orErr_some, exBind_ok, iterAll_pl1]
  rw [readItems_skip
    (show (pl1Of tr k (itemElemsOf lib tr.items)).tag ≠ "blank" from
      fun h => absurd (show "playlist" = "blank" from h) (by decide))
    (show (pl1Of tr k (itemElemsOf lib tr.items)).tag ≠ "entry" from
      fun h => absurd (show "playlist" = "entry" from h) (by decide))]
  rw [readItems_skip_append (by
    intro e he
    have ht := audioProps_tags tr.kind e he
    rw [ht]
    exact ⟨by decide, by decide⟩)]
  rw [hread, exBind_ok, readSubtracks_cons]
  rw [show (Elem.mk "track" [("producer", playlistId k 2), ("hide", hideVal tr.kind)]
    none []).get "producer" = some (playlistId k 2) from rfl, orErr_some, exBind_ok,
    hpl2, orErr_some, exBind_ok, iterAll_pl2]
  rw [readItems_skip
    (show (pl2Of tr k).tag ≠ "blank" from
      fun h => absurd (show "playlist" = "blank" from h) (by decide))
    (show (pl2Of tr k).tag ≠ "entry" from
      fun h => absurd (show "playlist" = "entry" from h) (by decide))]
  rw [readItems_skips (by
    intro e he
    have ht := audioProps_tags tr.kind e he
    rw [ht]
    exact ⟨by decide, by decide⟩), exBind_ok]
  show Except.ok (its2 ++ ([] ++ [])) = Except.ok its2
  rw [List.nil_append, List.append_nil]

theorem readTracks_black {byidF : String → Option Elem} {rate : Q} {mtk : Elem}
    {rest2 : List Elem} (h : mtk.get "producer" = some "black_track") :
    readTracks byidF rate (mtk :: rest2) = readTracks byidF rate rest2 := by
  show (if mtk.get "producer" = some "black_track" then readTracks byidF rate rest2
    else exBind (orErr (mtk.get "producer") PyErr.keyError) fun pid =>
      exBind (orErr (byidF pid) PyErr.keyError) fun subtractor =>
      exBind (readSubtracks byidF rate (subtractor.findall "track")) fun items =>
      exBind (readTracks byidF rate rest2) fun ts =>
      .ok (⟨(mlt_property subtractor "kdenlive:track_name").getD "",
        trackKindOf subtractor, items⟩ :: ts)) = _
  rw [if_pos h]

theorem readTracks_nonblack {byidF : String → Option Elem} {rate : Q} {mtk : Elem}
    {rest2 : List Elem} (h : ¬(mtk.get "producer" = some "black_track")) :
    readTracks byidF rate (mtk :: rest2) =
      exBind (orErr (mtk.get "producer") .keyError) fun pid =>
      exBind (orErr (byidF pid) .keyError) fun subtractor =>
      exBind (readSubtracks byidF rate (subtractor.findall "track")) fun items =>
      exBind (readTracks byidF rate rest2) fun ts =>
      .ok (⟨(mlt_property subtractor "kdenlive:track_name").getD "",
        trackKindOf subtractor, items⟩ :: ts) := by
  show (if mtk.get "producer" = some "black_track" then readTracks byidF rate rest2
    else exBind (orErr (mtk.get "producer") PyErr.keyError) fun pid =>
      exBind (orErr (byidF pid) PyErr.keyError) fun subtractor =>
      exBind (readSubtracks byidF rate (subtractor.findall "track")) fun items =>
      exBind (readTracks byidF rate rest2) fun ts =>
      .ok (⟨(mlt_property subtractor "kdenlive:track_name").getD "",
        trackKindOf subtractor, items⟩ :: ts)) = _
  rw [if_neg h]

theorem readTracks_correspond {byidF : String → Option Elem} {rr : Q}
    {lib : List (String × Elem)} :
    ∀ {trs : List Track} {k : Nat},
    (∀ tr ∈ trs, ∀ i ∈ tr.items, itemWFB rr i = true) →
    (∀ tr ∈ trs, ∀ c, Item.clip c ∈ tr.items → ClipResolves byidF lib c) →
    (∀ (i : Nat) (hi : i < trs.length),
      byidF (tractorId (k + i)) = some (subtractorOf (trs.get ⟨i, hi⟩) (k + i)) ∧
      byidF (playlistId (k + i) 1) = some (pl1Of (trs.get ⟨i, hi⟩) (k + i)
        (itemElemsOf lib (trs.get ⟨i, hi⟩).items)) ∧
      byidF (playlistId (k + i) 2) = some (pl2Of (trs.get ⟨i, hi⟩) (k + i))) →
    ∃ ts2, readTracks byidF rr (refsOf trs k) = .ok ts2 ∧
      listEqByB trackMatchB trs ts2 = true := by
  intro trs
  induction trs with
  | nil => exact fun _ _ _ => ⟨[], rfl, rfl⟩
  | cons tr rest ih =>
    intro k hwf hcr hres
    obtain ⟨hsub0, hpl10, hpl20⟩ := hres 0 (by simp)
    rw [Nat.add_zero] at hsub0 hpl10 hpl20
    have hget0 : (tr :: rest).get ⟨0, by simp⟩ = tr := rfl
    rw [hget0] at hsub0 hpl10 hpl20
    obtain ⟨its2, hsubr, hshape, hranges⟩ :=
      readSubtracks_track (hwf tr (List.mem_cons_self _ _))
        (hcr tr (List.mem_cons_self _ _)) hpl10 hpl20
    obtain ⟨ts2, hrest, hmatch⟩ :=
      @ih (k + 1) (fun x hx => hwf x (List.mem_cons_of_mem _ hx))
        (fun x hx => hcr x (List.mem_cons_of_mem _ hx))
        (fun i hi => by
          have h := hres (i + 1) (Nat.succ_lt_succ hi)
          rw [show k + (i + 1) = k + 1 + i from by omega] at h
          exact h)
    refine ⟨⟨(mlt_property (subtractorOf tr k) "kdenlive:track_name").getD "",
      trackKindOf (subtractorOf tr k), its2⟩ :: ts2, ?_, ?_⟩
    · show readTracks byidF rr (trackRefElem k :: refsOf rest (k + 1)) = _
      rw [readTracks_nonblack (by
        intro hc
        have : (trackRefElem k).get "producer" = some (tractorId k) := rfl
        rw [this] at hc
        exact tractorId_ne_black k (Option.some_inj.mp hc))]
      rw [show (trackRefElem k).get "producer" = some (tractorId k) from rfl,
        orErr_some, exBind_ok, hsub0, orErr_some, exBind_ok, hsubr, exBind_ok,
        hrest, exBind_ok]
    · rw [listEqByB_cons, Bool.and_eq_true]
      refine ⟨?_, hmatch⟩
      unfold trackMatchB
      rw [Bool.and_eq_true, Bool.and_eq_true]
      refine ⟨⟨?_, ?_⟩, ?_⟩
      · show (tr.kind == trackKindOf (subtractorOf tr k)) = true
        rw [trackKindOf_sub]
        exact beq_self_eq_true tr.kind
      · show (itemShapes tr.items == itemShapes its2) = true
        rw [hshape]
        exact beq_self_eq_true _
      · show listEqByB trEqB (clipRangesOf tr.items) (clipRangesOf its2) = true
        rw [listEqByB_symm trEqB_symm]
        exact hranges

/- ### The document-level round trip -/

theorem find_profile (t : Timeline) (lib : List (String × Elem))
    (chunks refs : List Elem) :
    (mltElemOf t lib chunks refs).find "profile" =
      some (profileElem (timelineRate t)) := rfl

theorem libmap_tags {S : List String} : ∀ {lib : List (String × Elem)} {j : Nat},
    LibShape S j lib → ∀ e ∈ lib.map Prod.snd, e.tag = "producer" := by
  intro lib
  induction lib with
  | nil => intro j _ e he; cases he
  | cons p rest ih =>
    intro j h e he
    obtain ⟨r, e0⟩ := p
    obtain ⟨⟨sv, ar, nm, _, _, he0⟩, hrest⟩ := h
    rcases List.mem_cons.mp he with rfl | he
    · rw [he0]
      unfold mkProducer
      by_cases hnm : nm ≠ ""
      · rw [if_pos hnm]
        rfl
      · rw [if_neg hnm]
        rfl
    · exact ih hrest e he

theorem chunks_no_feed {lib : List (String × Elem)} :
    ∀ {trs : List Track} {k : Nat}, ∀ e ∈ chunksOf lib trs k,
      ¬(e.tag = "tractor" ∧ e.get "global_feed" = some "1") := by
  intro trs
  induction trs with
  | nil => intro k e he; cases he
  | cons tr rest ih =>
    intro k e he
    rcases List.mem_cons.mp he with rfl | he
    · exact fun hc => absurd (show "playlist" = "tractor" from hc.1) (by decide)
    rcases List.mem_cons.mp he with rfl | he
    · exact fun hc => absurd (show "playlist" = "tractor" from hc.1) (by decide)
    rcases List.mem_cons.mp he with rfl | he
    · exact fun hc => Option.noConfusion
        (show (none : Option String) = some "1" from hc.2)
    · exact ih e he

theorem refsOf_tags : ∀ (trs : List Track) (k : Nat), ∀ e ∈ refsOf trs k,
    e.tag = "track" := by
  intro trs
  induction trs with
  | nil => intro k e he; cases he
  | cons tr rest ih =>
    intro k e he
    rcases List.mem_cons.mp he with rfl | he
    · rfl
    · exact ih (k + 1) e he

theorem filter_tag_cons_pos {l : List Elem} {t : String} {e : Elem} (h : e.tag = t) :
    List.filter (fun c => c.tag = t) (e :: l) =
      e :: List.filter (fun c => c.tag = t) l := by
  rw [List.filter_cons, if_pos (decide_eq_true h)]

theorem filter_tag_cons_neg {l : List Elem} {t : String} {e : Elem} (h : e.tag ≠ t) :
    List.filter (fun c => c.tag = t) (e :: l) =
      List.filter (fun c => c.tag = t) l := by
  rw [List.filter_cons, if_neg (by
    rw [decide_eq_true_eq]
    exact h)]

theorem filter_tag_self {l : List Elem} {t : String} (h : ∀ e ∈ l, e.tag = t) :
    l.filter (fun c => c.tag = t) = l := by
  induction l with
  | nil => rfl
  | cons e rest ih =>
    rw [filter_tag_cons_pos (h e (List.mem_cons_self _ _))]
    rw [ih fun x hx => h x (List.mem_cons_of_mem _ hx)]

theorem filter_tag_nil {l : List Elem} {t : String} (h : ∀ e ∈ l, e.tag ≠ t) :
    l.filter (fun c => c.tag = t) = [] := by
  induction l with
  | nil => rfl
  | cons e rest ih =>
    rw [filter_tag_cons_neg (h e (List.mem_cons_self _ _))]
    exact ih fun x hx => h x (List.mem_cons_of_mem _ hx)

theorem findall_mt_track (trs : List Track) (k : Nat) :
    (maintractorOf (refsOf trs k)).findall "track" =
      Elem.mk "track" [("producer", "black_track")] none [] :: refsOf trs k := by
  unfold maintractorOf Elem.findall
  show List.filter (fun c => c.tag = "track")
    (Elem.mk "track" [("producer", "black_track")] none [] :: refsOf trs k) = _
  rw [filter_tag_cons_pos (show (Elem.mk "track" [("producer", "black_track")]
    none []).tag = "track" from rfl)]
  rw [filter_tag_self (refsOf_tags trs k)]

theorem findall_mt_transition (trs : List Track) (k : Nat) :
    (maintractorOf (refsOf trs k)).findall "transition" = [] := by
  unfold maintractorOf Elem.findall
  show List.filter (fun c => c.tag = "transition")
    (Elem.mk "track" [("producer", "black_track")] none [] :: refsOf trs k) = _
  rw [filter_tag_cons_neg (show (Elem.mk "track" [("producer", "black_track")]
    none []).tag ≠ "transition" from fun h => absurd h (by decide))]
  exact filter_tag_nil fun e he => by
    rw [refsOf_tags trs k e he]
    decide

theorem find_mt {S : List String} {t : Timeline} {lib : List (String × Elem)}
    {trs : List Track} (hlib : LibShape S 0 lib) :
    (mltElemOf t lib (chunksOf lib trs 1) (refsOf trs 1)).findWithAttr
      "tractor" "global_feed" "1" = some (maintractorOf (refsOf trs 1)) := by
  show findAttrIn "tractor" "global_feed" "1"
    (profileElem (timelineRate t) :: (lib.map Prod.snd ++
      [unsupportedProducer, mainBin lib.length, blackProducer] ++
      chunksOf lib trs 1 ++ [maintractorOf (refsOf trs 1)])) = _
  rw [findAttrIn_cons_neg (show ¬((profileElem (timelineRate t)).tag = "tractor" ∧
    (profileElem (timelineRate t)).get "global_feed" = some "1") from fun hc =>
      absurd (show "profile" = "tractor" from hc.1) (by decide))]
  rw [findAttrIn_append_none (by
    intro e he
    rcases List.mem_append.mp he with he | he
    · rcases List.mem_append.mp he with he | he
      · intro hc
        exact absurd ((libmap_tags hlib e he).symm.trans hc.1) (by decide)
      · simp only [List.mem_cons, List.not_mem_nil, or_false] at he
        rcases he with rfl | rfl | rfl
        · exact fun hc => absurd (show "producer" = "tractor" from hc.1) (by decide)
        · exact fun hc => absurd (show "playlist" = "tractor" from hc.1) (by decide)
        · exact fun hc => absurd (show "producer" = "tractor" from hc.1) (by decide)
    · exact chunks_no_feed e he)]
  rw [findAttrIn_cons_pos (show (maintractorOf (refsOf trs 1)).tag = "tractor" ∧
    (maintractorOf (refsOf trs 1)).get "global_feed" = some "1" from ⟨rfl, rfl⟩)]

theorem eachClip_mem {t : Timeline} {c : Clip} (h : c ∈ eachClip t) :
    ∃ tr ∈ t.tracks, Item.clip c ∈ tr.items := by
  unfold eachClip at h
  rw [List.mem_flatten] at h
  obtain ⟨l, hl, hcl⟩ := h
  rw [List.mem_map] at hl
  obtain ⟨tr, htr, hltr⟩ := hl
  subst hltr
  refine ⟨tr, htr, ?_⟩
  unfold Track.clips at hcl
  rw [List.mem_filterMap] at hcl
  obtain ⟨i, hi, hic⟩ := hcl
  cases i with
  | gap g => cases hic
  | transition tr2 => cases hic
  | clip c2 =>
    rw [Option.some_inj.mp hic] at hi
    exact hi

/-- Claim C1 (corrected): the round trip reproduces track count, kinds, item
shapes and per-clip source ranges for timelines of gaps and nonempty External
clips without effects or transitions, at an integer project rate with
integer-valued clip boundaries — the integrality being the correction the
counterexample forces (the writer truncates `in`/`out` with `int(...)`). -/
theorem C1_roundtrip (t : Timeline) (rn : Int) (h : C1WF t ⟨rn, 1⟩ = true) :
    roundTripMatches t = true := by
  unfold C1WF at h
  rw [Bool.and_eq_true, Bool.and_eq_true] at h
  obtain ⟨⟨_, hrate⟩, hall0⟩ := h
  have htl : timelineRate t = ⟨rn, 1⟩ := eq_of_beq hrate
  have hall : ∀ tr ∈ t.tracks, ∀ i ∈ tr.items, itemWFB ⟨rn, 1⟩ i = true := by
    intro tr htr i hi
    exact List.all_eq_true.mp (List.all_eq_true.mp hall0 tr htr) i hi
  have hml_ok : ∀ c ∈ eachClip t, mlClipOK ["qimage", "avformat"] c := by
    intro c hc
    obtain ⟨tr, htr, hitem⟩ := eachClip_mem hc
    obtain ⟨hext, _⟩ := itemWFB_clip_parts (hall tr htr _ hitem)
    unfold mlClipOK
    cases hm : c.media_reference with
    | external u ar =>
      show serviceFor u ∈ ["qimage", "avformat"]
      rcases serviceFor_cases u with hs | hs <;> rw [hs] <;> simp
    | generator kd ps ar =>
      rw [hm] at hext
      exact hext.elim
    | missing =>
      rw [hm] at hext
      exact hext.elim
  obtain ⟨lib, resL, hml, hshape, _, hcomp⟩ :=
    mediaLib_closed hml_ok (show LibShape ["qimage", "avformat"] 0 [] from trivial)
  have hwok : ∀ tr ∈ t.tracks, ∀ c, Item.clip c ∈ tr.items → clipWOK lib c := by
    intro tr htr c hc
    obtain ⟨hext, _⟩ := itemWFB_clip_parts (hall tr htr _ hc)
    unfold clipWOK
    cases hm : c.media_reference with
    | external u ar =>
      rw [hm] at hext
      exact hcomp c (mem_eachClip htr hc) u (clipResKey_external hm) hext
    | generator kd ps ar =>
      rw [hm] at hext
      exact hext.elim
    | missing =>
      rw [hm] at hext
      exact hext.elim
  have hwt := writeTimeline_closed hml hwok
  have hcr : ∀ tr ∈ t.tracks, ∀ c, Item.clip c ∈ tr.items →
      ClipResolves (byid (mltElemOf t lib (chunksOf lib t.tracks 1)
        (refsOf t.tracks 1))) lib c := by
    intro tr htr c hc
    obtain ⟨hext, _⟩ := itemWFB_clip_parts (hall tr htr _ hc)
    cases hm : c.media_reference with
    | external u ar =>
      rw [hm] at hext
      have hune : u ≠ "" := hext
      obtain ⟨p, hp⟩ := hcomp c (mem_eachClip htr hc) u (clipResKey_external hm) hune
      obtain ⟨n, hget⟩ := List.get_of_mem (alook_mem hp)
      obtain ⟨sv, par, nm, hsS, _, hpe⟩ := LibShape_get hshape n.1 n.2
      rw [show lib.get ⟨n.1, n.2⟩ = (u, p) from hget] at hpe
      have hpe2 : p = mkProducer (0 + n.1) sv u par nm := hpe
      rw [Nat.zero_add] at hpe2
      have hbyid := @byid_M_producer _ t lib t.tracks hshape n.1 n.2
      rw [show lib.get ⟨n.1, n.2⟩ = (u, p) from hget] at hbyid
      have hbyid2 : byid (mltElemOf t lib (chunksOf lib t.tracks 1)
          (refsOf t.tracks 1)) (producerId n.1) = some p := hbyid
      refine ⟨u, ar, n.1, sv, par, nm, hm, ?_, ?_, ?_⟩
      · rw [hp, hpe2]
      · simpa using hsS
      · rw [hbyid2, hpe2]
    | generator kd ps ar =>
      rw [hm] at hext
      exact hext.elim
    | missing =>
      rw [hm] at hext
      exact hext.elim
  obtain ⟨ts2, hts, hmatch⟩ := readTracks_correspond hall hcr (fun i hi =>
    ⟨@byid_M_sub _ t lib t.tracks hshape i hi,
     @byid_M_pl1 _ t lib t.tracks hshape i hi,
     @byid_M_pl2 _ t lib t.tracks hshape i hi⟩)
  have hread : read_from_string (mltElemOf t lib (chunksOf lib t.tracks 1)
      (refsOf t.tracks 1)) =
      .ok ⟨((mltElemOf t lib (chunksOf lib t.tracks 1)
        (refsOf t.tracks 1)).get "name").getD "Kdenlive imported timeline", ts2⟩ := by
    unfold read_from_string
    rw [find_profile, htl, orErr_some, exBind_ok]
    rw [show (profileElem (⟨rn, 1⟩ : Q)).get "frame_rate_num" =
        some (intStr (rateNumDen ⟨rn, 1⟩).1) from rfl,
      show (profileElem (⟨rn, 1⟩ : Q)).get "frame_rate_den" =
        some (intStr (rateNumDen ⟨rn, 1⟩).2) from rfl,
      rateNumDen_int]
    dsimp only
    simp only [orErr_some, exBind_ok]
    rw [parseFloat_intStr]
    simp only [orErr_some, exBind_ok]
    rw [Option.getD_some, parseFloat_intStr]
    simp only [orErr_some, exBind_ok]
    rw [if_neg (show ¬((Q.mk 1 1).eqb ⟨0, 1⟩ = true) from by decide)]
    rw [find_mt hshape]
    simp only [orErr_some, exBind_ok]
    rw [Q.div_one, findall_mt_track]
    rw [readTracks_black (show (Elem.mk "track" [("producer", "black_track")]
      none []).get "producer" = some "black_track" from rfl)]
    rw [hts]
    simp only [exBind_ok]
    rw [findall_mt_transition]
    rw [show readTransitions (⟨rn, 1⟩ : Q) [] ts2 = .ok ts2 from rfl]
    simp only [exBind_ok]
  unfold roundTripMatches roundTrip
  rw [hwt]
  dsimp only
  rw [hread]
  dsimp only
  exact hmatch

/-- Witness for C1 at a concrete two-track timeline sharing one URL. -/
theorem C1_witness : C1WF tShared ⟨25, 1⟩ = true ∧ roundTripMatches tShared = true :=
  ⟨by decide, C1_roundtrip tShared 25 (by decide)⟩

/-- Counterexample to claim C1 as stated: a timeline inside the claim's
domain (only gaps and effect-free External clips, no transitions) whose
fractional source-range start is truncated by the writer, so the round trip
does not reproduce the source range. -/
theorem C1_counterexample : C1Domain tFrac = true ∧ roundTripMatches tFrac = false := by
  decide

/- ### Producer counting (claim C2) -/

theorem producersWithResource_eq (e : Elem) (r : String) :
    producersWithResource e r = e.children.filter (isResProducer r) := rfl

theorem filterRes_cons_pos {r : String} {e : Elem} {l : List Elem}
    (h : isResProducer r e = true) :
    List.filter (isResProducer r) (e :: l) = e :: List.filter (isResProducer r) l := by
  rw [List.filter_cons, if_pos h]

theorem filterRes_cons_neg {r : String} {e : Elem} {l : List Elem}
    (h : isResProducer r e = false) :
    List.filter (isResProducer r) (e :: l) = List.filter (isResProducer r) l := by
  rw [List.filter_cons, if_neg (fun hc => by
    rw [h] at hc
    exact Bool.noConfusion hc)]

theorem mlt_property_mkProducer_resource (j : Nat) (s r : String) (ar : TimeRange)
    (nm : String) : mlt_property (mkProducer j s r ar nm) "resource" = some r := by
  unfold mlt_property
  rw [show (mkProducer j s r ar nm).children = property_elem "mlt_service" s ::
    (property_elem "resource" r ::
      (if nm ≠ "" then [property_elem "kdenlive:clipname" nm] else [])) from rfl]
  rw [findAttrIn_cons_neg (show ¬((property_elem "mlt_service" s).tag = "property" ∧
    (property_elem "mlt_service" s).get "name" = some "resource") from fun hc =>
      absurd (show some "mlt_service" = some "resource" from hc.2) (by decide))]
  rw [findAttrIn_cons_pos (show (property_elem "resource" r).tag = "property" ∧
    (property_elem "resource" r).get "name" = some "resource" from ⟨rfl, rfl⟩)]
  rfl

theorem isResProducer_mkProducer (j : Nat) (s r0 : String) (ar : TimeRange)
    (nm r : String) : isResProducer r (mkProducer j s r0 ar nm) = (r0 == r) := by
  unfold isResProducer
  rw [mlt_property_mkProducer_resource]
  rw [show ((mkProducer j s r0 ar nm).tag == "producer") = true from rfl]
  rw [Bool.true_and]
  show (some r0 == some r) = (r0 == r)
  by_cases h : r0 = r
  · rw [h, beq_self_eq_true, beq_self_eq_true]
  · rw [beq_eq_false_iff_ne.mpr h,
      beq_eq_false_iff_ne.mpr (show some r0 ≠ some r from fun hc =>
        h (Option.some_inj.mp hc))]

theorem alook_isSome_of_mem_keys {k : String} {l : List (String × α)}
    (h : k ∈ l.map Prod.fst) : (alook k l).isSome = true := by
  induction l with
  | nil => cases h
  | cons p t ih =>
    obtain ⟨a, b⟩ := p
    by_cases ha : a = k
    · show (if a = k then some b else alook k t).isSome = true
      rw [if_pos ha]
      rfl
    · show (if a = k then some b else alook k t).isSome = true
      rw [if_neg ha]
      rcases List.mem_cons.mp h with h | h
      · exact absurd h.symm ha
      · exact ih h

theorem mem_keys_of_alook {k : String} {l : List (String × α)}
    (h : (alook k l).isSome = true) : k ∈ l.map Prod.fst := by
  induction l with
  | nil => cases h
  | cons p t ih =>
    obtain ⟨a, b⟩ := p
    by_cases ha : a = k
    · subst ha
      exact List.mem_cons_self _ _
    · rw [show alook k ((a, b) :: t) = alook k t from by
        show (if a = k then some b else alook k t) = _
        rw [if_neg ha]] at h
      exact List.mem_cons_of_mem _ (ih h)

theorem mediaLib_nodup : ∀ {cs : List Clip} {acc : List (String × Elem)}
    {res0 : Option String} {lib : List (String × Elem)} {res2 : Option String},
    (acc.map Prod.fst).Nodup → mediaLib cs acc res0 = .ok (lib, res2) →
    (lib.map Prod.fst).Nodup := by
  intro cs
  induction cs with
  | nil =>
    intro acc res0 lib res2 hnd heq
    cases heq
    exact hnd
  | cons c rest ih =>
    intro acc res0 lib res2 hnd heq
    have heq0 : exBind (clipSvcRes c) (fun sr =>
      match sr with
      | none => mediaLib rest acc none
      | some (s, r, ar) =>
        if s ≠ "" ∧ r ≠ "" ∧ (alook r acc).isNone then
          mediaLib rest (acc ++ [(r, mkProducer acc.length s r ar c.name)]) (some r)
        else mediaLib rest acc (some r)) = .ok (lib, res2) := heq
    cases hsvc : clipSvcRes c with
    | error e =>
      rw [hsvc, exBind_error] at heq0
      cases heq0
    | ok sr =>
      rw [hsvc, exBind_ok] at heq0
      cases sr with
      | none => exact ih hnd heq0
      | some triple =>
        obtain ⟨s, r, ar⟩ := triple
        have heq1 : (if s ≠ "" ∧ r ≠ "" ∧ (alook r acc).isNone = true then
            mediaLib rest (acc ++ [(r, mkProducer acc.length s r ar c.name)]) (some r)
          else mediaLib rest acc (some r)) = Except.ok (lib, res2) := heq0
        by_cases hcond : s ≠ "" ∧ r ≠ "" ∧ (alook r acc).isNone
        · rw [if_pos hcond] at heq1
          refine ih ?_ heq1
          rw [List.map_append]
          rw [List.nodup_append]
          refine ⟨hnd, List.nodup_singleton _, ?_⟩
          intro x hx hx2
          rcases List.mem_singleton.mp hx2 with rfl
          have hsome := alook_isSome_of_mem_keys hx
          rw [Option.isNone_iff_eq_none.mp hcond.2.2] at hsome
          cases hsome
        · rw [if_neg hcond] at heq1
          exact ih hnd heq1

theorem filterRes_lib_zero {S : List String} {r : String} :
    ∀ {lib : List (String × Elem)} {j : Nat}, LibShape S j lib →
    r ∉ lib.map Prod.fst →
    List.filter (isResProducer r) (lib.map Prod.snd) = [] := by
  intro lib
  induction lib with
  | nil => intro j _ _; rfl
  | cons p rest ih =>
    intro j h hmem
    obtain ⟨r0, e0⟩ := p
    obtain ⟨⟨sv, ar, nm, _, _, he0⟩, hrest⟩ := h
    show List.filter (isResProducer r) (e0 :: rest.map Prod.snd) = []
    rw [filterRes_cons_neg (by
      rw [he0, isResProducer_mkProducer]
      rw [beq_eq_false_iff_ne]
      intro hc
      exact hmem (hc ▸ List.mem_cons_self _ _))]
    exact ih hrest fun hc => hmem (List.mem_cons_of_mem _ hc)

theorem filterRes_lib_one {S : List String} {r : String} :
    ∀ {lib : List (String × Elem)} {j : Nat}, LibShape S j lib →
    (lib.map Prod.fst).Nodup → (alook r lib).isSome = true →
    (List.filter (isResProducer r) (lib.map Prod.snd)).length = 1 := by
  intro lib
  induction lib with
  | nil => intro j _ _ hs; cases hs
  | cons p rest ih =>
    intro j h hnd hs
    obtain ⟨r0, e0⟩ := p
    obtain ⟨⟨sv, ar, nm, _, _, he0⟩, hrest⟩ := h
    rw [List.map_cons, List.nodup_cons] at hnd
    by_cases hr : r0 = r
    · subst hr
      show (List.filter (isResProducer r0) (e0 :: rest.map Prod.snd)).length = 1
      rw [filterRes_cons_pos (by rw [he0, isResProducer_mkProducer]; exact beq_self_eq_true r0)]
      rw [filterRes_lib_zero hrest hnd.1]
      rfl
    · show (List.filter (isResProducer r) (e0 :: rest.map Prod.snd)).length = 1
      rw [filterRes_cons_neg (by
        rw [he0, isResProducer_mkProducer]
        exact beq_eq_false_iff_ne.mpr hr)]
      refine ih hrest hnd.2 ?_
      rw [show alook r ((r0, e0) :: rest) = alook r rest from by
        show (if r0 = r then some e0 else alook r rest) = _
        rw [if_neg hr]] at hs
      exact hs

theorem filterRes_chunks {r : String} {lib : List (String × Elem)} :
    ∀ {trs : List Track} {k : Nat},
    List.filter (isResProducer r) (chunksOf lib trs k) = [] := by
  intro trs
  induction trs with
  | nil => intro k; rfl
  | cons tr rest ih =>
    intro k
    show List.filter (isResProducer r) (pl1Of tr k (itemElemsOf lib tr.items) ::
      pl2Of tr k :: subtractorOf tr k :: chunksOf lib rest (k + 1)) = []
    rw [filterRes_cons_neg (show isResProducer r
        (pl1Of tr k (itemElemsOf lib tr.items)) = false from rfl),
      filterRes_cons_neg (show isResProducer r (pl2Of tr k) = false from rfl),
      filterRes_cons_neg (show isResProducer r (subtractorOf tr k) = false from rfl)]
    exact ih

/-- Claim C2 (corrected): for timelines whose clip resources are nonempty and
distinct from the synthetic `black` resource, the writer emits exactly one
producer element carrying each distinct resource string — the nonemptiness
and `black`-freedom being the corrections the counterexample forces. -/
theorem C2_dedup (t : Timeline) (r : String) (h : C2WF t = true)
    (hr : r ∈ resourceKeys t) :
    ∃ e, writeTimeline t = .ok e ∧ (producersWithResource e r).length = 1 := by
  unfold C2WF at h
  have hC := List.all_eq_true.mp h
  have hml_ok : ∀ c ∈ eachClip t, mlClipOK ["qimage", "avformat", "color"] c := by
    intro c hc
    have hcw := hC c hc
    unfold mlClipOK
    cases hm : c.media_reference with
    | external u ar =>
      show serviceFor u ∈ ["qimage", "avformat", "color"]
      rcases serviceFor_cases u with hs | hs <;> rw [hs] <;> simp
    | generator kd ps ar =>
      show kd = "SolidColor" → _
      intro hk
      subst hk
      rw [hm] at hcw
      have hcw2 : (match alook "color" ps with
        | some v => decide (v ≠ "") && decide (v ≠ "black")
        | none => false) = true := hcw
      cases hv : alook "color" ps with
      | none =>
        rw [hv] at hcw2
        exact absurd hcw2 (fun hh => Bool.noConfusion hh)
      | some v => exact ⟨⟨v, rfl⟩, by simp⟩
    | missing => trivial
  obtain ⟨lib, resL, hml, hshape, _, hcomp⟩ :=
    mediaLib_closed hml_ok
      (show LibShape ["qimage", "avformat", "color"] 0 [] from trivial)
  have hnd := mediaLib_nodup (by simp) hml
  have hwok : ∀ tr ∈ t.tracks, ∀ c, Item.clip c ∈ tr.items → clipWOK lib c := by
    intro tr htr c hc
    have hcm := mem_eachClip htr hc
    have hcw := hC c hcm
    unfold clipWOK
    cases hm : c.media_reference with
    | external u ar =>
      rw [hm] at hcw
      have hcw2 : (decide (u ≠ "") && decide (u ≠ "black")) = true := hcw
      rw [Bool.and_eq_true] at hcw2
      have hune : u ≠ "" := of_decide_eq_true hcw2.1
      exact hcomp c hcm u (clipResKey_external hm) hune
    | generator kd ps ar =>
      rw [hm] at hcw
      by_cases hk : kd = "SolidColor"
      · subst hk
        have hcw2 : (match alook "color" ps with
          | some v => decide (v ≠ "") && decide (v ≠ "black")
          | none => false) = true := hcw
        cases hv : alook "color" ps with
        | none =>
          rw [hv] at hcw2
          exact absurd hcw2 (fun hh => Bool.noConfusion hh)
        | some v =>
          refine ⟨rfl, v, ?_⟩
          rw [hv] at hcw2
          have hcw3 : (decide (v ≠ "") && decide (v ≠ "black")) = true := hcw2
          rw [Bool.and_eq_true] at hcw3
          have hvne : v ≠ "" := of_decide_eq_true hcw3.1
          obtain ⟨p, hp⟩ := hcomp c hcm v (by
            rw [clipResKey_solid hm]
            exact hv) hvne
          exact ⟨p, hv, hp⟩
      · have hcw2 : (if kd = "SolidColor" then
            (match alook "color" ps with
             | some v => decide (v ≠ "") && decide (v ≠ "black")
             | none => false)
          else false) = true := hcw
        rw [if_neg hk] at hcw2
        exact absurd hcw2 (fun hh => Bool.noConfusion hh)
    | missing => trivial
  have hwt := writeTimeline_closed hml hwok
  obtain ⟨c, hcm, hck⟩ := List.mem_filterMap.mp hr
  have hcw := hC c hcm
  have hrne : r ≠ "" ∧ r ≠ "black" := by
    cases hm : c.media_reference with
    | external u ar =>
      rw [clipResKey_external hm] at hck
      have hur : u = r := Option.some_inj.mp hck
      subst hur
      rw [hm] at hcw
      have hcw2 : (decide (u ≠ "") && decide (u ≠ "black")) = true := hcw
      rw [Bool.and_eq_true] at hcw2
      exact ⟨of_decide_eq_true hcw2.1, of_decide_eq_true hcw2.2⟩
    | generator kd ps ar =>
      rw [hm] at hcw
      by_cases hk : kd = "SolidColor"
      · subst hk
        rw [clipResKey_solid hm] at hck
        have hcw2 : (match alook "color" ps with
          | some v => decide (v ≠ "") && decide (v ≠ "black")
          | none => false) = true := hcw
        rw [hck] at hcw2
        have hcw3 : (decide (r ≠ "") && decide (r ≠ "black")) = true := hcw2
        rw [Bool.and_eq_true] at hcw3
        exact ⟨of_decide_eq_true hcw3.1, of_decide_eq_true hcw3.2⟩
      · rw [clipResKey_gen_other hm hk] at hck
        cases hck
    | missing =>
      rw [clipResKey_missing hm] at hck
      cases hck
  obtain ⟨p, hp⟩ := hcomp c hcm r hck hrne.1
  have hsome : (alook r lib).isSome = true := by
    rw [hp]
    rfl
  refine ⟨_, hwt, ?_⟩
  rw [producersWithResource_eq]
  show (List.filter (isResProducer r) (profileElem (timelineRate t) ::
    (lib.map Prod.snd ++ [unsupportedProducer, mainBin lib.length, blackProducer] ++
      chunksOf lib t.tracks 1 ++ [maintractorOf (refsOf t.tracks 1)]))).length = 1
  rw [filterRes_cons_neg (show isResProducer r (profileElem (timelineRate t)) = false
    from rfl)]
  rw [List.filter_append, List.filter_append, List.filter_append]
  have hb : isResProducer r blackProducer = false := by
    unfold isResProducer
    rw [show mlt_property blackProducer "resource" = some "black" from rfl]
    rw [show (blackProducer.tag == "producer") = true from rfl, Bool.true_and]
    exact beq_eq_false_iff_ne.mpr (fun hc => hrne.2 (Option.some_inj.mp hc).symm)
  rw [filterRes_cons_neg (show isResProducer r unsupportedProducer = false from rfl),
    filterRes_cons_neg (show isResProducer r (mainBin lib.length) = false from rfl),
    filterRes_cons_neg hb]
  rw [filterRes_chunks]
  rw [filterRes_cons_neg (show isResProducer r (maintractorOf (refsOf t.tracks 1)) =
    false from rfl)]
  have h1 := filterRes_lib_one hshape hnd hsome
  simp [h1]

/-- Counterexample to claim C2 as stated: a clip whose External URL is the
empty string makes the writer raise `KeyError` at the entry lookup, so no
producer is emitted for that (or any) resource. -/
theorem C2_counterexample : writeTimeline tEmptyUrl = .error .keyError := rfl

/-- Witness for C2 at the shared-URL two-track timeline: one producer for
`a.mp4`, and both written playlist entries reference `producer0`. -/
theorem C2_witness :
    (C2WF tShared = true ∧ "a.mp4" ∈ resourceKeys tShared) ∧
    (∃ e, writeTimeline tShared = .ok e ∧
      (producersWithResource e "a.mp4").length = 1) ∧
    playlistEntries (writeTimeline tShared) 1 = [some "producer0"] ∧
    playlistEntries (writeTimeline tShared) 2 = [some "producer0"] :=
  ⟨⟨by decide, by decide⟩, C2_dedup tShared "a.mp4" (by decide) (by decide),
    by decide, by decide⟩
